import Mathlib

/-!
# Redis operator: a shallow embedding of the reconciliation core

The development follows `internal/controller/reconciler.go`,
`internal/controller/redis_controller.go`, `internal/controller/utils.go` and
`api/v1alpha1/redis_types.go`.

* Go pointers (`*int32`, `*corev1.Probe`, ...) are `Option`s; dereferencing a
  nil pointer and indexing a slice out of range are explicit `Panic`s.
* Go `(value, error)` results are `Except Err value`.
* The API server and the controller-runtime client are an explicit `World`:
  a store keyed by (namespace, name) per kind, a schedule of injected call
  failures, a random source, a clock, and the trace of every call issued.
-/

namespace RedisOperator

/-! ## Go runtime faults and error values -/

/-- Run-time faults of the Go program. -/
inductive Panic where
  | nilDereference
  | indexOutOfRange
  | makesliceLenOutOfRange
deriving DecidableEq, Repr

/-- Error values that flow through the controller. -/
inductive Err where
  | notFound
  | alreadyExists
  | conflict
  | other (code : Nat)
  | randFailure (code : Nat)
  | ownerReference (msg : String)
  | wrapped (msg : String) (cause : Err)
deriving DecidableEq, Repr

deriving instance DecidableEq for Except

/-- Model of `errors.IsNotFound`: the check looks through wrapped errors. -/
def Err.IsNotFound : Err → Bool
  | .notFound => true
  | .wrapped _ cause => cause.IsNotFound
  | _ => false

/-! ## Go maps

A `map[string]string` is an optional association list (`none` is the nil
map). Lookups take the first entry for a key; the functions below do not
require the keys to be distinct. -/

abbrev GoMap := Option (List (String × String))

/-- Value bound to `k` in an association list. -/
def alookup (k : String) : List (String × String) → Option String
  | [] => none
  | (k', v) :: rest => if k' = k then some v else alookup k rest

/-- Entries of a Go map, the nil map having none. -/
def GoMap.entries (m : GoMap) : List (String × String) := m.getD []

/-- Value bound to `k` in a Go map. -/
def GoMap.lookup (m : GoMap) (k : String) : Option String := alookup k m.entries

/-- Both association lists bind the same keys to the same values. -/
def sameBindings (a b : List (String × String)) : Bool :=
  a.all (fun e => alookup e.1 a == alookup e.1 b) &&
  b.all (fun e => alookup e.1 b == alookup e.1 a)

/-- Model of `reflect.DeepEqual` on two `map[string]string`: a nil map equals
only a nil map, two non-nil maps are equal when they hold the same bindings. -/
def GoMap.DeepEqual : GoMap → GoMap → Bool
  | none, none => true
  | some a, some b => sameBindings a b
  | _, _ => false

/-! ## Kubernetes object model (the fields the controller reads or writes) -/

structure OwnerReference where
  apiVersion : String
  kind : String
  name : String
  uid : String
  controller : Bool
  blockOwnerDeletion : Bool
deriving DecidableEq, Repr

structure ObjectMeta where
  name : String := ""
  ns : String := ""
  uid : String := ""
  generation : Int := 0
  labels : GoMap := none
  finalizers : List String := []
  deletionTimestamp : Option Nat := none
  ownerReferences : List OwnerReference := []
deriving DecidableEq, Repr

/-- The `intstr.IntOrString` union. -/
inductive IntOrString where
  | int (n : Int)
  | str (s : String)
deriving DecidableEq, Repr

/-- Model of `intstr.FromInt32`. -/
def FromInt32 (n : Int) : IntOrString := .int n

structure HTTPGetAction where
  path : String
  port : IntOrString
deriving DecidableEq, Repr

structure ProbeHandler where
  exec : Option (List String) := none
  httpGet : Option HTTPGetAction := none
  tcpSocket : Option IntOrString := none
deriving DecidableEq, Repr

structure Probe where
  handler : ProbeHandler := {}
  initialDelaySeconds : Int := 0
  timeoutSeconds : Int := 0
  periodSeconds : Int := 0
  successThreshold : Int := 0
  failureThreshold : Int := 0
deriving DecidableEq, Repr

structure SecretKeySelector where
  name : String
  key : String
deriving DecidableEq, Repr

structure EnvVarSource where
  secretKeyRef : Option SecretKeySelector := none
deriving DecidableEq, Repr

structure EnvVar where
  name : String
  value : String := ""
  valueFrom : Option EnvVarSource := none
deriving DecidableEq, Repr

structure ResourceRequirements where
  limits : GoMap := none
  requests : GoMap := none
deriving DecidableEq, Repr

/-- Model of `reflect.DeepEqual` on two `corev1.ResourceRequirements`. -/
def ResourceRequirements.DeepEqual (a b : ResourceRequirements) : Bool :=
  a.limits.DeepEqual b.limits && a.requests.DeepEqual b.requests

structure ContainerPort where
  name : String := ""
  containerPort : Int
deriving DecidableEq, Repr

/-- A container; `env` is a Go slice (`none` is the nil slice). -/
structure Container where
  name : String := ""
  image : String := ""
  ports : List ContainerPort := []
  env : Option (List EnvVar) := none
  resources : ResourceRequirements := {}
  readinessProbe : Option Probe := none
  livenessProbe : Option Probe := none
deriving DecidableEq, Repr

/-- The pod spec; `containers` is a Go slice (`none` is the nil slice). -/
structure PodSpec where
  containers : Option (List Container) := none
deriving DecidableEq, Repr

structure PodTemplateSpec where
  labels : GoMap := none
  spec : PodSpec := {}
deriving DecidableEq, Repr

structure DeploymentSpec where
  replicas : Option Int := none
  selector : GoMap := none
  template : PodTemplateSpec := {}
deriving DecidableEq, Repr

structure DeploymentStatus where
  availableReplicas : Int := 0
deriving DecidableEq, Repr

structure Deployment where
  meta : ObjectMeta := {}
  spec : DeploymentSpec := {}
  status : DeploymentStatus := {}
deriving DecidableEq, Repr

structure ServicePort where
  name : String := ""
  protocol : String := ""
  port : Int := 0
  targetPort : IntOrString := .int 0
  nodePort : Int := 0
deriving DecidableEq, Repr

structure ServiceSpec where
  ports : List ServicePort := []
  selector : GoMap := none
  clusterIP : String := ""
  type : String := ""
deriving DecidableEq, Repr

structure Service where
  meta : ObjectMeta := {}
  spec : ServiceSpec := {}
deriving DecidableEq, Repr

structure Secret where
  meta : ObjectMeta := {}
  type : String := ""
  data : List (String × String) := []
  stringData : List (String × String) := []
deriving DecidableEq, Repr

inductive ConditionStatus where
  | ConditionTrue
  | ConditionFalse
  | ConditionUnknown
deriving DecidableEq, Repr

/-- A `metav1.Condition`; `lastTransitionTime = none` is the zero time. -/
structure Condition where
  type : String
  status : ConditionStatus
  observedGeneration : Int := 0
  lastTransitionTime : Option Nat := none
  reason : String := ""
  message : String := ""
deriving DecidableEq, Repr

/-! ## The custom resource (`api/v1alpha1/redis_types.go`) -/

/-- The `Service` block of the Redis spec. -/
structure ServiceConfig where
  name : String := ""
  type : String := ""
  port : Option Int := none
deriving DecidableEq, Repr

structure RedisSpec where
  image : String := ""
  replicas : Option Int := none
  port : Option Int := none
  passwordSecretName : String := ""
  env : Option (List EnvVar) := none
  service : ServiceConfig := {}
  resources : ResourceRequirements := {}
  readinessProbe : Option Probe := none
  livenessProbe : Option Probe := none
deriving DecidableEq, Repr

structure RedisStatus where
  passwordSecretName : String := ""
  conditions : List Condition := []
deriving DecidableEq, Repr

structure Redis where
  meta : ObjectMeta := {}
  spec : RedisSpec := {}
  status : RedisStatus := {}
deriving DecidableEq, Repr

/-! ## Library helpers used by the controller -/

/-- Model of `meta.FindStatusCondition`: the first condition of the type. -/
def FindStatusCondition (conditions : List Condition) (conditionType : String) :
    Option Condition :=
  conditions.find? (fun c => c.type = conditionType)

/-- In-place update of the first condition of the given type. -/
def modifyFirstCondition (conditionType : String) (f : Condition → Condition) :
    List Condition → List Condition
  | [] => []
  | c :: rest =>
    if c.type = conditionType then f c :: rest
    else c :: modifyFirstCondition conditionType f rest

/-- The in-place update `meta.SetStatusCondition` applies to an existing
condition: the transition time is refreshed only when the status flips. -/
def updateCondition (newCondition : Condition) (now : Nat) (existing : Condition) :
    Condition :=
  { existing with
      status := newCondition.status
      lastTransitionTime :=
        if existing.status ≠ newCondition.status then
          (if newCondition.lastTransitionTime ≠ none then newCondition.lastTransitionTime
           else some now)
        else existing.lastTransitionTime
      reason := newCondition.reason
      message := newCondition.message
      observedGeneration := newCondition.observedGeneration }

/-- Model of `meta.SetStatusCondition` at clock reading `now`: a condition of
a new type is appended (stamped with `now` when it carries no transition
time); an existing one is updated in place. -/
def SetStatusCondition (conditions : List Condition) (newCondition : Condition)
    (now : Nat) : List Condition :=
  match FindStatusCondition conditions newCondition.type with
  | none =>
    conditions ++
      [{ newCondition with
          lastTransitionTime :=
            if newCondition.lastTransitionTime = none then some now
            else newCondition.lastTransitionTime }]
  | some _ =>
    modifyFirstCondition newCondition.type (updateCondition newCondition now) conditions

/-- Model of `controllerutil.ContainsFinalizer`. -/
def ContainsFinalizer (o : Redis) (finalizer : String) : Bool :=
  o.meta.finalizers.any (fun e => e = finalizer)

/-- Model of `controllerutil.AddFinalizer`. -/
def AddFinalizer (o : Redis) (finalizer : String) : Redis :=
  if o.meta.finalizers.any (fun e => e = finalizer) then o
  else { o with meta := { o.meta with finalizers := o.meta.finalizers ++ [finalizer] } }

/-- Model of `controllerutil.RemoveFinalizer`. -/
def RemoveFinalizer (o : Redis) (finalizer : String) : Redis :=
  { o with meta :=
      { o.meta with finalizers := o.meta.finalizers.filter (fun e => e ≠ finalizer) } }

/-- The owner reference `ctrl.SetControllerReference` builds for a Redis. -/
def controllerRef (owner : Redis) : OwnerReference :=
  { apiVersion := "redis.yazio.com/v1alpha1"
    kind := "Redis"
    name := owner.meta.name
    uid := owner.meta.uid
    controller := true
    blockOwnerDeletion := true }

/-- Two owner references name the same object (group, kind and name). -/
def referSameObject (a b : OwnerReference) : Bool :=
  a.apiVersion = b.apiVersion && a.kind = b.kind && a.name = b.name

/-- Replace the reference to the same object, or append. -/
def upsertOwnerRef (ref : OwnerReference) : List OwnerReference → List OwnerReference
  | [] => [ref]
  | r :: rest =>
    if referSameObject r ref then ref :: rest else r :: upsertOwnerRef ref rest

/-- Model of `ctrl.SetControllerReference` for a Redis owner: refused for an
object of another namespace or one that already has a different controller. -/
def SetControllerReference (owner : Redis) (object : ObjectMeta) : Except Err ObjectMeta :=
  if owner.meta.ns ≠ "" ∧ object.ns = "" then
    .error (.ownerReference "cluster-scoped resource must not have a namespace-scoped owner")
  else if owner.meta.ns ≠ "" ∧ owner.meta.ns ≠ object.ns then
    .error (.ownerReference "cross-namespace owner references are disallowed")
  else
    match object.ownerReferences.find? (fun r => r.controller) with
    | some existing =>
      if referSameObject existing (controllerRef owner) then
        .ok { object with
                ownerReferences := upsertOwnerRef (controllerRef owner) object.ownerReferences }
      else .error (.ownerReference "object is already owned by another controller")
    | none =>
      .ok { object with
              ownerReferences := upsertOwnerRef (controllerRef owner) object.ownerReferences }

/-! ## `utils.go` -/

/-- The `ctrl.Result` of a pass; `RequeueAfter` is a duration in nanoseconds. -/
structure Result where
  Requeue : Bool := false
  RequeueAfter : Nat := 0
deriving DecidableEq, Repr

/-- One second, `time.Second`, in nanoseconds. -/
def Second : Nat := 1000000000

/-- The delay for re-queuing the reconciliation loop. -/
def RequeueDelay : Nat := 10 * Second

def reconciled : Result × Option Err := ({}, none)

def requeueInstanceWithError (_instanceName : String) (_namespace : String) (err : Err) :
    Result × Option Err :=
  ({ Requeue := true, RequeueAfter := RequeueDelay }, some err)

/-! ## Desired-state builders (`reconciler.go`) -/

/-- The name of the finalizer used for Redis resources. -/
def FinalizerName : String := "redis.yazio.com/finalizer"

def labelsForRedis (name : String) : GoMap :=
  some [("app", "redis"), ("redis_cr", name)]

/-- Dereference of a Go pointer. -/
def deref {α : Type} : Option α → Except Panic α
  | some a => .ok a
  | none => .error .nilDereference

/-- A controller reference is attached when `SetControllerReference` accepts
it; its error is discarded, as in `_ = ctrl.SetControllerReference(...)`. -/
def withControllerReference (owner : Redis) (object : ObjectMeta) : ObjectMeta :=
  match SetControllerReference owner object with
  | .ok m => m
  | .error _ => object

/-- Returns a Redis Service object. -/
def serviceForRedis (redis : Redis) : Except Panic Service := do
  let labels := labelsForRedis redis.meta.name
  let spec := redis.spec.service
  let port ← deref spec.port
  let targetPort ← deref redis.spec.port
  let svc : Service :=
    { meta := { name := spec.name, ns := redis.meta.ns, labels := labels }
      spec :=
        { selector := labels
          ports := [{ port := port, targetPort := FromInt32 targetPort, name := "redis" }]
          type := spec.type } }
  return { svc with meta := withControllerReference redis svc.meta }

/-- Returns a Redis Deployment object. -/
def deploymentForRedis (redis : Redis) : Except Panic Deployment := do
  let labels := labelsForRedis redis.meta.name
  let envVars0 : List EnvVar :=
    [{ name := "REDIS_PASSWORD"
       valueFrom := some
        { secretKeyRef := some { name := redis.spec.passwordSecretName, key := "password" } } }]
  let envVars : List EnvVar :=
    match redis.spec.env with
    | some extra => envVars0 ++ extra
    | none => envVars0
  let tcpPort ← deref redis.spec.port
  let defaultLiveness : Probe :=
    { handler := { tcpSocket := some (FromInt32 tcpPort) }
      initialDelaySeconds := 15
      timeoutSeconds := 1
      periodSeconds := 20
      failureThreshold := 3 }
  let livenessProbe : Probe :=
    match redis.spec.livenessProbe with
    | some p => p
    | none => defaultLiveness
  let defaultReadiness : Probe :=
    { handler := { exec := some ["redis-cli", "ping"] }
      initialDelaySeconds := 5
      timeoutSeconds := 1
      periodSeconds := 10
      failureThreshold := 3 }
  let readinessProbe : Probe :=
    match redis.spec.readinessProbe with
    | some p => p
    | none => defaultReadiness
  let containerPort ← deref redis.spec.port
  let dep : Deployment :=
    { meta := { name := redis.meta.name, ns := redis.meta.ns }
      spec :=
        { replicas := redis.spec.replicas
          selector := labels
          template :=
            { labels := labels
              spec :=
                { containers := some
                    [{ image := redis.spec.image
                       name := "redis"
                       ports := [{ containerPort := containerPort, name := "redis" }]
                       env := some envVars
                       resources := redis.spec.resources
                       readinessProbe := some readinessProbe
                       livenessProbe := some livenessProbe }] } } } }
  return { dep with meta := withControllerReference redis dep.meta }

/-- Compares the replica counts of two deployments. -/
def replicasMatch (foundReplicas desiredReplicas : Option Int) : Bool :=
  if foundReplicas = none ∧ desiredReplicas = none then true
  else if foundReplicas = none ∨ desiredReplicas = none then false
  else foundReplicas = desiredReplicas

/-- Length of a Go slice, the nil slice having length 0. -/
def sliceLen {α : Type} (s : Option (List α)) : Nat := (s.getD []).length

/-- Element `i` of a Go slice; out of range is a run-time fault. -/
def sliceIndex {α : Type} (s : Option (List α)) (i : Nat) : Except Panic α :=
  match (s.getD [])[i]? with
  | some a => .ok a
  | none => .error .indexOutOfRange

/-- Semantically compares two PodTemplateSpecs for the managed fields. -/
def templatesMatch (found desired : PodTemplateSpec) : Except Panic Bool := do
  if found.spec.containers = none ∧ sliceLen found.spec.containers < 1 then
    return false
  else
    let foundContainer ← sliceIndex found.spec.containers 0
    let desiredContainer ← sliceIndex desired.spec.containers 0
    if foundContainer.image ≠ desiredContainer.image then
      return false
    else if !(foundContainer.resources.DeepEqual desiredContainer.resources) then
      return false
    else if foundContainer.livenessProbe = none ∨ foundContainer.readinessProbe = none then
      return false
    else if !(decide (foundContainer.env = desiredContainer.env)) then
      return false
    else
      return true

/-! ## The world: store, failure schedule, random source, clock, call trace

The store and the client are collaborators of the controller. A read returns
the stored object or not-found; a create fails with already-exists when the
key is taken; update, status update and patch need the object to exist. Any
call can moreover be made to fail by the schedule `faults`, indexed by the
number of calls issued so far; a failed call changes nothing. -/

/-- A (namespace, name) pair. -/
abbrev Key := String × String

structure Store where
  redis : Key → Option Redis
  secrets : Key → Option Secret
  services : Key → Option Service
  deployments : Key → Option Deployment

/-- A call issued to the store, with its payload. -/
inductive Call where
  | getRedis (key : Key)
  | getSecret (key : Key)
  | getService (key : Key)
  | getDeployment (key : Key)
  | createSecret (obj : Secret)
  | createService (obj : Service)
  | createDeployment (obj : Deployment)
  | update (obj : Redis)
  | statusUpdate (obj : Redis)
  | patchService (obj base : Service)
  | patchDeployment (obj base : Deployment)
  | statusPatch (obj base : Redis)
deriving DecidableEq, Repr

/-- The call is a write (anything but a read). -/
def Call.isWrite : Call → Bool
  | .getRedis _ | .getSecret _ | .getService _ | .getDeployment _ => false
  | _ => true

/-- The call creates an object. -/
def Call.isCreate : Call → Bool
  | .createSecret _ | .createService _ | .createDeployment _ => true
  | _ => false

/-- The call patches a child object (Endpoint or Workload). -/
def Call.isChildPatch : Call → Bool
  | .patchService _ _ | .patchDeployment _ _ => true
  | _ => false

/-- The call is an update or a status update of the instance. -/
def Call.isUpdate : Call → Bool
  | .update _ | .statusUpdate _ => true
  | _ => false

/-- The call patches a Workload. -/
def Call.isDeploymentPatch : Call → Bool
  | .patchDeployment _ _ => true
  | _ => false

/-- The call is a status patch. -/
def Call.isStatusPatch : Call → Bool
  | .statusPatch _ _ => true
  | _ => false

/-- An event handed to the recorder. -/
structure Event where
  eventtype : String
  reason : String
  message : String
deriving DecidableEq, Repr

structure World where
  store : Store
  faults : Nat → Option Err
  rand : Nat → Option Nat
  randPos : Nat := 0
  now : Nat := 0
  calls : List Call := []
  events : List Event := []
  /-- The cluster address the server allocates to a Service created under a key. -/
  clusterIPs : Key → String := fun _ => "10.96.0.10"

/-- A computation of the controller: it may fault, and it threads the world. -/
def M (α : Type) : Type := World → Except Panic α × World

instance : Monad M where
  pure a := fun w => (.ok a, w)
  bind m f := fun w =>
    match m w with
    | (.ok a, w1) => f a w1
    | (.error p, w1) => (.error p, w1)

/-- A pure computation that may fault, run inside `M`. -/
def liftExcept {α : Type} : Except Panic α → M α
  | .ok a => fun w => (.ok a, w)
  | .error p => fun w => (.error p, w)

/-- Reading of the clock, `time.Now()`. -/
def readClock : M Nat := fun w => (.ok w.now, w)

/-- Model of `r.Recorder.Event`. -/
def recordEvent (eventtype reason message : String) : M Unit := fun w =>
  (.ok (), { w with events := w.events ++ [⟨eventtype, reason, message⟩] })

/-- Outcome of a call issued in world `w`: the scheduled failure if there is
one, else what the action does on the store. -/
def callOutcome {α : Type} (w : World) (act : Store → Except Err (α × Store)) :
    Except Err (α × Store) :=
  match w.faults w.calls.length with
  | some e => .error e
  | none => act w.store

/-- The store after a call with the given outcome: a failed call changes
nothing. -/
def storeAfter {α : Type} (s : Store) : Except Err (α × Store) → Store
  | .ok (_, s1) => s1
  | .error _ => s

/-- What a call with the given outcome returns to the caller. -/
def returned {α : Type} : Except Err (α × Store) → Except Err α
  | .ok (a, _) => .ok a
  | .error e => .error e

/-- One round trip to the store: the call is traced, then either fails as
scheduled or acts on the store. -/
def storeCall {α : Type} (c : Call) (act : Store → Except Err (α × Store)) :
    M (Except Err α) := fun w =>
  (.ok (returned (callOutcome w act)),
    { w with calls := w.calls ++ [c], store := storeAfter w.store (callOutcome w act) })

/-- Key under which an object is stored. -/
def ObjectMeta.key (m : ObjectMeta) : Key := (m.ns, m.name)

def GetRedis (key : Key) : M (Except Err Redis) :=
  storeCall (.getRedis key) fun s =>
    match s.redis key with
    | some o => .ok (o, s)
    | none => .error .notFound

def GetSecret (key : Key) : M (Except Err Secret) :=
  storeCall (.getSecret key) fun s =>
    match s.secrets key with
    | some o => .ok (o, s)
    | none => .error .notFound

def GetService (key : Key) : M (Except Err Service) :=
  storeCall (.getService key) fun s =>
    match s.services key with
    | some o => .ok (o, s)
    | none => .error .notFound

def GetDeployment (key : Key) : M (Except Err Deployment) :=
  storeCall (.getDeployment key) fun s =>
    match s.deployments key with
    | some o => .ok (o, s)
    | none => .error .notFound

/-- The stored form of a secret: `stringData` is merged into `data`, its
values taking precedence, and is not kept. -/
def Secret.stored (obj : Secret) : Secret :=
  { obj with data := obj.stringData ++ obj.data, stringData := [] }

def CreateSecret (obj : Secret) : M (Except Err Secret) :=
  storeCall (.createSecret obj) fun s =>
    match s.secrets obj.meta.key with
    | some _ => .error .alreadyExists
    | none => .ok (obj.stored, { s with secrets := Function.update s.secrets obj.meta.key (some obj.stored) })

/-- The stored form of a service port: the server sets an unset protocol to
TCP. -/
def ServicePort.stored (p : ServicePort) : ServicePort :=
  { p with protocol := if p.protocol = "" then "TCP" else p.protocol }

/-- The stored form of a service: the server fills in the protocol of every
port and, when none is given, the cluster address it allocates. -/
def Service.stored (obj : Service) (allocated : String) : Service :=
  { obj with
      spec :=
        { obj.spec with
            ports := obj.spec.ports.map ServicePort.stored
            clusterIP := if obj.spec.clusterIP = "" then allocated else obj.spec.clusterIP } }

/-- The stored form of a probe: the server sets an unset (zero) timeout,
period, success threshold and failure threshold to 1, 10, 1 and 3; the test
`redis_controller_test.go:193-218` reads back success threshold 1 from probes
that `deploymentForRedis` builds without one. -/
def Probe.stored (p : Probe) : Probe :=
  { p with
      timeoutSeconds := if p.timeoutSeconds = 0 then 1 else p.timeoutSeconds
      periodSeconds := if p.periodSeconds = 0 then 10 else p.periodSeconds
      successThreshold := if p.successThreshold = 0 then 1 else p.successThreshold
      failureThreshold := if p.failureThreshold = 0 then 3 else p.failureThreshold }

/-- The stored form of a container: its probes in their stored form. -/
def Container.stored (c : Container) : Container :=
  { c with
      readinessProbe := c.readinessProbe.map Probe.stored
      livenessProbe := c.livenessProbe.map Probe.stored }

/-- The stored form of a deployment: the server sets an unset replica count to
1 and stores every container of the pod template in its stored form. -/
def Deployment.stored (obj : Deployment) : Deployment :=
  { obj with
      spec :=
        { obj.spec with
            replicas := some (obj.spec.replicas.getD 1)
            template :=
              { obj.spec.template with
                  spec :=
                    { containers :=
                        obj.spec.template.spec.containers.map (List.map Container.stored) } } } }

/-- Model of `r.Create` on a Service: the server stores the object with its
defaults filled in, and the caller's object is overwritten with what is
stored. -/
def CreateService (obj : Service) : M (Except Err Service) := fun w =>
  storeCall (.createService obj) (fun s =>
    match s.services obj.meta.key with
    | some _ => .error .alreadyExists
    | none =>
      .ok (obj.stored (w.clusterIPs obj.meta.key),
        { s with
            services := Function.update s.services obj.meta.key
              (some (obj.stored (w.clusterIPs obj.meta.key))) })) w

/-- Model of `r.Create` on a Deployment: the server stores the object with its
defaults filled in, and the caller's object is overwritten with what is
stored. -/
def CreateDeployment (obj : Deployment) : M (Except Err Deployment) :=
  storeCall (.createDeployment obj) fun s =>
    match s.deployments obj.meta.key with
    | some _ => .error .alreadyExists
    | none =>
      .ok (obj.stored,
        { s with deployments := Function.update s.deployments obj.meta.key (some obj.stored) })

/-- Model of `r.Update` on a Redis: metadata and spec are replaced, the status
is kept (it has its own channel); an object under deletion whose last
finalizer is removed leaves the store. -/
def Update (obj : Redis) : M (Except Err Redis) :=
  storeCall (.update obj) fun s =>
    match s.redis obj.meta.key with
    | none => .error .notFound
    | some cur =>
      let new : Redis := { obj with status := cur.status }
      if new.meta.deletionTimestamp ≠ none ∧ new.meta.finalizers = [] then
        .ok (new, { s with redis := Function.update s.redis obj.meta.key none })
      else
        .ok (new, { s with redis := Function.update s.redis obj.meta.key (some new) })

/-- Model of `r.Status().Update` on a Redis: only the status is replaced. -/
def StatusUpdate (obj : Redis) : M (Except Err Redis) :=
  storeCall (.statusUpdate obj) fun s =>
    match s.redis obj.meta.key with
    | none => .error .notFound
    | some cur =>
      let new : Redis := { cur with status := obj.status }
      .ok (new, { s with redis := Function.update s.redis obj.meta.key (some new) })

/-! ### Merge patches

`client.MergeFrom(base)` sends the JSON merge patch that turns `base` into the
object handed to `Patch`; the server applies it to what it stores. A scalar or
list field is in the patch when it differs between the two, and is then
replaced as a whole; a string map is patched key by key. -/

/-- A field replaced as a whole by a merge patch. -/
def pick {α : Type} [DecidableEq α] (base obj stored : α) : α :=
  if obj = base then stored else obj

/-- Key-by-key part of the patch from `base` to `obj`: a key whose binding
differs is set, a key only `base` binds is removed. -/
def mapDiff (base obj : List (String × String)) : List (String × Option String) :=
  (obj.filterMap fun e =>
    if alookup e.1 base = alookup e.1 obj then none else some (e.1, alookup e.1 obj)) ++
  (base.filterMap fun e =>
    if alookup e.1 obj = none then some (e.1, none) else none)

/-- All entries but those of key `k`. -/
def aerase (k : String) (m : List (String × String)) : List (String × String) :=
  m.filter (fun e => e.1 ≠ k)

/-- Apply one entry of a map patch; binding a key to the value it has, or
removing a key that is not bound, changes nothing. -/
def applyMapOp (m : List (String × String)) (op : String × Option String) :
    List (String × String) :=
  match op.2 with
  | some v => if alookup op.1 m = some v then m else aerase op.1 m ++ [(op.1, v)]
  | none => if alookup op.1 m = none then m else aerase op.1 m

/-- A string-map field under the merge patch from `base` to `obj`. An empty
map is omitted from the JSON form, so emptying the map removes the field. -/
def mergeMap (base obj stored : GoMap) : GoMap :=
  if obj.entries = [] then
    (if base.entries = [] then stored
     else if stored.entries = [] then stored else none)
  else
    match mapDiff base.entries obj.entries with
    | [] => stored
    | op :: ops => some ((op :: ops).foldl applyMapOp stored.entries)

/-- The stored Service after the merge patch from `base` to `obj`. -/
def mergePatchService (base obj stored : Service) : Service :=
  { meta :=
      { stored.meta with
          labels := mergeMap base.meta.labels obj.meta.labels stored.meta.labels
          ownerReferences :=
            pick base.meta.ownerReferences obj.meta.ownerReferences stored.meta.ownerReferences }
    spec :=
      { ports := pick base.spec.ports obj.spec.ports stored.spec.ports
        selector := mergeMap base.spec.selector obj.spec.selector stored.spec.selector
        clusterIP := pick base.spec.clusterIP obj.spec.clusterIP stored.spec.clusterIP
        type := pick base.spec.type obj.spec.type stored.spec.type } }

/-- The stored Deployment after the merge patch from `base` to `obj`; the
status is not written through this channel. -/
def mergePatchDeployment (base obj stored : Deployment) : Deployment :=
  { meta :=
      { stored.meta with
          labels := mergeMap base.meta.labels obj.meta.labels stored.meta.labels
          ownerReferences :=
            pick base.meta.ownerReferences obj.meta.ownerReferences stored.meta.ownerReferences }
    spec :=
      { replicas := pick base.spec.replicas obj.spec.replicas stored.spec.replicas
        selector := mergeMap base.spec.selector obj.spec.selector stored.spec.selector
        template :=
          { labels :=
              mergeMap base.spec.template.labels obj.spec.template.labels
                stored.spec.template.labels
            spec :=
              { containers :=
                  pick base.spec.template.spec.containers obj.spec.template.spec.containers
                    stored.spec.template.spec.containers } } }
    status := stored.status }

/-- The stored Redis after a status merge patch from `base` to `obj`: only
status fields are written. -/
def mergePatchStatus (base obj stored : Redis) : Redis :=
  { stored with
      status :=
        { passwordSecretName :=
            pick base.status.passwordSecretName obj.status.passwordSecretName
              stored.status.passwordSecretName
          conditions :=
            pick base.status.conditions obj.status.conditions stored.status.conditions } }

/-- Model of `r.Patch(ctx, obj, client.MergeFrom(base))` on a Service. -/
def PatchService (obj base : Service) : M (Except Err Service) :=
  storeCall (.patchService obj base) fun s =>
    match s.services obj.meta.key with
    | none => .error .notFound
    | some cur =>
      let new := mergePatchService base obj cur
      .ok (new, { s with services := Function.update s.services obj.meta.key (some new) })

/-- Model of `r.Patch(ctx, obj, client.MergeFrom(base))` on a Deployment. -/
def PatchDeployment (obj base : Deployment) : M (Except Err Deployment) :=
  storeCall (.patchDeployment obj base) fun s =>
    match s.deployments obj.meta.key with
    | none => .error .notFound
    | some cur =>
      let new := mergePatchDeployment base obj cur
      .ok (new, { s with deployments := Function.update s.deployments obj.meta.key (some new) })

/-- Model of `r.Status().Patch(ctx, obj, client.MergeFrom(base))` on a Redis. -/
def StatusPatch (obj base : Redis) : M (Except Err Redis) :=
  storeCall (.statusPatch obj base) fun s =>
    match s.redis obj.meta.key with
    | none => .error .notFound
    | some cur =>
      let new := mergePatchStatus base obj cur
      .ok (new, { s with redis := Function.update s.redis obj.meta.key (some new) })

/-! ## Password generation (`reconciler.go`) -/

def charset : String := "abcdefghijklmnopqrstuvwxyzABCDEFGHIJKLMNOPQRSTUVWXYZ0123456789"

/-- Model of `rand.Int(rand.Reader, max)`: one draw from the random source,
which either fails or yields a number below `max`. -/
def randInt (max : Nat) : M (Except Err Nat) := fun w =>
  (.ok (match w.rand w.randPos with
        | some v => .ok (v % max)
        | none => .error (.randFailure w.randPos)),
    { w with randPos := w.randPos + 1 })

/-- The loop of `generateRandomPassword`: `n` more bytes after those in `b`. -/
def generateLoop : Nat → List Char → M (Except Err (List Char))
  | 0, b => pure (.ok b)
  | n + 1, b => do
    match ← randInt charset.length with
    | .error err => return .error err
    | .ok num =>
      let c ← liftExcept (sliceIndex (some charset.toList) num)
      generateLoop n (b ++ [c])

def generateRandomPassword (length : Int) : M (Except Err String) :=
  if length < 0 then liftExcept (.error .makesliceLenOutOfRange)
  else do
    match ← generateLoop length.toNat [] with
    | .error err => return .error err
    | .ok b => return .ok (String.mk b)

/-! ## Child reconcilers (`reconciler.go`) -/

/-- Ensures the secret for the Redis instance exists. -/
def reconcileSecret (redis : Redis) : M (Except Err Secret) := do
  let secretName := redis.spec.passwordSecretName
  match ← GetSecret (redis.meta.ns, secretName) with
  | .error err =>
    if err.IsNotFound then
      match ← generateRandomPassword 16 with
      | .error err =>
        return .error (.wrapped "failed to generate random password" err)
      | .ok password =>
        let newSecret : Secret :=
          { meta := { name := secretName, ns := redis.meta.ns }
            type := "Opaque"
            stringData := [("password", password)] }
        match SetControllerReference redis newSecret.meta with
        | .error err => return .error err
        | .ok owned =>
          match ← CreateSecret { newSecret with meta := owned } with
          | .error err => return .error err
          | .ok created =>
            recordEvent "Normal" "CreatedSecret" ("Created secret " ++ secretName)
            return .ok created
    else
      return .error err
  | .ok secret => return .ok secret

/-- The port loop of `reconcileService`: position `i` of the found ports is
compared with position `i` of the desired ports and overwritten on a
difference in number or name. Returns the ports and whether any was
overwritten. -/
def syncPorts (desired : List ServicePort) :
    Nat → List ServicePort → Except Panic (List ServicePort × Bool)
  | _, [] => .ok ([], false)
  | i, port :: rest => do
    let want ← sliceIndex (some desired) i
    let (rest1, changed) ← syncPorts desired (i + 1) rest
    if port.port ≠ want.port ∨ port.name ≠ want.name then
      return (want :: rest1, true)
    else
      return (port :: rest1, changed)

/-- The found Endpoint as `reconcileService` has it in memory after its three
comparisons: type and selector overwritten where they differ from the desired
ones, ports as left by the port loop. -/
def syncedService (found desired : Service) (ports : List ServicePort) : Service :=
  { found with
      spec :=
        { found.spec with
            type :=
              if found.spec.type ≠ desired.spec.type then desired.spec.type
              else found.spec.type
            ports := ports
            selector :=
              if !(found.spec.selector.DeepEqual desired.spec.selector) then
                desired.spec.selector
              else found.spec.selector } }

/-- Ensures the service for the Redis instance is up-to-date. -/
def reconcileService (redis : Redis) : M (Except Err Service) := do
  let desiredSvc ← liftExcept (serviceForRedis redis)
  match ← GetService (redis.meta.ns, desiredSvc.meta.name) with
  | .error err =>
    if err.IsNotFound then
      match ← CreateService desiredSvc with
      | .error err => return .error err
      | .ok created =>
        recordEvent "Normal" "CreatedService" ("Created service " ++ desiredSvc.meta.name)
        return .ok created
    else
      return .error err
  | .ok foundSvc =>
    let typeDiffers : Bool := foundSvc.spec.type ≠ desiredSvc.spec.type
    let synced ← liftExcept (syncPorts desiredSvc.spec.ports 0 foundSvc.spec.ports)
    let selectorDiffers : Bool := !(foundSvc.spec.selector.DeepEqual desiredSvc.spec.selector)
    let needsUpdate : Bool := typeDiffers || synced.2 || selectorDiffers
    let foundSvc := syncedService foundSvc desiredSvc synced.1
    if needsUpdate then
      match ← PatchService foundSvc desiredSvc with
      | .error err => return .error err
      | .ok patched =>
        recordEvent "Normal" "UpdatedService" ("Updated service " ++ desiredSvc.meta.name)
        return .ok patched
    else
      return .ok foundSvc

/-- The found Workload as `reconcileDeployment` has it in memory after its two
comparisons: the replica count overwritten when it does not match, the pod
template overwritten when `templatesMatch` said no. -/
def syncedDeployment (found desired : Deployment) (sameTemplate : Bool) : Deployment :=
  { found with
      spec :=
        { found.spec with
            replicas :=
              if !(replicasMatch found.spec.replicas desired.spec.replicas) then
                desired.spec.replicas
              else found.spec.replicas
            template :=
              if !sameTemplate then desired.spec.template else found.spec.template } }

/-- Ensures the deployment for the Redis instance is up-to-date. -/
def reconcileDeployment (redis : Redis) : M (Except Err Deployment) := do
  let desiredDep ← liftExcept (deploymentForRedis redis)
  match ← GetDeployment (redis.meta.ns, desiredDep.meta.name) with
  | .error err =>
    if err.IsNotFound then
      match ← CreateDeployment desiredDep with
      | .error err => return .error err
      | .ok created =>
        recordEvent "Normal" "CreatedDeployment" ("Created deployment " ++ desiredDep.meta.name)
        return .ok created
    else
      return .error err
  | .ok foundDep =>
    let replicasDiffer : Bool := !(replicasMatch foundDep.spec.replicas desiredDep.spec.replicas)
    let sameTemplate ← liftExcept (templatesMatch foundDep.spec.template desiredDep.spec.template)
    let needsUpdate : Bool := replicasDiffer || !sameTemplate
    let base := foundDep
    let foundDep := syncedDeployment foundDep desiredDep sameTemplate
    if needsUpdate then
      match ← PatchDeployment foundDep base with
      | .error err => return .error err
      | .ok patched =>
        recordEvent "Normal" "UpdatedDeployment" "Deployment spec updated."
        return .ok patched
    else
      return .ok foundDep

/-- The condition `updateStatus` sets for the given workload. -/
def availableCondition (redis : Redis) (deployment : Option Deployment)
    (desiredReplicas : Int) : Condition :=
  match deployment with
  | some d =>
    if d.status.availableReplicas = desiredReplicas then
      { type := "Available"
        status := .ConditionTrue
        reason := "DeploymentAvailable"
        message := "Redis deployment is fully available"
        observedGeneration := redis.meta.generation }
    else
      { type := "Available"
        status := .ConditionFalse
        reason := "Reconciling"
        message := "Redis deployment is not yet fully available"
        observedGeneration := redis.meta.generation }
  | none =>
    { type := "Available"
      status := .ConditionFalse
      reason := "Reconciling"
      message := "Redis deployment is not yet fully available"
      observedGeneration := redis.meta.generation }

/-- Updates the status subresource of the Redis CR using a patch. -/
def updateStatus (redis : Redis) (deployment : Option Deployment) : M (Option Err) := do
  let statusCopy : Redis :=
    { redis with
        status := { redis.status with passwordSecretName := redis.spec.passwordSecretName } }
  let desiredReplicas ← liftExcept (deref redis.spec.replicas)
  let now ← readClock
  let statusCopy : Redis :=
    { statusCopy with
        status :=
          { statusCopy.status with
              conditions :=
                SetStatusCondition statusCopy.status.conditions
                  (availableCondition redis deployment desiredReplicas) now } }
  match ← StatusPatch statusCopy redis with
  | .error err => return some err
  | .ok _ => return none

/-! ## The reconciliation pass (`redis_controller.go`) -/

/-- Children are reconciled in the fixed order credential, Endpoint,
Workload, then the status is projected. -/
def reconcileChildren (redis : Redis) : M (Result × Option Err) := do
  match ← reconcileSecret redis with
  | .error err => return requeueInstanceWithError redis.meta.name redis.meta.ns err
  | .ok _ =>
    match ← reconcileService redis with
    | .error err => return requeueInstanceWithError redis.meta.name redis.meta.ns err
    | .ok _ =>
      match ← reconcileDeployment redis with
      | .error err => return requeueInstanceWithError redis.meta.name redis.meta.ns err
      | .ok deployment =>
        match ← updateStatus redis (some deployment) with
        | some err => return requeueInstanceWithError redis.meta.name redis.meta.ns err
        | none => return reconciled

/-- The deletion check of `Reconcile` and what follows it. -/
def reconcileFinalize (req : Key) (redis : Redis) : M (Result × Option Err) := do
  if redis.meta.deletionTimestamp ≠ none then
    if ContainsFinalizer redis FinalizerName then
      let fetched ← GetRedis req
      let redis : Redis :=
        match fetched with
        | .ok r => r
        | .error _ => redis
      let redis := RemoveFinalizer redis FinalizerName
      match ← Update redis with
      | .error err => return requeueInstanceWithError redis.meta.name redis.meta.ns err
      | .ok _ => return reconciled
    else
      return reconciled
  else
    reconcileChildren redis

/-- The finalizer step of `Reconcile` and what follows it. -/
def reconcileGuard (req : Key) (redis : Redis) : M (Result × Option Err) := do
  if !(ContainsFinalizer redis FinalizerName) then
    match ← GetRedis req with
    | .error err => return requeueInstanceWithError redis.meta.name redis.meta.ns err
    | .ok redis =>
      let redis := AddFinalizer redis FinalizerName
      match ← Update redis with
      | .error err => return requeueInstanceWithError redis.meta.name redis.meta.ns err
      | .ok redis => reconcileFinalize req redis
  else
    reconcileFinalize req redis

/-- The condition written when an instance has no condition yet. -/
def initialCondition : Condition :=
  { type := "Available"
    status := .ConditionUnknown
    reason := "Reconciling"
    message := "Reconciling redis" }

/-- The instance after `meta.SetStatusCondition` with the initial condition. -/
def withInitialCondition (redis : Redis) (now : Nat) : Redis :=
  { redis with
      status :=
        { redis.status with
            conditions := SetStatusCondition redis.status.conditions initialCondition now } }

/-- One pass of the reconciliation loop for the instance named by `req`. -/
def Reconcile (req : Key) : M (Result × Option Err) := do
  match ← GetRedis req with
  | .error err =>
    if err.IsNotFound then
      return reconciled
    else
      return ({ Requeue := true, RequeueAfter := RequeueDelay }, some err)
  | .ok redis =>
    if redis.status.conditions.length = 0 then
      let now ← readClock
      let redis := withInitialCondition redis now
      match ← StatusUpdate redis with
      | .error err => return requeueInstanceWithError redis.meta.name redis.meta.ns err
      | .ok redis => reconcileGuard req redis
    else
      reconcileGuard req redis

/-! ## Specification vocabulary -/

/-- The conditions hold an entry of type Available with this status and reason. -/
def hasAvailable (conditions : List Condition) (status : ConditionStatus)
    (reason : String) : Prop :=
  ∃ c, FindStatusCondition conditions "Available" = some c ∧
    c.status = status ∧ c.reason = reason

/-- The key of the Endpoint of an instance. -/
def serviceKey (redis : Redis) : Key := (redis.meta.ns, redis.spec.service.name)

/-- The single port of the desired Endpoint. -/
def desiredPort (port targetPort : Int) : ServicePort :=
  { port := port, targetPort := FromInt32 targetPort, name := "redis" }

/-- The key of the Workload of an instance. -/
def deploymentKey (redis : Redis) : Key := (redis.meta.ns, redis.meta.name)

/-- The environment list of the desired container. -/
def desiredEnv (redis : Redis) : List EnvVar :=
  { name := "REDIS_PASSWORD"
    valueFrom := some
      { secretKeyRef := some { name := redis.spec.passwordSecretName, key := "password" } } } ::
    (redis.spec.env.getD [])

/-- The default liveness probe. -/
def defaultLivenessProbe (port : Int) : Probe :=
  { handler := { tcpSocket := some (FromInt32 port) }
    initialDelaySeconds := 15
    timeoutSeconds := 1
    periodSeconds := 20
    failureThreshold := 3 }

/-- The default readiness probe. -/
def defaultReadinessProbe : Probe :=
  { handler := { exec := some ["redis-cli", "ping"] }
    initialDelaySeconds := 5
    timeoutSeconds := 1
    periodSeconds := 10
    failureThreshold := 3 }

/-- The single container of the desired Workload. -/
def desiredContainer (redis : Redis) (port : Int) : Container :=
  { image := redis.spec.image
    name := "redis"
    ports := [{ containerPort := port, name := "redis" }]
    env := some (desiredEnv redis)
    resources := redis.spec.resources
    readinessProbe := some (redis.spec.readinessProbe.getD defaultReadinessProbe)
    livenessProbe := some (redis.spec.livenessProbe.getD (defaultLivenessProbe port)) }

/-- The object `updateStatus` hands to the status patch. -/
def statusCopyFor (redis : Redis) (deployment : Option Deployment) (n : Int) (now : Nat) :
    Redis :=
  { redis with
      status :=
        { passwordSecretName := redis.spec.passwordSecretName
          conditions :=
            SetStatusCondition redis.status.conditions
              (availableCondition redis deployment n) now } }

/-- The instance as it enters the reconciliation of its children: with the
initial condition when it had none, and with the cleanup guard. -/
def entering (redis : Redis) (now : Nat) : Redis :=
  AddFinalizer
    (if redis.status.conditions.length = 0 then withInitialCondition redis now else redis)
    FinalizerName

/-- The calls of a pass over an active instance up to the reconciliation of
its children. -/
def preCalls (redis : Redis) (now : Nat) : List Call :=
  [Call.getRedis redis.meta.key] ++
    (if redis.status.conditions.length = 0 then
      [Call.statusUpdate (withInitialCondition redis now)]
     else []) ++
    (if ContainsFinalizer redis FinalizerName then []
     else [Call.getRedis redis.meta.key, Call.update (entering redis now)])

/-- The events of a pass that creates the three children. -/
def creationEvents (redis : Redis) : List Event :=
  [⟨"Normal", "CreatedSecret", "Created secret " ++ redis.spec.passwordSecretName⟩,
    ⟨"Normal", "CreatedService", "Created service " ++ redis.spec.service.name⟩,
    ⟨"Normal", "CreatedDeployment", "Created deployment " ++ redis.meta.name⟩]

/-- Whether `reconcileService` sees drift between a found and the desired
Endpoint, given what the port loop reported. -/
def serviceNeedsUpdate (found desired : Service) (portsChanged : Bool) : Bool :=
  decide (found.spec.type ≠ desired.spec.type) || portsChanged ||
    !(found.spec.selector.DeepEqual desired.spec.selector)

/-- Whether `reconcileDeployment` sees drift between a found and the desired
Workload, given what `templatesMatch` said. -/
def deploymentNeedsUpdate (found desired : Deployment) (sameTemplate : Bool) : Bool :=
  !(replicasMatch found.spec.replicas desired.spec.replicas) || !sameTemplate

/-- The Workload matches the desired one in what `reconcileDeployment`
compares. -/
def deploymentSettled (dep desired : Deployment) : Prop :=
  replicasMatch dep.spec.replicas desired.spec.replicas = true ∧
  templatesMatch dep.spec.template desired.spec.template = .ok true

/-- The key of the credential of an instance. -/
def secretKey (redis : Redis) : Key := (redis.meta.ns, redis.spec.passwordSecretName)

/-- The credential `reconcileSecret` submits for creation with this password. -/
def credentialFor (redis : Redis) (password : String) : Secret :=
  { meta :=
      { name := redis.spec.passwordSecretName
        ns := redis.meta.ns
        ownerReferences := [controllerRef redis] }
    type := "Opaque"
    stringData := [("password", password)] }

/-- What `r.Update` leaves under the key of `obj` when `cur` was stored there. -/
def afterUpdate (obj cur : Redis) : Option Redis :=
  if obj.meta.deletionTimestamp ≠ none ∧ obj.meta.finalizers = [] then none
  else some { obj with status := cur.status }

/-- The children of `r` are stored, under their own names, and agree with
the desired ones in everything the controller compares; `dep` is the stored
Workload. -/
def childrenSettled (r : Redis) (s : Store) (dep : Deployment) : Prop :=
  (∃ sec, s.secrets (secretKey r) = some sec) ∧
  (∃ d svc res, serviceForRedis r = .ok d ∧ s.services (serviceKey r) = some svc ∧
    svc.meta.key = serviceKey r ∧ syncPorts d.spec.ports 0 svc.spec.ports = .ok res) ∧
  (∃ d, deploymentForRedis r = .ok d ∧ s.deployments (deploymentKey r) = some dep ∧
    dep.meta.key = deploymentKey r ∧ deploymentSettled dep d)

/-- The world in which an active instance enters the reconciliation of its
children. -/
def enteringWorld (redis : Redis) (w : World) : World :=
  { w with
      calls := w.calls ++ preCalls redis w.now
      store :=
        { w.store with
            redis := Function.update w.store.redis redis.meta.key
              (some (entering redis w.now)) } }

/-- The calls a computation added to the trace. -/
def newCalls (before after : World) : List Call :=
  after.calls.drop before.calls.length

/-! ## Concrete inputs used to exercise the theorems -/

/-- The instance of the controller test: one replica, port 6379, secret
`redis-password`, a ClusterIP service `redis-service` on 6379. -/
def testRedis : Redis :=
  { meta := { name := "test-resource", ns := "default", uid := "uid-1", generation := 1 }
    spec :=
      { image := "bitnami/redis"
        replicas := some 1
        port := some 6379
        passwordSecretName := "redis-password"
        service := { name := "redis-service", type := "ClusterIP", port := some 6379 } } }

/-- The key of the test instance. -/
def testKey : Key := ("default", "test-resource")

/-- A store that holds nothing. -/
def emptyStore : Store :=
  { redis := fun _ => none
    secrets := fun _ => none
    services := fun _ => none
    deployments := fun _ => none }

/-- A store that holds the given instance under the test key and no child. -/
def storeWith (r : Redis) : Store :=
  { emptyStore with redis := Function.update emptyStore.redis testKey (some r) }

/-- A world over the given store in which no call is made to fail and every
random draw yields its own index. -/
def calmWorld (s : Store) : World :=
  { store := s, faults := fun _ => none, rand := fun i => some i }

/-- The test instance under deletion, carrying the cleanup guard and a
condition. -/
def deletingRedis : Redis :=
  { testRedis with
      meta := { testRedis.meta with finalizers := [FinalizerName], deletionTimestamp := some 5 }
      status := { conditions := [initialCondition] } }

/-- A credential already stored under the name the test instance configures. -/
def storedCredential : Secret :=
  { meta := { name := "redis-password", ns := "default" }
    type := "Opaque"
    data := [("password", "s3cr3t")] }

/-- A store that holds the test instance and its credential. -/
def storeWithCredential : Store :=
  { storeWith testRedis with
      secrets := Function.update emptyStore.secrets ("default", "redis-password")
        (some storedCredential) }

/-- A world in which the credential exists but the first read of the pass
reports not-found, as a lagging cache does after a concurrent create. -/
def raceWorld : World :=
  { store := storeWithCredential
    faults := fun i => if i = 0 then some .notFound else none
    rand := fun i => some i }

/-- A world holding the deleting instance in which the second store call of
the pass, the re-fetch, fails. -/
def refetchFailWorld : World :=
  { store := storeWith deletingRedis
    faults := fun i => if i = 1 then some (.other 1) else none
    rand := fun i => some i }

/-- The Endpoint the builder yields for the test instance. -/
def testService : Service :=
  match serviceForRedis testRedis with
  | .ok d => d
  | .error _ => {}

/-- The Workload the builder yields for the test instance. -/
def testDeployment : Deployment :=
  match deploymentForRedis testRedis with
  | .ok d => d
  | .error _ => {}

/-- The desired Workload of the test instance scaled by hand to 3 replicas. -/
def scaledDeployment : Deployment :=
  { testDeployment with spec := { testDeployment.spec with replicas := some 3 } }

/-- The desired Endpoint of the test instance after an external edit: type
NodePort instead of ClusterIP, and an extra label `team`. -/
def driftedService : Service :=
  { testService with
      meta := { testService.meta with labels := some [("app", "redis"),
        ("redis_cr", "test-resource"), ("team", "cache")] }
      spec := { testService.spec with type := "NodePort" } }

/-- The desired Endpoint of the test instance with a second port added. -/
def twoPortService : Service :=
  { testService with
      spec := { testService.spec with
        ports := testService.spec.ports ++ [{ name := "metrics", port := 9121 }] } }

/-- The desired Endpoint of the test instance with its ports removed. -/
def noPortService : Service :=
  { testService with spec := { testService.spec with ports := [] } }

/-- A store holding the test instance and the given Endpoint. -/
def storeWithService (svc : Service) : Store :=
  { storeWith testRedis with
      services := Function.update emptyStore.services ("default", "redis-service") (some svc) }

/-- A store holding the test instance and the given Workload. -/
def storeWithDeployment (d : Deployment) : Store :=
  { storeWith testRedis with
      deployments := Function.update emptyStore.deployments ("default", "test-resource")
        (some d) }

/-- A world holding the test instance and no child, in which no store call is
made to fail but the random source fails at every draw. -/
def noRandWorld : World :=
  { store := storeWith testRedis, faults := fun _ => none, rand := fun _ => none }

/-- The test instance with two user-supplied environment entries of the same
name. -/
def envRedis : Redis :=
  { testRedis with
      spec := { testRedis.spec with
        env := some [{ name := "TZ", value := "UTC" }, { name := "TZ", value := "CET" }] } }

/-- A liveness probe as a user may supply it: a command, every 7 seconds. -/
def userProbe : Probe :=
  { handler := { exec := some ["redis-cli", "info"] }, periodSeconds := 7 }

/-- The test instance with a user-supplied liveness probe and no readiness
probe. -/
def probedRedis : Redis :=
  { testRedis with spec := { testRedis.spec with livenessProbe := some userProbe } }

/-- The desired Workload of the test instance with an empty, non-nil container
list. -/
def emptyContainersDeployment : Deployment :=
  { testDeployment with
      spec := { testDeployment.spec with
        template := { testDeployment.spec.template with spec := { containers := some [] } } } }

/-- The desired Workload of the test instance with a nil container list. -/
def nilContainersDeployment : Deployment :=
  { testDeployment with
      spec := { testDeployment.spec with
        template := { testDeployment.spec.template with spec := { containers := none } } } }

/-- The desired container of the test instance with another container port
and with probes of other contents. -/
def reprobedContainer : Container :=
  { desiredContainer testRedis 6379 with
      ports := [{ containerPort := 7000, name := "other" }]
      livenessProbe := some defaultReadinessProbe
      readinessProbe := some (defaultLivenessProbe 1) }

/-- The desired Workload of the test instance, stored with the container
`reprobedContainer`. -/
def reprobedDeployment : Deployment :=
  { testDeployment with
      spec := { testDeployment.spec with
        template := { testDeployment.spec.template with
          spec := { containers := some [reprobedContainer] } } } }

/-- The test instance with its replica count unset. -/
def noReplicasRedis : Redis :=
  { testRedis with spec := { testRedis.spec with replicas := none } }

/-- The test instance with its listen port unset. -/
def noPortRedis : Redis :=
  { testRedis with spec := { testRedis.spec with port := none } }

/-- The test instance with its endpoint port unset. -/
def noServicePortRedis : Redis :=
  { testRedis with
      spec := { testRedis.spec with service := { testRedis.spec.service with port := none } } }

/-- The test instance under deletion, held back by the finalizer of another
controller and not carrying the cleanup guard. -/
def unguardedDeletingRedis : Redis :=
  { testRedis with
      meta := { testRedis.meta with
        finalizers := ["example.com/other"], deletionTimestamp := some 5 }
      status := { conditions := [initialCondition] } }

/-- The test instance as a first pass leaves it: with the cleanup guard and a
condition. -/
def guardedRedis : Redis :=
  { testRedis with
      meta := { testRedis.meta with finalizers := [FinalizerName] }
      status := { conditions := [initialCondition] } }

/-- A world holding the guarded test instance and its credential, in which the
second store call of a pass, the read of the credential, reports not-found, as
a lagging cache does after a concurrent create. -/
def passRaceWorld : World :=
  { store :=
      { storeWith guardedRedis with
          secrets := Function.update emptyStore.secrets ("default", "redis-password")
            (some storedCredential) }
    faults := fun i => if i = 1 then some .notFound else none
    rand := fun i => some i }

/-- Two Go maps are the same map: both nil or both non-nil, and every key is
bound to the same value, or to none, in both. -/
def GoMap.sameAs (a b : GoMap) : Prop :=
  (a = none ↔ b = none) ∧ ∀ k, a.lookup k = b.lookup k

/-- Two resource requirements are equal: the same limits and the same
requests. -/
def ResourceRequirements.sameAs (a b : ResourceRequirements) : Prop :=
  a.limits.sameAs b.limits ∧ a.requests.sameAs b.requests

/-- The desired container of the test instance with a CPU limit the instance
does not declare. -/
def resizedContainer : Container :=
  { desiredContainer testRedis 6379 with resources := { limits := some [("cpu", "1")] } }

/-- The desired Workload of the test instance, stored with the container
`resizedContainer`. -/
def resizedDeployment : Deployment :=
  { testDeployment with
      spec := { testDeployment.spec with
        template := { testDeployment.spec.template with
          spec := { containers := some [resizedContainer] } } } }

/-! ## Basic lemmas: the monad -/

@[simp] theorem pure_run {α : Type} (a : α) (w : World) :
    (pure a : M α) w = (.ok a, w) := rfl

@[simp] theorem bind_run {α β : Type} (m : M α) (f : α → M β) (w : World) :
    (m >>= f) w =
      match m w with
      | (.ok a, w1) => f a w1
      | (.error p, w1) => (.error p, w1) := rfl

@[simp] theorem liftExcept_ok {α : Type} (a : α) (w : World) :
    liftExcept (.ok a) w = (.ok a, w) := rfl

@[simp] theorem liftExcept_error {α : Type} (p : Panic) (w : World) :
    (liftExcept (.error p) : M α) w = (.error p, w) := rfl

@[simp] theorem readClock_run (w : World) : readClock w = (.ok w.now, w) := rfl

/-! ## Basic lemmas: conditions -/

theorem find_modifyFirstCondition (t : String) (f : Condition → Condition)
    (hf : ∀ c, (f c).type = c.type) (cs : List Condition) :
    FindStatusCondition (modifyFirstCondition t f cs) t =
      (FindStatusCondition cs t).map f := by
  induction cs with
  | nil => rfl
  | cons c rest ih =>
    by_cases h : c.type = t
    · simp [modifyFirstCondition, FindStatusCondition, h, hf]
    · simp only [FindStatusCondition] at ih
      simp [modifyFirstCondition, FindStatusCondition, h, ih]

/-- After `SetStatusCondition` the condition of that type carries the new
status and reason. -/
theorem find_SetStatusCondition (cs : List Condition) (c : Condition) (now : Nat) :
    ∃ c1, FindStatusCondition (SetStatusCondition cs c now) c.type = some c1 ∧
      c1.status = c.status ∧ c1.reason = c.reason ∧ c1.message = c.message ∧
      c1.observedGeneration = c.observedGeneration := by
  unfold SetStatusCondition
  cases hfind : FindStatusCondition cs c.type with
  | none =>
    simp only [FindStatusCondition] at hfind
    simp [FindStatusCondition, List.find?_append, hfind]
  | some c0 =>
    refine ⟨updateCondition c now c0, ?_, rfl, rfl, rfl, rfl⟩
    rw [find_modifyFirstCondition c.type (updateCondition c now) (fun _ => rfl), hfind]
    rfl

/-! ## Basic lemmas: the store -/

theorem newCalls_append (w w1 : World) (cs : List Call) (h : w1.calls = w.calls ++ cs) :
    newCalls w w1 = cs := by
  simp [newCalls, h]

@[simp] theorem pick_self {α : Type} [DecidableEq α] (base obj : α) :
    pick base obj base = obj := by
  unfold pick
  split
  · next h => exact h.symm
  · rfl

theorem mergePatchStatus_self (base obj : Redis) :
    mergePatchStatus base obj base = { base with status := obj.status } := by
  simp [mergePatchStatus]

theorem availableCondition_type (redis : Redis) (deployment : Option Deployment) (n : Int) :
    (availableCondition redis deployment n).type = "Available" := by
  unfold availableCondition
  split
  · split <;> rfl
  · rfl

theorem returned_error {α : Type} (r : Except Err (α × Store)) (e : Err) (s : Store)
    (h : returned r = .error e) : storeAfter s r = s := by
  rcases r with e1 | ⟨a, s1⟩
  · rfl
  · simp [returned] at h

theorem GetRedis_found (key : Key) (w : World) (r : Redis)
    (hf : w.faults w.calls.length = none) (hs : w.store.redis key = some r) :
    GetRedis key w = (.ok (.ok r), { w with calls := w.calls ++ [Call.getRedis key] }) := by
  simp [GetRedis, storeCall, callOutcome, hf, hs, returned, storeAfter]

theorem StatusUpdate_found (obj cur : Redis) (w : World)
    (hf : w.faults w.calls.length = none) (hs : w.store.redis obj.meta.key = some cur) :
    StatusUpdate obj w =
      (.ok (.ok { cur with status := obj.status }),
        { w with
            calls := w.calls ++ [Call.statusUpdate obj]
            store :=
              { w.store with
                  redis :=
                    Function.update w.store.redis obj.meta.key
                      (some { cur with status := obj.status }) } }) := by
  simp [StatusUpdate, storeCall, callOutcome, hf, hs, returned, storeAfter]

theorem Update_found (obj cur : Redis) (w : World)
    (hf : w.faults w.calls.length = none) (hs : w.store.redis obj.meta.key = some cur) :
    Update obj w =
      (.ok (.ok { obj with status := cur.status }),
        { w with
            calls := w.calls ++ [Call.update obj]
            store :=
              { w.store with
                  redis := Function.update w.store.redis obj.meta.key (afterUpdate obj cur) } }) := by
  by_cases h : obj.meta.deletionTimestamp ≠ none ∧ obj.meta.finalizers = [] <;>
    simp [Update, storeCall, callOutcome, hf, hs, returned, storeAfter, afterUpdate, h]

/-! ## Basic lemmas: merge patches -/

theorem alookup_ne_none_of_mem (m : List (String × String)) (e : String × String)
    (h : e ∈ m) : alookup e.1 m ≠ none := by
  induction m with
  | nil => simp at h
  | cons x rest ih =>
    obtain ⟨k, v⟩ := x
    by_cases hk : k = e.1
    · simp [alookup, hk]
    · have : e ∈ rest := by
        rcases List.mem_cons.mp h with h1 | h1
        · exact absurd (by rw [h1]) hk
        · exact h1
      simp [alookup, hk, ih this]

theorem mapDiff_same (m : List (String × String)) : mapDiff m m = [] := by
  simp only [mapDiff, List.append_eq_nil, List.filterMap_eq_nil_iff]
  constructor
  · intro e _
    simp
  · intro e he
    simp [alookup_ne_none_of_mem m e he]

@[simp] theorem mergeMap_same (m stored : GoMap) : mergeMap m m stored = stored := by
  unfold mergeMap
  split
  · simp [*]
  · rw [mapDiff_same]

theorem mem_mapDiff (base obj : List (String × String)) (op : String × Option String)
    (h : op ∈ mapDiff base obj) : op.2 = alookup op.1 obj := by
  simp only [mapDiff, List.mem_append, List.mem_filterMap] at h
  rcases h with ⟨e, _, he⟩ | ⟨e, _, he⟩
  · split at he
    · simp at he
    · simp only [Option.some.injEq] at he
      subst he
      rfl
  · split at he
    · next hn =>
      simp only [Option.some.injEq] at he
      subst he
      exact hn.symm
    · simp at he

theorem foldl_applyMapOp_self (m : List (String × String)) :
    ∀ ops : List (String × Option String), (∀ op ∈ ops, op.2 = alookup op.1 m) →
      ops.foldl applyMapOp m = m := by
  intro ops
  induction ops with
  | nil => intro _; rfl
  | cons op rest ih =>
    intro h
    have hop := h op (List.mem_cons_self _ _)
    have hstep : applyMapOp m op = m := by
      unfold applyMapOp
      split
      · next v hv => simp [← hop, hv]
      · next hv => simp [← hop, hv]
    simp only [List.foldl_cons, hstep]
    exact ih (fun o ho => h o (List.mem_cons_of_mem _ ho))

@[simp] theorem mergeMap_stored_obj (base obj : GoMap) : mergeMap base obj obj = obj := by
  unfold mergeMap
  split
  · split
    · rfl
    · simp [*]
  · next hne =>
    split
    · rfl
    · next op ops hd =>
      rw [foldl_applyMapOp_self]
      · cases obj with
        | none => simp [GoMap.entries] at hne
        | some l => rfl
      · intro o ho
        apply mem_mapDiff base.entries
        rw [hd]; exact ho

@[simp] theorem pick_stored_obj {α : Type} [DecidableEq α] (base obj : α) :
    pick base obj obj = obj := by
  unfold pick; split <;> rfl

@[simp] theorem pick_same {α : Type} [DecidableEq α] (base stored : α) :
    pick base base stored = stored := by
  unfold pick; simp

/-! ## Basic lemmas: password generation leaves the store alone -/

theorem generateLoop_world (n : Nat) : ∀ (b : List Char) (w : World),
    ∃ k, (generateLoop n b w).2 = { w with randPos := k } := by
  induction n with
  | zero => intro b w; exact ⟨w.randPos, rfl⟩
  | succ n ih =>
    intro b w
    simp only [generateLoop, bind_run, randInt]
    cases hr : w.rand w.randPos with
    | none => exact ⟨w.randPos + 1, rfl⟩
    | some v =>
      simp only [pure_run]
      cases hi : sliceIndex (some charset.toList) (v % charset.length) with
      | error p => exact ⟨w.randPos + 1, rfl⟩
      | ok c =>
        simp only [bind_run, liftExcept_ok]
        obtain ⟨k, hk⟩ := ih (b ++ [c]) { w with randPos := w.randPos + 1 }
        exact ⟨k, hk⟩

theorem generateRandomPassword_world (len : Int) (w : World) :
    ∃ k, (generateRandomPassword len w).2 = { w with randPos := k } := by
  unfold generateRandomPassword
  split
  · exact ⟨w.randPos, rfl⟩
  · simp only [bind_run]
    obtain ⟨k, hk⟩ := generateLoop_world len.toNat [] w
    cases hg : generateLoop len.toNat [] w with
    | mk r w1 =>
      rw [hg] at hk
      simp only at hk
      subst hk
      rcases r with p | (e | b) <;> exact ⟨k, rfl⟩

theorem charset_length : charset.length = 62 := by decide

theorem sliceIndex_charset (v : Nat) :
    ∃ c, sliceIndex (some charset.toList) (v % charset.length) = .ok c := by
  have hlt : v % charset.length < charset.toList.length := by
    have h : charset.toList.length = 62 := by decide
    rw [h, charset_length]
    exact Nat.mod_lt _ (by decide)
  refine ⟨charset.toList[v % charset.length], ?_⟩
  unfold sliceIndex
  simp only [Option.getD_some]
  rw [List.getElem?_eq_getElem hlt]

theorem generateLoop_ok (n : Nat) : ∀ (b : List Char) (w : World),
    (∀ i, i < n → (w.rand (w.randPos + i)).isSome = true) →
    ∃ cs : List Char, cs.length = n ∧
      generateLoop n b w = (.ok (.ok (b ++ cs)), { w with randPos := w.randPos + n }) := by
  induction n with
  | zero =>
    intro b w _
    exact ⟨[], rfl, by simp [generateLoop]⟩
  | succ n ih =>
    intro b w h
    have h0 := h 0 (Nat.succ_pos n)
    obtain ⟨v, hv⟩ := Option.isSome_iff_exists.mp h0
    simp only [Nat.add_zero] at hv
    obtain ⟨c, hc⟩ := sliceIndex_charset v
    obtain ⟨cs, hlen, hrun⟩ := ih (b ++ [c]) { w with randPos := w.randPos + 1 } (by
      intro i hi
      have := h (i + 1) (Nat.succ_lt_succ hi)
      simpa [Nat.add_assoc, Nat.add_comm 1 i] using this)
    refine ⟨c :: cs, by simp [hlen], ?_⟩
    simp only [generateLoop, bind_run, randInt, hv, hc, liftExcept_ok, hrun]
    simp [Nat.add_assoc, Nat.add_comm 1 n]

theorem generateRandomPassword_ok (n : Nat) (w : World)
    (h : ∀ i, i < n → (w.rand (w.randPos + i)).isSome = true) :
    ∃ pw : String, pw.length = n ∧
      generateRandomPassword n w = (.ok (.ok pw), { w with randPos := w.randPos + n }) := by
  obtain ⟨cs, hlen, hrun⟩ := generateLoop_ok n [] w h
  refine ⟨String.mk cs, by simp [String.length, hlen], ?_⟩
  have hnn : ¬ ((n : Int) < 0) := by omega
  simp [generateRandomPassword, hnn, hrun]

theorem SetControllerReference_fresh (redis : Redis) (name : String) :
    SetControllerReference redis { name := name, ns := redis.meta.ns } =
      .ok { name := name, ns := redis.meta.ns, ownerReferences := [controllerRef redis] } := by
  simp [SetControllerReference, upsertOwnerRef]

/-! ## Lemmas on `reconcileSecret` -/

theorem reconcileSecret_found (redis : Redis) (w : World) (s : Secret)
    (hs : w.store.secrets (secretKey redis) = some s)
    (hf : w.faults w.calls.length = none) :
    reconcileSecret redis w =
      (.ok (.ok s), { w with calls := w.calls ++ [Call.getSecret (secretKey redis)] }) := by
  simp only [secretKey] at hs
  simp [reconcileSecret, GetSecret, storeCall, callOutcome, hf, hs, returned, storeAfter,
    secretKey]

/-- Whatever calls are made to fail, `reconcileSecret` leaves the store as it
is when the credential exists. -/
theorem reconcileSecret_store_stable (redis : Redis) (w : World) (s : Secret)
    (hs : w.store.secrets (secretKey redis) = some s) :
    (reconcileSecret redis w).2.store = w.store := by
  simp only [secretKey] at hs
  simp only [reconcileSecret, GetSecret, storeCall, callOutcome, bind_run]
  cases hfault : w.faults w.calls.length with
  | none =>
    simp [hs, returned, storeAfter]
  | some err =>
    simp only [returned, storeAfter]
    by_cases hnf : err.IsNotFound = true
    · simp only [hnf, if_true, bind_run]
      obtain ⟨k, hk⟩ := generateRandomPassword_world 16
        { w with
            calls := w.calls ++ [Call.getSecret (redis.meta.ns, redis.spec.passwordSecretName)] }
      cases hg : generateRandomPassword 16
        { w with
            calls := w.calls ++
              [Call.getSecret (redis.meta.ns, redis.spec.passwordSecretName)] } with
      | mk r w1 =>
        rw [hg] at hk
        simp only at hk
        subst hk
        rcases r with p | (e | pw)
        · rfl
        · rfl
        · simp only [SetControllerReference_fresh, bind_run, CreateSecret, storeCall,
            callOutcome, ObjectMeta.key, hs]
          cases w.faults
            (w.calls ++ [Call.getSecret (redis.meta.ns, redis.spec.passwordSecretName)]).length <;>
            rfl
    · simp [hnf]

/-! ## Lemmas on `reconcileService` -/

theorem SetControllerReference_same_ns (redis : Redis) (m : ObjectMeta)
    (hns : m.ns = redis.meta.ns) (ho : m.ownerReferences = []) :
    SetControllerReference redis m = .ok { m with ownerReferences := [controllerRef redis] } := by
  simp [SetControllerReference, upsertOwnerRef, hns, ho]

theorem withControllerReference_same_ns (redis : Redis) (m : ObjectMeta)
    (hns : m.ns = redis.meta.ns) (ho : m.ownerReferences = []) :
    withControllerReference redis m = { m with ownerReferences := [controllerRef redis] } := by
  simp [withControllerReference, SetControllerReference_same_ns redis m hns ho]

theorem serviceForRedis_eq (redis : Redis) :
    serviceForRedis redis =
      match redis.spec.service.port, redis.spec.port with
      | some p, some t =>
        .ok { meta :=
                { name := redis.spec.service.name
                  ns := redis.meta.ns
                  labels := labelsForRedis redis.meta.name
                  ownerReferences := [controllerRef redis] }
              spec :=
                { selector := labelsForRedis redis.meta.name
                  ports := [desiredPort p t]
                  type := redis.spec.service.type } }
      | _, _ => .error .nilDereference := by
  cases hp : redis.spec.service.port with
  | none => simp [serviceForRedis, hp, deref, bind, Except.bind]
  | some p =>
    cases ht : redis.spec.port with
    | none => simp [serviceForRedis, hp, ht, deref, bind, Except.bind]
    | some t =>
      simp only [serviceForRedis, hp, ht, deref, bind, Except.bind, pure, Except.pure]
      rw [withControllerReference_same_ns redis
        { name := redis.spec.service.name, ns := redis.meta.ns,
          labels := labelsForRedis redis.meta.name } rfl rfl]
      rfl

theorem serviceForRedis_shape (redis : Redis) (d : Service) (h : serviceForRedis redis = .ok d) :
    d.meta.key = serviceKey redis ∧ ∃ dp, d.spec.ports = [dp] := by
  rw [serviceForRedis_eq] at h
  split at h
  · simp only [Except.ok.injEq] at h
    subst h
    exact ⟨rfl, _, rfl⟩
  · simp at h

/-- Against a single desired port, the port loop returns either the found
ports untouched or exactly the desired ports. -/
theorem syncPorts_single (dp : ServicePort) (found ports : List ServicePort) (changed : Bool)
    (h : syncPorts [dp] 0 found = .ok (ports, changed)) :
    ports = found ∨ ports = [dp] := by
  cases found with
  | nil =>
    simp [syncPorts] at h
    exact Or.inl h.1
  | cons p rest =>
    cases rest with
    | nil =>
      simp only [syncPorts, sliceIndex, bind, Except.bind, pure, Except.pure] at h
      simp at h
      split at h <;> simp at h
      · exact Or.inr h.1.symm
      · exact Or.inl h.1.symm
    | cons q rest2 =>
      simp [syncPorts, sliceIndex, bind, Except.bind] at h

theorem update_stored {α β : Type} [DecidableEq α] (f : α → β) (k : α) (v : β)
    (h : f k = v) : Function.update f k v = f := by
  subst h
  exact Function.update_eq_self k f

@[simp] theorem syncedService_meta (found desired : Service) (ports : List ServicePort) :
    (syncedService found desired ports).meta = found.meta := rfl

/-- The merge patch of `reconcileService`, computed against the desired
Endpoint, changes nothing in the Endpoint it was read from. -/
theorem mergePatchService_synced (found desired : Service) (ports : List ServicePort)
    (hp : ports = found.spec.ports ∨ ports = desired.spec.ports) :
    mergePatchService desired (syncedService found desired ports) found = found := by
  have hports : pick desired.spec.ports ports found.spec.ports = found.spec.ports := by
    rcases hp with h | h <;> simp [h]
  have htype : pick desired.spec.type
      (if found.spec.type ≠ desired.spec.type then desired.spec.type else found.spec.type)
      found.spec.type = found.spec.type := by
    split <;> simp
  have hsel : mergeMap desired.spec.selector
      (if !(found.spec.selector.DeepEqual desired.spec.selector) then desired.spec.selector
        else found.spec.selector) found.spec.selector = found.spec.selector := by
    split <;> simp
  simp only [mergePatchService, syncedService, hports, htype, hsel, mergeMap_stored_obj,
    pick_stored_obj]

theorem reconcileService_store_stable (redis : Redis) (w : World) (svc : Service)
    (hs : w.store.services (serviceKey redis) = some svc)
    (hk : svc.meta.key = serviceKey redis) :
    (reconcileService redis w).2.store = w.store := by
  cases hd : serviceForRedis redis with
  | error p => simp [reconcileService, hd]
  | ok d =>
    obtain ⟨hdk, dp, hdp⟩ := serviceForRedis_shape redis d hd
    have hname : (redis.meta.ns, d.meta.name) = serviceKey redis := by
      have := congrArg Prod.snd hdk
      simp only [ObjectMeta.key, serviceKey] at this
      simp [serviceKey, this]
    simp only [reconcileService, hd, liftExcept_ok, bind_run, hname, GetService, storeCall,
      callOutcome]
    cases hfault : w.faults w.calls.length with
    | some err =>
      simp only [returned, storeAfter]
      by_cases hnf : err.IsNotFound = true
      · simp only [hnf, if_true, bind_run, CreateService, storeCall, callOutcome, hdk, hs]
        cases w.faults (w.calls ++ [Call.getService (serviceKey redis)]).length <;> rfl
      · simp [hnf]
    | none =>
      simp only [hs, returned, storeAfter]
      cases hsync : syncPorts d.spec.ports 0 svc.spec.ports with
      | error p => simp
      | ok res =>
        obtain ⟨ports, changed⟩ := res
        have hports : ports = svc.spec.ports ∨ ports = d.spec.ports := by
          rw [hdp] at hsync ⊢
          exact syncPorts_single dp _ _ _ hsync
        simp only [bind_run, liftExcept_ok]
        have hpatch := mergePatchService_synced svc d ports hports
        split
        · simp only [bind_run, PatchService, storeCall, callOutcome]
          cases w.faults (w.calls ++ [Call.getService (serviceKey redis)]).length with
          | some e => rfl
          | none =>
            have hk2 : ObjectMeta.key svc.meta = serviceKey redis := hk
            simp only [syncedService_meta, hk2, hs, returned, storeAfter, pure_run, hpatch,
              bind_run, recordEvent]
            rw [update_stored _ _ _ hs]
        · rfl

/-! ## Lemmas on `reconcileDeployment` -/

theorem sameBindings_refl (a : List (String × String)) : sameBindings a a = true := by
  simp [sameBindings]

theorem goMap_deepEqual_refl (m : GoMap) : m.DeepEqual m = true := by
  cases m with
  | none => rfl
  | some a => exact sameBindings_refl a

theorem resources_deepEqual_refl (r : ResourceRequirements) :
    r.DeepEqual r = true := by
  simp [ResourceRequirements.DeepEqual, goMap_deepEqual_refl]

theorem deploymentForRedis_eq (redis : Redis) :
    deploymentForRedis redis =
      match redis.spec.port with
      | some p =>
        .ok { meta :=
                { name := redis.meta.name
                  ns := redis.meta.ns
                  ownerReferences := [controllerRef redis] }
              spec :=
                { replicas := redis.spec.replicas
                  selector := labelsForRedis redis.meta.name
                  template :=
                    { labels := labelsForRedis redis.meta.name
                      spec := { containers := some [desiredContainer redis p] } } } }
      | none => .error .nilDereference := by
  cases hp : redis.spec.port with
  | none => simp [deploymentForRedis, hp, deref, bind, Except.bind]
  | some p =>
    simp only [deploymentForRedis, hp, deref, bind, Except.bind, pure, Except.pure]
    rw [withControllerReference_same_ns redis
      { name := redis.meta.name, ns := redis.meta.ns } rfl rfl]
    simp only [desiredContainer, desiredEnv, defaultLivenessProbe, defaultReadinessProbe]
    cases redis.spec.env <;> cases redis.spec.livenessProbe <;>
      cases redis.spec.readinessProbe <;> rfl

theorem deploymentForRedis_shape (redis : Redis) (d : Deployment)
    (h : deploymentForRedis redis = .ok d) :
    d.meta.key = deploymentKey redis ∧ d.spec.replicas = redis.spec.replicas ∧
      d.status.availableReplicas = 0 ∧
      templatesMatch d.spec.template d.spec.template = .ok true := by
  rw [deploymentForRedis_eq] at h
  split at h
  · simp only [Except.ok.injEq] at h
    subst h
    refine ⟨rfl, rfl, rfl, ?_⟩
    simp [templatesMatch, sliceIndex, sliceLen, desiredContainer, bind, Except.bind, pure,
      Except.pure, resources_deepEqual_refl]
  · simp at h

@[simp] theorem syncedDeployment_meta (found desired : Deployment) (b : Bool) :
    (syncedDeployment found desired b).meta = found.meta := rfl

theorem mergePatchDeployment_self (found obj : Deployment)
    (hm : obj.meta = found.meta) (hs : obj.spec.selector = found.spec.selector)
    (hl : obj.spec.template.labels = found.spec.template.labels) :
    mergePatchDeployment found obj found =
      { found with
          spec :=
            { found.spec with
                replicas := obj.spec.replicas
                template :=
                  { labels := found.spec.template.labels
                    spec := { containers := obj.spec.template.spec.containers } } } } := by
  simp [mergePatchDeployment, hm, hs, hl]

/-! ## Lemmas on a first pass: every child is created -/

theorem reconcileSecret_created (redis : Redis) (w : World)
    (hF : ∀ i, w.faults i = none)
    (hrand : ∀ i, i < 16 → (w.rand (w.randPos + i)).isSome = true)
    (hnone : w.store.secrets (secretKey redis) = none) :
    ∃ pw : String, pw.length = 16 ∧
      reconcileSecret redis w =
        (.ok (.ok (credentialFor redis pw).stored),
          { w with
              calls := w.calls ++ [Call.getSecret (secretKey redis),
                Call.createSecret (credentialFor redis pw)]
              randPos := w.randPos + 16
              events := w.events ++
                [⟨"Normal", "CreatedSecret", "Created secret " ++ redis.spec.passwordSecretName⟩]
              store :=
                { w.store with
                    secrets := Function.update w.store.secrets (secretKey redis)
                      (some (credentialFor redis pw).stored) } }) := by
  obtain ⟨pw, hlen, hgen⟩ := generateRandomPassword_ok 16
    { w with calls := w.calls ++ [Call.getSecret (secretKey redis)] } hrand
  refine ⟨pw, hlen, ?_⟩
  simp only [secretKey] at hnone hgen
  simp only [Nat.cast_ofNat] at hgen
  simp only [reconcileSecret, GetSecret, storeCall, callOutcome, hF, hnone, returned, storeAfter,
    bind_run, Err.IsNotFound, if_true, hgen, SetControllerReference_fresh, CreateSecret,
    ObjectMeta.key, recordEvent, pure_run, credentialFor, secretKey]
  simp

theorem reconcileService_created (redis : Redis) (w : World) (d : Service)
    (hF : ∀ i, w.faults i = none)
    (hd : serviceForRedis redis = .ok d)
    (hnone : w.store.services (serviceKey redis) = none) :
    reconcileService redis w =
      (.ok (.ok (d.stored (w.clusterIPs (serviceKey redis)))),
        { w with
            calls := w.calls ++ [Call.getService (serviceKey redis), Call.createService d]
            events := w.events ++
              [⟨"Normal", "CreatedService", "Created service " ++ d.meta.name⟩]
            store :=
              { w.store with
                  services := Function.update w.store.services (serviceKey redis)
                    (some (d.stored (w.clusterIPs (serviceKey redis)))) } }) := by
  obtain ⟨hdk, -⟩ := serviceForRedis_shape redis d hd
  have hname : (redis.meta.ns, d.meta.name) = serviceKey redis := by
    have := congrArg Prod.snd hdk
    simp only [ObjectMeta.key, serviceKey] at this
    simp [serviceKey, this]
  simp only [reconcileService, hd, liftExcept_ok, bind_run, hname, GetService, storeCall,
    callOutcome, hF, hnone, returned, storeAfter, Err.IsNotFound, if_true, CreateService, hdk,
    recordEvent, pure_run]
  simp

theorem reconcileDeployment_created (redis : Redis) (w : World) (d : Deployment)
    (hF : ∀ i, w.faults i = none)
    (hd : deploymentForRedis redis = .ok d)
    (hnone : w.store.deployments (deploymentKey redis) = none) :
    reconcileDeployment redis w =
      (.ok (.ok d.stored),
        { w with
            calls := w.calls ++ [Call.getDeployment (deploymentKey redis),
              Call.createDeployment d]
            events := w.events ++
              [⟨"Normal", "CreatedDeployment", "Created deployment " ++ d.meta.name⟩]
            store :=
              { w.store with
                  deployments :=
                    Function.update w.store.deployments (deploymentKey redis)
                      (some d.stored) } }) := by
  obtain ⟨hdk, -⟩ := deploymentForRedis_shape redis d hd
  have hname : (redis.meta.ns, d.meta.name) = deploymentKey redis := by
    have := congrArg Prod.snd hdk
    simp only [ObjectMeta.key, deploymentKey] at this
    simp [deploymentKey, this]
  simp only [reconcileDeployment, hd, liftExcept_ok, bind_run, hname, GetDeployment, storeCall,
    callOutcome, hF, hnone, returned, storeAfter, Err.IsNotFound, if_true, CreateDeployment, hdk,
    recordEvent, pure_run]
  simp

theorem updateStatus_stored (redis : Redis) (deployment : Option Deployment) (n : Int)
    (w : World) (hF : ∀ i, w.faults i = none) (hrep : redis.spec.replicas = some n)
    (hs : w.store.redis redis.meta.key = some redis) :
    updateStatus redis deployment w =
      (.ok none,
        { w with
            calls := w.calls ++
              [Call.statusPatch (statusCopyFor redis deployment n w.now) redis]
            store :=
              { w.store with
                  redis := Function.update w.store.redis redis.meta.key
                    (some (statusCopyFor redis deployment n w.now)) } }) := by
  have hs1 : w.store.redis (ObjectMeta.key redis.meta) = some redis := hs
  simp only [updateStatus, hrep, deref, bind_run, liftExcept_ok, readClock_run, StatusPatch,
    storeCall, callOutcome, hF, hs1, returned, storeAfter, pure_run, mergePatchStatus_self,
    statusCopyFor]

/-! ## Lemmas on the stages of `Reconcile` -/

theorem reconcileFinalize_deleting (redis cur : Redis) (w : World)
    (hF : ∀ i, w.faults i = none)
    (hs : w.store.redis redis.meta.key = some cur)
    (hk : cur.meta.key = redis.meta.key)
    (hdel : redis.meta.deletionTimestamp ≠ none)
    (hfin : ContainsFinalizer redis FinalizerName = true) :
    reconcileFinalize redis.meta.key redis w =
      (.ok reconciled,
        { w with
            calls := w.calls ++ [Call.getRedis redis.meta.key,
              Call.update (RemoveFinalizer cur FinalizerName)]
            store :=
              { w.store with
                  redis := Function.update w.store.redis redis.meta.key
                    (afterUpdate (RemoveFinalizer cur FinalizerName) cur) } }) := by
  have hk1 : (RemoveFinalizer cur FinalizerName).meta.key = redis.meta.key := hk
  simp only [reconcileFinalize, hdel, hfin, bind_run, ne_eq, not_false_eq_true, if_true]
  rw [GetRedis_found _ _ cur (hF _) hs]
  simp only []
  rw [Update_found _ cur]
  rotate_left
  · exact hF _
  · rw [hk1]; exact hs
  simp [hk1, reconciled]

theorem ContainsFinalizer_RemoveFinalizer (o : Redis) (f : String) :
    ContainsFinalizer (RemoveFinalizer o f) f = false := by
  simp [ContainsFinalizer, RemoveFinalizer]

theorem reconcileGuard_present (req : Key) (redis : Redis) (w : World)
    (hfin : ContainsFinalizer redis FinalizerName = true) :
    reconcileGuard req redis w = reconcileFinalize req redis w := by
  simp [reconcileGuard, hfin]

theorem Reconcile_found_conditions (req : Key) (redis : Redis) (w : World)
    (hf : w.faults w.calls.length = none) (hs : w.store.redis req = some redis)
    (hc : redis.status.conditions.length ≠ 0) :
    Reconcile req w =
      reconcileGuard req redis { w with calls := w.calls ++ [Call.getRedis req] } := by
  simp only [Reconcile, bind_run]
  rw [GetRedis_found _ _ redis hf hs]
  simp only [hc, if_false]

theorem Reconcile_found_fresh (redis : Redis) (w : World)
    (hF : ∀ i, w.faults i = none) (hs : w.store.redis redis.meta.key = some redis)
    (hc : redis.status.conditions.length = 0) :
    Reconcile redis.meta.key w =
      reconcileGuard redis.meta.key (withInitialCondition redis w.now)
        { w with
            calls := w.calls ++ [Call.getRedis redis.meta.key,
              Call.statusUpdate (withInitialCondition redis w.now)]
            store :=
              { w.store with
                  redis := Function.update w.store.redis redis.meta.key
                    (some (withInitialCondition redis w.now)) } } := by
  simp only [Reconcile, bind_run]
  rw [GetRedis_found _ _ redis (hF _) hs]
  simp only [hc, if_true, bind_run, readClock_run]
  rw [StatusUpdate_found _ redis]
  rotate_left
  · exact hF _
  · exact hs
  simp [withInitialCondition]

@[simp] theorem AddFinalizer_spec (o : Redis) (f : String) :
    (AddFinalizer o f).spec = o.spec := by
  unfold AddFinalizer; split <;> rfl

@[simp] theorem AddFinalizer_status (o : Redis) (f : String) :
    (AddFinalizer o f).status = o.status := by
  unfold AddFinalizer; split <;> rfl

@[simp] theorem AddFinalizer_key (o : Redis) (f : String) :
    (AddFinalizer o f).meta.key = o.meta.key := by
  unfold AddFinalizer; split <;> rfl

@[simp] theorem AddFinalizer_name (o : Redis) (f : String) :
    (AddFinalizer o f).meta.name = o.meta.name := by
  unfold AddFinalizer; split <;> rfl

@[simp] theorem AddFinalizer_ns (o : Redis) (f : String) :
    (AddFinalizer o f).meta.ns = o.meta.ns := by
  unfold AddFinalizer; split <;> rfl

@[simp] theorem AddFinalizer_uid (o : Redis) (f : String) :
    (AddFinalizer o f).meta.uid = o.meta.uid := by
  unfold AddFinalizer; split <;> rfl

@[simp] theorem AddFinalizer_generation (o : Redis) (f : String) :
    (AddFinalizer o f).meta.generation = o.meta.generation := by
  unfold AddFinalizer; split <;> rfl

@[simp] theorem AddFinalizer_deletionTimestamp (o : Redis) (f : String) :
    (AddFinalizer o f).meta.deletionTimestamp = o.meta.deletionTimestamp := by
  unfold AddFinalizer; split <;> rfl

@[simp] theorem ContainsFinalizer_AddFinalizer (o : Redis) (f : String) :
    ContainsFinalizer (AddFinalizer o f) f = true := by
  unfold AddFinalizer
  split
  · next h => exact h
  · simp [ContainsFinalizer]

theorem reconcileFinalize_active (req : Key) (redis : Redis) (w : World)
    (hdel : redis.meta.deletionTimestamp = none) :
    reconcileFinalize req redis w = reconcileChildren redis w := by
  simp [reconcileFinalize, hdel]

theorem afterUpdate_AddFinalizer (redis : Redis)
    (hfin : ContainsFinalizer redis FinalizerName = false) :
    afterUpdate (AddFinalizer redis FinalizerName) redis =
      some (AddFinalizer redis FinalizerName) := by
  simp only [ContainsFinalizer] at hfin
  simp [afterUpdate, AddFinalizer, hfin]

theorem reconcileGuard_absent (redis : Redis) (w : World)
    (hF : ∀ i, w.faults i = none)
    (hs : w.store.redis redis.meta.key = some redis)
    (hfin : ContainsFinalizer redis FinalizerName = false) :
    reconcileGuard redis.meta.key redis w =
      reconcileFinalize redis.meta.key (AddFinalizer redis FinalizerName)
        { w with
            calls := w.calls ++ [Call.getRedis redis.meta.key,
              Call.update (AddFinalizer redis FinalizerName)]
            store :=
              { w.store with
                  redis := Function.update w.store.redis redis.meta.key
                    (some (AddFinalizer redis FinalizerName)) } } := by
  have hk : (AddFinalizer redis FinalizerName).meta.key = redis.meta.key := by simp
  have hst : (AddFinalizer redis FinalizerName).status = redis.status := by simp
  simp only [reconcileGuard, hfin, bind_run, Bool.not_false, if_true]
  rw [GetRedis_found _ _ redis (hF _) hs]
  simp only [bind_run]
  rw [Update_found _ redis]
  rotate_left
  · exact hF _
  · rw [hk]; exact hs
  simp only [afterUpdate_AddFinalizer redis hfin, hk, ← hst]
  simp only [List.append_assoc, List.singleton_append]

theorem Reconcile_active (redis : Redis) (w : World)
    (hF : ∀ i, w.faults i = none)
    (hs : w.store.redis redis.meta.key = some redis)
    (hdel : redis.meta.deletionTimestamp = none) :
    Reconcile redis.meta.key w =
      reconcileChildren (entering redis w.now)
        { w with
            calls := w.calls ++ preCalls redis w.now
            store :=
              { w.store with
                  redis := Function.update w.store.redis redis.meta.key
                    (some (entering redis w.now)) } } := by
  by_cases hc : redis.status.conditions.length = 0
  · rw [Reconcile_found_fresh redis w hF hs hc]
    by_cases hfin : ContainsFinalizer redis FinalizerName = true
    · have hfin1 : ContainsFinalizer (withInitialCondition redis w.now) FinalizerName = true :=
        hfin
      rw [reconcileGuard_present _ _ _ hfin1, reconcileFinalize_active _ _ _ (by exact hdel)]
      have he : entering redis w.now = withInitialCondition redis w.now := by
        simp only [ContainsFinalizer] at hfin1
        simp [entering, hc, AddFinalizer, hfin1]
      simp [preCalls, hc, hfin, he]
    · have hfin0 : ContainsFinalizer redis FinalizerName = false := by simpa using hfin
      have hfin1 : ContainsFinalizer (withInitialCondition redis w.now) FinalizerName = false :=
        hfin0
      have hrun := reconcileGuard_absent (withInitialCondition redis w.now)
        { w with
            calls := w.calls ++ [Call.getRedis redis.meta.key,
              Call.statusUpdate (withInitialCondition redis w.now)]
            store :=
              { w.store with
                  redis := Function.update w.store.redis redis.meta.key
                    (some (withInitialCondition redis w.now)) } }
        hF (by simp [withInitialCondition]) hfin1
      have hkk : (withInitialCondition redis w.now).meta.key = redis.meta.key := rfl
      rw [hkk] at hrun
      rw [hrun, reconcileFinalize_active _ _ _ (by
        rw [AddFinalizer_deletionTimestamp]; exact hdel)]
      simp [preCalls, hc, hfin0, entering]
  · rw [Reconcile_found_conditions _ redis w (hF _) hs hc]
    by_cases hfin : ContainsFinalizer redis FinalizerName = true
    · rw [reconcileGuard_present _ _ _ hfin, reconcileFinalize_active _ _ _ hdel]
      have he : entering redis w.now = redis := by
        have hfin2 := hfin
        simp only [ContainsFinalizer] at hfin2
        simp [entering, hc, AddFinalizer, hfin2]
      simp only [preCalls, hc, hfin, he, if_true, if_false, List.append_nil]
      rw [update_stored _ _ _ hs]
    · have hfin0 : ContainsFinalizer redis FinalizerName = false := by simpa using hfin
      rw [reconcileGuard_absent redis { w with calls := w.calls ++ [Call.getRedis redis.meta.key] }
        hF hs hfin0, reconcileFinalize_active _ _ _ (by
        rw [AddFinalizer_deletionTimestamp]; exact hdel)]
      simp [preCalls, hc, hfin0, entering]

@[simp] theorem entering_spec (redis : Redis) (now : Nat) :
    (entering redis now).spec = redis.spec := by
  unfold entering; split <;> simp [withInitialCondition]

@[simp] theorem entering_key (redis : Redis) (now : Nat) :
    (entering redis now).meta.key = redis.meta.key := by
  unfold entering; split <;> simp [withInitialCondition]

@[simp] theorem entering_name (redis : Redis) (now : Nat) :
    (entering redis now).meta.name = redis.meta.name := by
  unfold entering; split <;> simp [withInitialCondition]

@[simp] theorem entering_ns (redis : Redis) (now : Nat) :
    (entering redis now).meta.ns = redis.meta.ns := by
  unfold entering; split <;> simp [withInitialCondition]

@[simp] theorem entering_uid (redis : Redis) (now : Nat) :
    (entering redis now).meta.uid = redis.meta.uid := by
  unfold entering; split <;> simp [withInitialCondition]

@[simp] theorem entering_generation (redis : Redis) (now : Nat) :
    (entering redis now).meta.generation = redis.meta.generation := by
  unfold entering; split <;> simp [withInitialCondition]

@[simp] theorem ContainsFinalizer_entering (redis : Redis) (now : Nat) :
    ContainsFinalizer (entering redis now) FinalizerName = true := by
  unfold entering; simp

@[simp] theorem secretKey_entering (redis : Redis) (now : Nat) :
    secretKey (entering redis now) = secretKey redis := by
  simp [secretKey]

@[simp] theorem serviceKey_entering (redis : Redis) (now : Nat) :
    serviceKey (entering redis now) = serviceKey redis := by
  simp [serviceKey]

@[simp] theorem deploymentKey_entering (redis : Redis) (now : Nat) :
    deploymentKey (entering redis now) = deploymentKey redis := by
  simp [deploymentKey]

@[simp] theorem serviceForRedis_entering (redis : Redis) (now : Nat) :
    serviceForRedis (entering redis now) = serviceForRedis redis := by
  simp [serviceForRedis_eq, controllerRef]

@[simp] theorem deploymentForRedis_entering (redis : Redis) (now : Nat) :
    deploymentForRedis (entering redis now) = deploymentForRedis redis := by
  simp [deploymentForRedis_eq, controllerRef, desiredContainer, desiredEnv]

theorem reconcileChildren_fresh (r : Redis) (w : World) (n : Int) (d1 : Service)
    (d2 : Deployment)
    (hF : ∀ i, w.faults i = none)
    (hrand : ∀ i, i < 16 → (w.rand (w.randPos + i)).isSome = true)
    (hs : w.store.redis r.meta.key = some r)
    (hrep : r.spec.replicas = some n)
    (hd1 : serviceForRedis r = .ok d1)
    (hd2 : deploymentForRedis r = .ok d2)
    (hsec : w.store.secrets (secretKey r) = none)
    (hsvc : w.store.services (serviceKey r) = none)
    (hdep : w.store.deployments (deploymentKey r) = none) :
    ∃ pw : String, pw.length = 16 ∧
      reconcileChildren r w =
        (.ok reconciled,
          { w with
              calls := w.calls ++
                [Call.getSecret (secretKey r), Call.createSecret (credentialFor r pw),
                  Call.getService (serviceKey r), Call.createService d1,
                  Call.getDeployment (deploymentKey r), Call.createDeployment d2,
                  Call.statusPatch (statusCopyFor r (some d2.stored) n w.now) r]
              randPos := w.randPos + 16
              events := w.events ++ creationEvents r
              store :=
                { redis := Function.update w.store.redis r.meta.key
                    (some (statusCopyFor r (some d2.stored) n w.now))
                  secrets := Function.update w.store.secrets (secretKey r)
                    (some (credentialFor r pw).stored)
                  services := Function.update w.store.services (serviceKey r)
                    (some (d1.stored (w.clusterIPs (serviceKey r))))
                  deployments :=
                    Function.update w.store.deployments (deploymentKey r)
                      (some d2.stored) } }) := by
  obtain ⟨pw, hlen, hsecret⟩ := reconcileSecret_created r w hF hrand hsec
  refine ⟨pw, hlen, ?_⟩
  simp only [reconcileChildren, bind_run, hsecret]
  rw [reconcileService_created r _ d1]
  rotate_left
  · exact hF
  · exact hd1
  · exact hsvc
  simp only [bind_run]
  rw [reconcileDeployment_created r _ d2]
  rotate_left
  · exact hF
  · exact hd2
  · exact hdep
  simp only [bind_run]
  rw [updateStatus_stored r (some d2.stored) n]
  rotate_left
  · exact hF
  · exact hrep
  · exact hs
  obtain ⟨hk1, -⟩ := serviceForRedis_shape r d1 hd1
  obtain ⟨hk2, -⟩ := deploymentForRedis_shape r d2 hd2
  have hn1 : d1.meta.name = r.spec.service.name := congrArg Prod.snd hk1
  have hn2 : d2.meta.name = r.meta.name := congrArg Prod.snd hk2
  simp [creationEvents, hn1, hn2]

/-! ## Lemmas on a pass over existing children -/

theorem reconcileService_found_eq (r : Redis) (w : World) (d svc : Service)
    (hF : ∀ i, w.faults i = none)
    (hd : serviceForRedis r = .ok d)
    (hs : w.store.services (serviceKey r) = some svc)
    (hk : svc.meta.key = serviceKey r) :
    reconcileService r w =
      match syncPorts d.spec.ports 0 svc.spec.ports with
      | .error p => (.error p, { w with calls := w.calls ++ [Call.getService (serviceKey r)] })
      | .ok res =>
        if serviceNeedsUpdate svc d res.2 then
          (.ok (.ok svc),
            { w with
                calls := w.calls ++ [Call.getService (serviceKey r),
                  Call.patchService (syncedService svc d res.1) d]
                events := w.events ++
                  [⟨"Normal", "UpdatedService", "Updated service " ++ d.meta.name⟩] })
        else
          (.ok (.ok (syncedService svc d res.1)),
            { w with calls := w.calls ++ [Call.getService (serviceKey r)] }) := by
  obtain ⟨hdk, dp, hdp⟩ := serviceForRedis_shape r d hd
  have hname : (r.meta.ns, d.meta.name) = serviceKey r := by
    have := congrArg Prod.snd hdk
    simp only [ObjectMeta.key, serviceKey] at this
    simp [serviceKey, this]
  have hk2 : ObjectMeta.key svc.meta = serviceKey r := hk
  simp only [reconcileService, hd, liftExcept_ok, bind_run, hname, GetService, storeCall,
    callOutcome, hF, hs, returned, storeAfter]
  cases hsync : syncPorts d.spec.ports 0 svc.spec.ports with
  | error p => simp
  | ok res =>
    obtain ⟨ports, changed⟩ := res
    have hports : ports = svc.spec.ports ∨ ports = d.spec.ports := by
      rw [hdp] at hsync ⊢
      exact syncPorts_single dp _ _ _ hsync
    have hpatch := mergePatchService_synced svc d ports hports
    simp only [liftExcept_ok, serviceNeedsUpdate]
    split
    · simp only [bind_run, PatchService, storeCall, callOutcome, hF, syncedService_meta, hk2,
        hs, returned, storeAfter, pure_run, hpatch, recordEvent]
      rw [update_stored _ _ _ hs]
      simp
    · rfl

theorem reconcileDeployment_found_eq (r : Redis) (w : World) (d dep : Deployment)
    (hF : ∀ i, w.faults i = none)
    (hd : deploymentForRedis r = .ok d)
    (hs : w.store.deployments (deploymentKey r) = some dep)
    (hk : dep.meta.key = deploymentKey r) :
    reconcileDeployment r w =
      match templatesMatch dep.spec.template d.spec.template with
      | .error p =>
        (.error p, { w with calls := w.calls ++ [Call.getDeployment (deploymentKey r)] })
      | .ok b =>
        if deploymentNeedsUpdate dep d b then
          (.ok (.ok (mergePatchDeployment dep (syncedDeployment dep d b) dep)),
            { w with
                calls := w.calls ++ [Call.getDeployment (deploymentKey r),
                  Call.patchDeployment (syncedDeployment dep d b) dep]
                events := w.events ++
                  [⟨"Normal", "UpdatedDeployment", "Deployment spec updated."⟩]
                store :=
                  { w.store with
                      deployments := Function.update w.store.deployments (deploymentKey r)
                        (some (mergePatchDeployment dep (syncedDeployment dep d b) dep)) } })
        else
          (.ok (.ok (syncedDeployment dep d b)),
            { w with calls := w.calls ++ [Call.getDeployment (deploymentKey r)] }) := by
  obtain ⟨hdk, -⟩ := deploymentForRedis_shape r d hd
  have hname : (r.meta.ns, d.meta.name) = deploymentKey r := by
    have := congrArg Prod.snd hdk
    simp only [ObjectMeta.key, deploymentKey] at this
    simp [deploymentKey, this]
  have hk2 : ObjectMeta.key dep.meta = deploymentKey r := hk
  simp only [reconcileDeployment, hd, liftExcept_ok, bind_run, hname, GetDeployment, storeCall,
    callOutcome, hF, hs, returned, storeAfter]
  cases htm : templatesMatch dep.spec.template d.spec.template with
  | error p => simp
  | ok b =>
    simp only [liftExcept_ok, deploymentNeedsUpdate]
    split
    · simp only [bind_run, PatchDeployment, storeCall, callOutcome, hF, syncedDeployment_meta,
        hk2, hs, returned, storeAfter, pure_run, recordEvent]
      simp
    · rfl

theorem replicasMatch_refl (a : Option Int) : replicasMatch a a = true := by
  cases a <;> simp [replicasMatch]

/-- `templatesMatch` looks at the containers of the found template only. -/
theorem templatesMatch_congr (t1 t2 desired : PodTemplateSpec)
    (h : t1.spec.containers = t2.spec.containers) :
    templatesMatch t1 desired = templatesMatch t2 desired := by
  simp [templatesMatch, h]

theorem syncedDeployment_settled (dep d : Deployment) :
    syncedDeployment dep d true = 
      { dep with spec := { dep.spec with
          replicas := if !(replicasMatch dep.spec.replicas d.spec.replicas) then d.spec.replicas
            else dep.spec.replicas } } := by
  simp [syncedDeployment]

theorem patched_settled (dep d : Deployment) (b : Bool)
    (htm : templatesMatch dep.spec.template d.spec.template = .ok b)
    (hdd : templatesMatch d.spec.template d.spec.template = .ok true) :
    deploymentSettled (mergePatchDeployment dep (syncedDeployment dep d b) dep) d ∧
    (mergePatchDeployment dep (syncedDeployment dep d b) dep).meta = dep.meta ∧
    (mergePatchDeployment dep (syncedDeployment dep d b) dep).status = dep.status := by
  refine ⟨⟨?_, ?_⟩, ?_, rfl⟩
  · simp only [mergePatchDeployment, pick_self, syncedDeployment]
    split
    · exact replicasMatch_refl _
    · next h => simpa using h
  · cases b with
    | true =>
      rw [← htm]
      apply templatesMatch_congr
      simp [mergePatchDeployment, syncedDeployment]
    | false =>
      rw [← hdd]
      apply templatesMatch_congr
      simp [mergePatchDeployment, syncedDeployment]
  · simp [mergePatchDeployment]

theorem templatesMatch_stored (d : Deployment) (desired : PodTemplateSpec) :
    templatesMatch d.stored.spec.template desired = templatesMatch d.spec.template desired := by
  cases hc : d.spec.template.spec.containers with
  | none => simp [templatesMatch, Deployment.stored, hc, sliceLen]
  | some cs =>
    cases cs with
    | nil => simp [templatesMatch, Deployment.stored, hc, sliceLen, sliceIndex, bind, Except.bind]
    | cons c rest =>
      simp only [templatesMatch, Deployment.stored, hc, sliceLen, sliceIndex, Option.map_some',
        List.map_cons, Option.getD_some, List.getElem?_cons_zero, bind, Except.bind,
        Container.stored]
      cases c.livenessProbe <;> cases c.readinessProbe <;> simp

theorem replicasMatch_stored (x : Option Int) (h : x ≠ none) :
    replicasMatch (some (x.getD 1)) x = true := by
  cases x with
  | none => exact absurd rfl h
  | some n => simp [replicasMatch]

theorem syncPorts_stored (dp : ServicePort) :
    syncPorts [dp] 0 [dp.stored] = .ok ([dp.stored], false) := by
  simp [syncPorts, sliceIndex, bind, Except.bind, pure, Except.pure, ServicePort.stored]

theorem reconcileDeployment_post (r : Redis) (w : World) (v : Deployment)
    (hF : ∀ i, w.faults i = none)
    (hwf : ∀ dep, w.store.deployments (deploymentKey r) = some dep →
      dep.meta.key = deploymentKey r)
    (hrep : r.spec.replicas ≠ none)
    (h : (reconcileDeployment r w).1 = .ok (.ok v)) :
    ∃ d, deploymentForRedis r = .ok d ∧
      (reconcileDeployment r w).2.store.deployments (deploymentKey r) = some v ∧
      v.meta.key = deploymentKey r ∧ deploymentSettled v d ∧
      (reconcileDeployment r w).2.store.redis = w.store.redis ∧
      (reconcileDeployment r w).2.store.secrets = w.store.secrets ∧
      (reconcileDeployment r w).2.store.services = w.store.services ∧
      (reconcileDeployment r w).2.faults = w.faults ∧
      (reconcileDeployment r w).2.now = w.now := by
  cases hd : deploymentForRedis r with
  | error p => simp [reconcileDeployment, hd] at h
  | ok d =>
    obtain ⟨hdk, hdr, -, hdd⟩ := deploymentForRedis_shape r d hd
    refine ⟨d, rfl, ?_⟩
    cases hs : w.store.deployments (deploymentKey r) with
    | none =>
      rw [reconcileDeployment_created r w d hF hd hs] at h ⊢
      simp only [Except.ok.injEq] at h
      subst h
      refine ⟨by simp, hdk, ⟨?_, ?_⟩, rfl, rfl, rfl, rfl, rfl⟩
      · exact replicasMatch_stored _ (by rw [hdr]; exact hrep)
      · rw [templatesMatch_stored]; exact hdd
    | some dep =>
      have hk := hwf dep hs
      rw [reconcileDeployment_found_eq r w d dep hF hd hs hk] at h ⊢
      cases htm : templatesMatch dep.spec.template d.spec.template with
      | error p => simp [htm] at h
      | ok b =>
        simp only [htm] at h ⊢
        obtain ⟨hset, hmeta, -⟩ := patched_settled dep d b htm hdd
        split at h
        · next hneed =>
          simp only [Except.ok.injEq] at h
          subst h
          rw [if_pos hneed]
          exact ⟨by simp, by rw [hmeta]; exact hk, hset, rfl, rfl, rfl, rfl, rfl⟩
        · next hneed =>
          simp only [Except.ok.injEq] at h
          subst h
          rw [if_neg hneed]
          simp only [deploymentNeedsUpdate, Bool.or_eq_true, Bool.not_eq_true', not_or,
            Bool.not_eq_false] at hneed
          obtain ⟨hr, hb⟩ := hneed
          subst hb
          have hsame : syncedDeployment dep d true = dep := by
            simp [syncedDeployment, hr]
          rw [hsame]
          exact ⟨hs, hk, ⟨hr, htm⟩, rfl, rfl, rfl, rfl, rfl⟩

theorem syncPorts_desired (dp : ServicePort) :
    syncPorts [dp] 0 [dp] = .ok ([dp], false) := by
  simp [syncPorts, sliceIndex, bind, Except.bind, pure, Except.pure]

theorem reconcileService_post (r : Redis) (w : World) (v : Service)
    (hF : ∀ i, w.faults i = none)
    (hwf : ∀ svc, w.store.services (serviceKey r) = some svc → svc.meta.key = serviceKey r)
    (h : (reconcileService r w).1 = .ok (.ok v)) :
    ∃ d svc res, serviceForRedis r = .ok d ∧
      (reconcileService r w).2.store.services (serviceKey r) = some svc ∧
      svc.meta.key = serviceKey r ∧
      syncPorts d.spec.ports 0 svc.spec.ports = .ok res ∧
      (reconcileService r w).2.store.redis = w.store.redis ∧
      (reconcileService r w).2.store.secrets = w.store.secrets ∧
      (reconcileService r w).2.store.deployments = w.store.deployments ∧
      (reconcileService r w).2.faults = w.faults ∧
      (reconcileService r w).2.now = w.now := by
  cases hd : serviceForRedis r with
  | error p => simp [reconcileService, hd] at h
  | ok d =>
    obtain ⟨hdk, dp, hdp⟩ := serviceForRedis_shape r d hd
    cases hs : w.store.services (serviceKey r) with
    | none =>
      rw [reconcileService_created r w d hF hd hs]
      refine ⟨d, d.stored (w.clusterIPs (serviceKey r)), ([dp.stored], false), rfl, by simp, hdk,
        ?_, rfl, rfl, rfl, rfl, rfl⟩
      simp only [Service.stored, hdp, List.map_cons, List.map_nil]
      exact syncPorts_stored dp
    | some svc =>
      have hk := hwf svc hs
      rw [reconcileService_found_eq r w d svc hF hd hs hk] at h ⊢
      cases hsync : syncPorts d.spec.ports 0 svc.spec.ports with
      | error p => simp [hsync] at h
      | ok res =>
        refine ⟨d, svc, res, rfl, ?_, hk, hsync, ?_⟩
        · simp only []
          split <;> exact hs
        · simp only []
          split <;> exact ⟨rfl, rfl, rfl, rfl, rfl⟩

theorem reconcileSecret_post (r : Redis) (w : World) (v : Secret)
    (hF : ∀ i, w.faults i = none)
    (h : (reconcileSecret r w).1 = .ok (.ok v)) :
    (∃ sec, (reconcileSecret r w).2.store.secrets (secretKey r) = some sec) ∧
      (reconcileSecret r w).2.store.redis = w.store.redis ∧
      (reconcileSecret r w).2.store.services = w.store.services ∧
      (reconcileSecret r w).2.store.deployments = w.store.deployments ∧
      (reconcileSecret r w).2.faults = w.faults ∧
      (reconcileSecret r w).2.now = w.now := by
  cases hs : w.store.secrets (secretKey r) with
  | some s =>
    rw [reconcileSecret_found r w s hs (hF _)]
    exact ⟨⟨s, hs⟩, rfl, rfl, rfl, rfl, rfl⟩
  | none =>
    have hs1 : w.store.secrets (r.meta.ns, r.spec.passwordSecretName) = none := hs
    obtain ⟨k, hk⟩ := generateRandomPassword_world 16
      { w with calls := w.calls ++ [Call.getSecret (r.meta.ns, r.spec.passwordSecretName)] }
    revert h
    simp only [reconcileSecret, GetSecret, storeCall, callOutcome, hF, hs1, returned, storeAfter,
      bind_run, Err.IsNotFound, if_true]
    cases hg : generateRandomPassword 16
      { w with calls := w.calls ++ [Call.getSecret (r.meta.ns, r.spec.passwordSecretName)] } with
    | mk res w2 =>
      rw [hg] at hk
      simp only at hk
      subst hk
      rcases res with p | (e | pw)
      · intro h; simp at h
      · intro h; simp at h
      · intro _
        simp only [SetControllerReference_fresh, bind_run, CreateSecret, storeCall, callOutcome,
          hF, ObjectMeta.key, hs1, returned, storeAfter, recordEvent, pure_run, secretKey]
        exact ⟨⟨_, Function.update_same _ _ _⟩, trivial, trivial, trivial, trivial, trivial⟩

theorem modifyFirstCondition_self (t : String) (f : Condition → Condition) (c1 : Condition)
    (hf : f c1 = c1) (cs : List Condition) (hfind : FindStatusCondition cs t = some c1) :
    modifyFirstCondition t f cs = cs := by
  induction cs with
  | nil => rfl
  | cons c rest ih =>
    by_cases h : c.type = t
    · simp only [FindStatusCondition, List.find?_cons, h, decide_True, Option.some.injEq] at hfind
      subst hfind
      simp [modifyFirstCondition, h, hf]
    · simp only [FindStatusCondition, List.find?_cons, h, decide_False] at hfind
      simp [modifyFirstCondition, h, ih hfind]

theorem SetStatusCondition_idem (cs : List Condition) (c : Condition) (t1 t2 : Nat) :
    SetStatusCondition (SetStatusCondition cs c t1) c t2 = SetStatusCondition cs c t1 := by
  obtain ⟨c1, hfind, hst, hr, hm, hg⟩ := find_SetStatusCondition cs c t1
  generalize SetStatusCondition cs c t1 = cs1 at hfind ⊢
  unfold SetStatusCondition
  rw [hfind]
  apply modifyFirstCondition_self _ _ c1 _ _ hfind
  cases c1
  simp_all [updateCondition]

theorem SetStatusCondition_ne_nil (cs : List Condition) (c : Condition) (t : Nat) :
    (SetStatusCondition cs c t).length ≠ 0 := by
  obtain ⟨c1, hfind, -⟩ := find_SetStatusCondition cs c t
  intro h
  have : SetStatusCondition cs c t = [] := List.length_eq_zero.mp h
  rw [this] at hfind
  simp [FindStatusCondition] at hfind

theorem statusCopyFor_idem (r : Redis) (dep dep1 : Deployment) (n : Int) (t1 t2 : Nat)
    (hav : dep1.status.availableReplicas = dep.status.availableReplicas) :
    statusCopyFor (statusCopyFor r (some dep) n t1) (some dep1) n t2 =
      statusCopyFor r (some dep) n t1 := by
  have hc : availableCondition (statusCopyFor r (some dep) n t1) (some dep1) n =
      availableCondition r (some dep) n := by
    simp [availableCondition, statusCopyFor, hav]
  unfold statusCopyFor at hc ⊢
  simp only [hc, SetStatusCondition_idem]

theorem requeue_ne_reconciled (a b : String) (e : Err) :
    requeueInstanceWithError a b e ≠ reconciled := by
  simp [requeueInstanceWithError, reconciled]

theorem reconcileChildren_post (r : Redis) (w : World)
    (hF : ∀ i, w.faults i = none)
    (hs : w.store.redis r.meta.key = some r)
    (hwfS : ∀ svc, w.store.services (serviceKey r) = some svc → svc.meta.key = serviceKey r)
    (hwfD : ∀ dep, w.store.deployments (deploymentKey r) = some dep →
      dep.meta.key = deploymentKey r)
    (h : (reconcileChildren r w).1 = .ok reconciled) :
    ∃ n dep, r.spec.replicas = some n ∧
      (reconcileChildren r w).2.store.redis r.meta.key =
        some (statusCopyFor r (some dep) n w.now) ∧
      childrenSettled r (reconcileChildren r w).2.store dep ∧
      (reconcileChildren r w).2.faults = w.faults := by
  simp only [reconcileChildren, bind_run] at h ⊢
  cases h1 : reconcileSecret r w with
  | mk res1 wA =>
    rw [h1] at h
    rcases res1 with p | (e | sec)
    · simp at h
    · simp [requeue_ne_reconciled] at h
    · have hp1 := reconcileSecret_post r w sec hF (by rw [h1])
      rw [h1] at hp1
      obtain ⟨hsec, hAr, hAs, hAd, hAf, hAn⟩ := hp1
      simp only at hsec hAr hAs hAd hAf hAn
      have hFA : ∀ i, wA.faults i = none := by rw [hAf]; exact hF
      simp only [bind_run] at h ⊢
      cases h2 : reconcileService r wA with
      | mk res2 wB =>
        rw [h2] at h
        rcases res2 with p | (e | svcv)
        · simp at h
        · simp [requeue_ne_reconciled] at h
        · have hp2 := reconcileService_post r wA svcv hFA (by rw [hAs]; exact hwfS)
            (by rw [h2])
          rw [h2] at hp2
          obtain ⟨d, svc, res, hd, hsvc, hsk, hsync, hBr, hBs, hBd, hBf, hBn⟩ := hp2
          simp only at hsvc hBr hBs hBd hBf hBn
          have hFB : ∀ i, wB.faults i = none := by rw [hBf]; exact hFA
          simp only [bind_run] at h ⊢
          cases h3 : reconcileDeployment r wB with
          | mk res3 wC =>
            rw [h3] at h
            rcases res3 with p | (e | dep)
            · simp at h
            · simp [requeue_ne_reconciled] at h
            · simp only [bind_run] at h ⊢
              cases hrep : r.spec.replicas with
              | none =>
                simp [updateStatus, hrep, deref] at h
              | some n =>
                have hp3 := reconcileDeployment_post r wB dep hFB
                  (by rw [hBd, hAd]; exact hwfD) (by rw [hrep]; exact Option.some_ne_none n)
                  (by rw [h3])
                rw [h3] at hp3
                obtain ⟨dd, hdd, hdep, hdk, hset, hCr, hCs, hCv, hCf, hCn⟩ := hp3
                simp only at hdep hCr hCs hCv hCf hCn
                have hFC : ∀ i, wC.faults i = none := by rw [hCf]; exact hFB
                have hsC : wC.store.redis r.meta.key = some r := by
                  rw [hCr, hBr, hAr]; exact hs
                rw [updateStatus_stored r (some dep) n wC hFC hrep hsC]
                refine ⟨n, dep, rfl, ?_, ⟨?_, ?_, ?_⟩, ?_⟩
                · simp [hCn, hBn, hAn]
                · obtain ⟨s0, hs0⟩ := hsec
                  exact ⟨s0, by simp [hCs, hBs, hs0]⟩
                · exact ⟨d, svc, res, hd, by simp [hCv, hsvc], hsk, hsync⟩
                · exact ⟨dd, hdd, by simpa using hdep, hdk, hset⟩
                · simp [hCf, hBf, hAf]

theorem reconcileChildren_settled (r : Redis) (w : World) (dep : Deployment) (n : Int)
    (hF : ∀ i, w.faults i = none)
    (hs : w.store.redis r.meta.key = some r)
    (hrep : r.spec.replicas = some n)
    (hset : childrenSettled r w.store dep)
    (hstat : statusCopyFor r (some dep) n w.now = r) :
    ∃ cs, (reconcileChildren r w).1 = .ok reconciled ∧
      (reconcileChildren r w).2.store = w.store ∧
      (reconcileChildren r w).2.calls =
        w.calls ++ ([Call.getSecret (secretKey r)] ++ cs ++
          [Call.getDeployment (deploymentKey r), Call.statusPatch r r]) ∧
      (∀ c ∈ cs, c = Call.getService (serviceKey r) ∨
        ∃ obj base, c = Call.patchService obj base) := by
  obtain ⟨⟨sec, hsec⟩, ⟨d, svc, res, hd, hsvc, hsk, hsync⟩, ⟨dd, hdd, hdep, hdk, hr, htm⟩⟩ := hset
  have hsame : syncedDeployment dep dd true = dep := by simp [syncedDeployment, hr]
  have hneed : deploymentNeedsUpdate dep dd true = false := by
    simp [deploymentNeedsUpdate, hr]
  simp only [reconcileChildren, bind_run]
  rw [reconcileSecret_found r w sec hsec (hF _)]
  simp only [bind_run]
  rw [reconcileService_found_eq r _ d svc]
  rotate_left
  · exact hF
  · exact hd
  · exact hsvc
  · exact hsk
  simp only [hsync]
  by_cases hn : serviceNeedsUpdate svc d res.2 = true
  · simp only [hn, if_true, bind_run]
    rw [reconcileDeployment_found_eq r _ dd dep]
    rotate_left
    · exact hF
    · exact hdd
    · exact hdep
    · exact hdk
    simp only [htm, hneed, hsame, Bool.false_eq_true, if_false, bind_run]
    rw [updateStatus_stored r (some dep) n]
    rotate_left
    · exact hF
    · exact hrep
    · exact hs
    simp only [hstat]
    refine ⟨[Call.getService (serviceKey r), Call.patchService (syncedService svc d res.1) d],
      rfl, ?_, ?_, ?_⟩
    · show { w.store with redis := Function.update w.store.redis r.meta.key (some r) } = w.store
      rw [update_stored _ _ _ hs]
    · simp
    · intro c hc
      simp only [List.mem_cons, List.mem_singleton, List.not_mem_nil, or_false] at hc
      rcases hc with rfl | rfl
      · exact Or.inl rfl
      · exact Or.inr ⟨_, _, rfl⟩
  · have hn0 : serviceNeedsUpdate svc d res.2 = false := by simpa using hn
    simp only [hn0, Bool.false_eq_true, if_false, bind_run]
    rw [reconcileDeployment_found_eq r _ dd dep]
    rotate_left
    · exact hF
    · exact hdd
    · exact hdep
    · exact hdk
    simp only [htm, hneed, hsame, Bool.false_eq_true, if_false, bind_run]
    rw [updateStatus_stored r (some dep) n]
    rotate_left
    · exact hF
    · exact hrep
    · exact hs
    simp only [hstat]
    refine ⟨[Call.getService (serviceKey r)], rfl, ?_, ?_, ?_⟩
    · show { w.store with redis := Function.update w.store.redis r.meta.key (some r) } = w.store
      rw [update_stored _ _ _ hs]
    · simp
    · intro c hc
      simp only [List.mem_singleton] at hc
      exact Or.inl hc

theorem Reconcile_settled (r : Redis) (w : World) (dep : Deployment) (n : Int)
    (hF : ∀ i, w.faults i = none)
    (hs : w.store.redis r.meta.key = some r)
    (hdel : r.meta.deletionTimestamp = none)
    (hfin : ContainsFinalizer r FinalizerName = true)
    (hc : r.status.conditions.length ≠ 0)
    (hrep : r.spec.replicas = some n)
    (hset : childrenSettled r w.store dep)
    (hstat : statusCopyFor r (some dep) n w.now = r) :
    ∃ cs, (Reconcile r.meta.key w).1 = .ok reconciled ∧
      (Reconcile r.meta.key w).2.store = w.store ∧
      (Reconcile r.meta.key w).2.calls =
        w.calls ++ ([Call.getRedis r.meta.key, Call.getSecret (secretKey r)] ++ cs ++
          [Call.getDeployment (deploymentKey r), Call.statusPatch r r]) ∧
      (∀ c ∈ cs, c = Call.getService (serviceKey r) ∨
        ∃ obj base, c = Call.patchService obj base) := by
  rw [Reconcile_found_conditions _ r w (hF _) hs hc, reconcileGuard_present _ _ _ hfin,
    reconcileFinalize_active _ _ _ hdel]
  obtain ⟨cs, h1, h2, h3, h4⟩ := reconcileChildren_settled r
    { w with calls := w.calls ++ [Call.getRedis r.meta.key] } dep n hF hs hrep hset hstat
  refine ⟨cs, h1, h2, ?_, h4⟩
  rw [h3]
  simp

theorem Reconcile_active_entering (redis : Redis) (w : World)
    (hF : ∀ i, w.faults i = none)
    (hs : w.store.redis redis.meta.key = some redis)
    (hdel : redis.meta.deletionTimestamp = none) :
    Reconcile redis.meta.key w =
      reconcileChildren (entering redis w.now) (enteringWorld redis w) :=
  Reconcile_active redis w hF hs hdel

theorem enteringWorld_redis (redis : Redis) (w : World) :
    (enteringWorld redis w).store.redis (entering redis w.now).meta.key =
      some (entering redis w.now) := by
  show Function.update _ _ _ _ = _
  rw [entering_key, Function.update_same]

/-! ## C1: the condition set by `updateStatus` -/

/-- C1. For an Instance with a declared replica count `n` and any workload
argument (nil included), `updateStatus` issues one status patch whose object
has the Available condition {True, "DeploymentAvailable"} when the workload is
non-nil with `n` available replicas, and {False, "Reconciling"} in every other
case; when the call is not made to fail and the store holds this Instance, the
call succeeds and that object is what the store holds afterwards. -/
theorem updateStatus_sets_available (redis : Redis) (deployment : Option Deployment)
    (n : Int) (w : World) (hrep : redis.spec.replicas = some n) :
    ∃ obj : Redis,
      newCalls w (updateStatus redis deployment w).2 = [Call.statusPatch obj redis] ∧
      ((∃ d, deployment = some d ∧ d.status.availableReplicas = n) →
        hasAvailable obj.status.conditions .ConditionTrue "DeploymentAvailable") ∧
      ((¬ ∃ d, deployment = some d ∧ d.status.availableReplicas = n) →
        hasAvailable obj.status.conditions .ConditionFalse "Reconciling") ∧
      (w.faults w.calls.length = none → w.store.redis redis.meta.key = some redis →
        (updateStatus redis deployment w).1 = .ok none ∧
        (updateStatus redis deployment w).2.store.redis redis.meta.key = some obj) := by
  refine ⟨{ redis with
            status :=
              { passwordSecretName := redis.spec.passwordSecretName
                conditions :=
                  SetStatusCondition redis.status.conditions
                    (availableCondition redis deployment n) w.now } }, ?_, ?_, ?_, ?_⟩
  · apply newCalls_append
    simp only [updateStatus, hrep, deref, bind_run, liftExcept_ok, readClock_run, StatusPatch,
      storeCall]
    generalize callOutcome w _ = r
    rcases r with e | ⟨a, s⟩ <;> rfl
  · rintro ⟨d, rfl, hd⟩
    obtain ⟨c, hc, hs, hr, -, -⟩ := find_SetStatusCondition redis.status.conditions
      (availableCondition redis (some d) n) w.now
    rw [availableCondition_type] at hc
    refine ⟨c, hc, ?_, ?_⟩
    · rw [hs]; simp [availableCondition, hd]
    · rw [hr]; simp [availableCondition, hd]
  · intro hno
    obtain ⟨c, hc, hs, hr, -, -⟩ := find_SetStatusCondition redis.status.conditions
      (availableCondition redis deployment n) w.now
    rw [availableCondition_type] at hc
    refine ⟨c, hc, ?_, ?_⟩
    · rw [hs]
      cases deployment with
      | none => rfl
      | some d =>
        have : d.status.availableReplicas ≠ n := fun h => hno ⟨d, rfl, h⟩
        simp [availableCondition, this]
    · rw [hr]
      cases deployment with
      | none => rfl
      | some d =>
        have : d.status.availableReplicas ≠ n := fun h => hno ⟨d, rfl, h⟩
        simp [availableCondition, this]
  · intro hf hs
    simp only [updateStatus, hrep, deref, bind_run, liftExcept_ok, readClock_run, StatusPatch,
      storeCall, callOutcome, hf, hs, returned, storeAfter, pure_run]
    simp [mergePatchStatus_self]

/-- Witness for C1: the test instance, a nil workload, an empty world. -/
theorem updateStatus_sets_available_witness :
    testRedis.spec.replicas = some 1 ∧
    ∃ obj : Redis,
      newCalls (calmWorld (storeWith testRedis))
        (updateStatus testRedis none (calmWorld (storeWith testRedis))).2 =
          [Call.statusPatch obj testRedis] ∧
      ((∃ d, (none : Option Deployment) = some d ∧ d.status.availableReplicas = 1) →
        hasAvailable obj.status.conditions .ConditionTrue "DeploymentAvailable") ∧
      ((¬ ∃ d, (none : Option Deployment) = some d ∧ d.status.availableReplicas = 1) →
        hasAvailable obj.status.conditions .ConditionFalse "Reconciling") ∧
      ((calmWorld (storeWith testRedis)).faults (calmWorld (storeWith testRedis)).calls.length =
          none →
        (calmWorld (storeWith testRedis)).store.redis testRedis.meta.key = some testRedis →
        (updateStatus testRedis none (calmWorld (storeWith testRedis))).1 = .ok none ∧
        (updateStatus testRedis none (calmWorld (storeWith testRedis))).2.store.redis
          testRedis.meta.key = some obj) :=
  ⟨rfl, updateStatus_sets_available testRedis none 1 (calmWorld (storeWith testRedis)) rfl⟩

/-! ## C2: what a second pass writes -/

/-- C2, counterexample. The test instance in a store without children: the
first pass returns done; the second pass, run at once on the resulting world,
returns done and issues a write call, the status patch of `updateStatus`. -/
theorem Reconcile_second_pass_writes :
    (Reconcile testKey (calmWorld (storeWith testRedis))).1 = .ok reconciled ∧
    (Reconcile testKey (Reconcile testKey (calmWorld (storeWith testRedis))).2).1 =
      .ok reconciled ∧
    ((newCalls (Reconcile testKey (calmWorld (storeWith testRedis))).2
      (Reconcile testKey (Reconcile testKey (calmWorld (storeWith testRedis))).2).2).filter
        Call.isWrite).length = 1 ∧
    ((newCalls (Reconcile testKey (calmWorld (storeWith testRedis))).2
      (Reconcile testKey (Reconcile testKey (calmWorld (storeWith testRedis))).2).2).filter
        Call.isStatusPatch).length = 1 := by
  decide!

/-- C2, amended. For an active Instance held by the store (children, if any,
stored under their own names), if one pass with no call made to fail returns
done, then a second pass on the resulting world (at any clock reading, no call
made to fail) returns done and leaves the store as it is; its calls are the
reads of the Instance, the credential, the Endpoint and the Workload, possibly
an Endpoint patch, and one status patch whose object equals its baseline; none
of them is a create, an update of the Instance or a Workload patch. -/
theorem Reconcile_second_pass (redis : Redis) (w : World) (t : Nat)
    (hF : ∀ i, w.faults i = none)
    (hs : w.store.redis redis.meta.key = some redis)
    (hdel : redis.meta.deletionTimestamp = none)
    (hwfS : ∀ svc, w.store.services (serviceKey redis) = some svc →
      svc.meta.key = serviceKey redis)
    (hwfD : ∀ dep, w.store.deployments (deploymentKey redis) = some dep →
      dep.meta.key = deploymentKey redis)
    (hfirst : (Reconcile redis.meta.key w).1 = .ok reconciled) :
    ∃ r1 cs,
      (Reconcile redis.meta.key { (Reconcile redis.meta.key w).2 with now := t }).1 =
        .ok reconciled ∧
      (Reconcile redis.meta.key { (Reconcile redis.meta.key w).2 with now := t }).2.store =
        (Reconcile redis.meta.key w).2.store ∧
      (Reconcile redis.meta.key { (Reconcile redis.meta.key w).2 with now := t }).2.calls =
        (Reconcile redis.meta.key w).2.calls ++
          ([Call.getRedis redis.meta.key, Call.getSecret (secretKey redis)] ++ cs ++
            [Call.getDeployment (deploymentKey redis), Call.statusPatch r1 r1]) ∧
      (∀ c ∈ cs, c = Call.getService (serviceKey redis) ∨
        ∃ obj base, c = Call.patchService obj base) ∧
      (∀ c ∈ [Call.getRedis redis.meta.key, Call.getSecret (secretKey redis)] ++ cs ++
            [Call.getDeployment (deploymentKey redis), Call.statusPatch r1 r1],
        c.isCreate = false ∧ c.isUpdate = false ∧ c.isDeploymentPatch = false) := by
  rw [Reconcile_active_entering redis w hF hs hdel] at hfirst ⊢
  obtain ⟨n, dep, hrep, hr1, hset, hfl⟩ := reconcileChildren_post (entering redis w.now)
    (enteringWorld redis w) hF (enteringWorld_redis redis w)
    (by rw [serviceKey_entering]; exact hwfS) (by rw [deploymentKey_entering]; exact hwfD) hfirst
  generalize (reconcileChildren (entering redis w.now) (enteringWorld redis w)).2 = w1
    at hr1 hset hfl ⊢
  have hnow : (enteringWorld redis w).now = w.now := rfl
  have hfaults : (enteringWorld redis w).faults = w.faults := rfl
  rw [hnow] at hr1
  rw [hfaults] at hfl
  have hk1 : (statusCopyFor (entering redis w.now) (some dep) n w.now).meta.key =
      redis.meta.key := entering_key redis w.now
  obtain ⟨cs, h1, h2, h3, h4⟩ := Reconcile_settled
    (statusCopyFor (entering redis w.now) (some dep) n w.now) { w1 with now := t } dep n
    (by rw [← hfl] at hF; exact hF)
    (by rw [hk1, ← entering_key redis w.now]; exact hr1)
    (by
      show (entering redis w.now).meta.deletionTimestamp = none
      unfold entering
      rw [AddFinalizer_deletionTimestamp]
      split <;> exact hdel)
    (ContainsFinalizer_entering redis w.now)
    (SetStatusCondition_ne_nil _ _ _)
    hrep hset (statusCopyFor_idem _ dep dep n w.now t rfl)
  rw [hk1] at h1 h2 h3
  refine ⟨statusCopyFor (entering redis w.now) (some dep) n w.now, cs, h1, h2, ?_, ?_, ?_⟩
  · rw [h3]
    simp [secretKey, deploymentKey, statusCopyFor]
  · intro c hc
    have := h4 c hc
    simpa [serviceKey, statusCopyFor] using this
  · intro c hc
    simp only [List.mem_append, List.mem_cons, List.mem_singleton, List.not_mem_nil,
      or_false] at hc
    rcases hc with ((rfl | rfl) | hc) | (rfl | rfl)
    · exact ⟨rfl, rfl, rfl⟩
    · exact ⟨rfl, rfl, rfl⟩
    · rcases h4 c hc with rfl | ⟨o, b, rfl⟩ <;> exact ⟨rfl, rfl, rfl⟩
    · exact ⟨rfl, rfl, rfl⟩
    · exact ⟨rfl, rfl, rfl⟩


/-- Witness for C2 (amended): two passes over the test instance. -/
theorem Reconcile_second_pass_witness :
    (∀ i, (calmWorld (storeWith testRedis)).faults i = none) ∧
    (calmWorld (storeWith testRedis)).store.redis testRedis.meta.key = some testRedis ∧
    testRedis.meta.deletionTimestamp = none ∧
    (Reconcile testRedis.meta.key (calmWorld (storeWith testRedis))).1 = .ok reconciled ∧
    ∃ r1 cs,
      (Reconcile testRedis.meta.key
        { (Reconcile testRedis.meta.key (calmWorld (storeWith testRedis))).2 with
            now := 7 }).1 = .ok reconciled ∧
      (Reconcile testRedis.meta.key
        { (Reconcile testRedis.meta.key (calmWorld (storeWith testRedis))).2 with
            now := 7 }).2.store =
        (Reconcile testRedis.meta.key (calmWorld (storeWith testRedis))).2.store ∧
      (Reconcile testRedis.meta.key
        { (Reconcile testRedis.meta.key (calmWorld (storeWith testRedis))).2 with
            now := 7 }).2.calls =
        (Reconcile testRedis.meta.key (calmWorld (storeWith testRedis))).2.calls ++
          ([Call.getRedis testRedis.meta.key, Call.getSecret (secretKey testRedis)] ++ cs ++
            [Call.getDeployment (deploymentKey testRedis), Call.statusPatch r1 r1]) ∧
      (∀ c ∈ cs, c = Call.getService (serviceKey testRedis) ∨
        ∃ obj base, c = Call.patchService obj base) ∧
      (∀ c ∈ [Call.getRedis testRedis.meta.key, Call.getSecret (secretKey testRedis)] ++ cs ++
            [Call.getDeployment (deploymentKey testRedis), Call.statusPatch r1 r1],
        c.isCreate = false ∧ c.isUpdate = false ∧ c.isDeploymentPatch = false) :=
  ⟨fun _ => rfl, by decide!, by decide, by decide!,
    Reconcile_second_pass testRedis (calmWorld (storeWith testRedis)) 7
      (fun _ => rfl) (by decide!) (by decide)
      (fun _ h => Option.noConfusion h) (fun _ h => Option.noConfusion h) (by decide!)⟩

/-! ## C3: the first pass over an active instance creates every child -/

/-- C3, counterexample. The test instance is active, the store holds none of
its children and no store call is made to fail. When the random source fails,
the pass returns the retry outcome carrying the generation error and the store
holds no credential. When the random source delivers, the pass returns done,
but the stored Endpoint and the stored Workload are not the builder outputs:
the server has filled in defaults (the stored probes have success threshold 1,
the stored port has protocol TCP). -/
theorem Reconcile_first_pass_falls_short :
    (∀ i, noRandWorld.faults i = none) ∧
    noRandWorld.store.redis testKey = some testRedis ∧
    (Reconcile testKey noRandWorld).1 =
      .ok ({ Requeue := true, RequeueAfter := RequeueDelay },
        some (.wrapped "failed to generate random password" (.randFailure 0))) ∧
    (Reconcile testKey noRandWorld).2.store.secrets (secretKey testRedis) = none ∧
    (Reconcile testKey (calmWorld (storeWith testRedis))).1 = .ok reconciled ∧
    serviceForRedis testRedis = .ok testService ∧
    deploymentForRedis testRedis = .ok testDeployment ∧
    (Reconcile testKey (calmWorld (storeWith testRedis))).2.store.services
      (serviceKey testRedis) ≠ some testService ∧
    (Reconcile testKey (calmWorld (storeWith testRedis))).2.store.deployments
      (deploymentKey testRedis) ≠ some testDeployment ∧
    ((Reconcile testKey (calmWorld (storeWith testRedis))).2.store.deployments
      (deploymentKey testRedis)).map
        (fun d => (d.spec.template.spec.containers.getD []).map
          (fun c => (c.livenessProbe.map (fun pr => pr.successThreshold),
            c.readinessProbe.map (fun pr => pr.successThreshold)))) =
      some [(some 1, some 1)] :=
  ⟨fun _ => rfl, by decide!, by decide!, by decide!, by decide!, by decide!, by decide!,
    by decide!, by decide!, by decide!⟩

/-- C3, amended. For an active Instance (no deletion timestamp; replica count,
listen port and endpoint port set) in a store that holds none of its children,
when no store call is made to fail and the random source delivers the 16 draws
of the password, one pass returns done with no error and leaves the store
holding: a credential named `spec.passwordSecretName` in the namespace of the
Instance whose `password` value has 16 characters; the Endpoint the server
makes of `serviceForRedis`, which is the object submitted for creation (type
and selector as built, the one port with protocol TCP, a cluster address
allocated); the Workload the server makes of `deploymentForRedis`, which is the
object submitted for creation (replica count, image, environment and resources
as built, probes with the unset timeout, period and thresholds filled in); the
Instance with the cleanup guard and `status.passwordSecretName` equal to the
configured name. -/
theorem Reconcile_creates_children (redis : Redis) (w : World) (n p sp : Int)
    (hF : ∀ i, w.faults i = none)
    (hrand : ∀ i, i < 16 → (w.rand (w.randPos + i)).isSome = true)
    (hs : w.store.redis redis.meta.key = some redis)
    (hdel : redis.meta.deletionTimestamp = none)
    (hrep : redis.spec.replicas = some n)
    (hport : redis.spec.port = some p)
    (hsp : redis.spec.service.port = some sp)
    (hsec : w.store.secrets (secretKey redis) = none)
    (hsvc : w.store.services (serviceKey redis) = none)
    (hdep : w.store.deployments (deploymentKey redis) = none) :
    (Reconcile redis.meta.key w).1 = .ok reconciled ∧
    (∃ s pw, (Reconcile redis.meta.key w).2.store.secrets (secretKey redis) = some s ∧
      s.meta.name = redis.spec.passwordSecretName ∧ s.meta.ns = redis.meta.ns ∧
      alookup "password" s.data = some pw ∧ pw.length = 16) ∧
    (∃ d svc, serviceForRedis redis = .ok d ∧
      Call.createService d ∈ newCalls w (Reconcile redis.meta.key w).2 ∧
      (Reconcile redis.meta.key w).2.store.services (serviceKey redis) = some svc ∧
      svc = d.stored (w.clusterIPs (serviceKey redis)) ∧
      svc.meta = d.meta ∧ svc.spec.type = redis.spec.service.type ∧
      svc.spec.selector = d.spec.selector ∧
      svc.spec.ports =
        [{ name := "redis", protocol := "TCP", port := sp, targetPort := FromInt32 p }] ∧
      svc.spec.clusterIP = w.clusterIPs (serviceKey redis)) ∧
    (∃ d dep c, deploymentForRedis redis = .ok d ∧
      Call.createDeployment d ∈ newCalls w (Reconcile redis.meta.key w).2 ∧
      (Reconcile redis.meta.key w).2.store.deployments (deploymentKey redis) = some dep ∧
      dep = d.stored ∧
      dep.meta = d.meta ∧ dep.spec.replicas = some n ∧ dep.spec.selector = d.spec.selector ∧
      dep.spec.template.spec.containers = some [c] ∧
      c.image = redis.spec.image ∧ c.env = some (desiredEnv redis) ∧
      c.resources = redis.spec.resources ∧
      c.ports = [{ containerPort := p, name := "redis" }] ∧
      c.livenessProbe =
        some (redis.spec.livenessProbe.getD (defaultLivenessProbe p)).stored ∧
      c.readinessProbe =
        some (redis.spec.readinessProbe.getD defaultReadinessProbe).stored) ∧
    (∃ r, (Reconcile redis.meta.key w).2.store.redis redis.meta.key = some r ∧
      ContainsFinalizer r FinalizerName = true ∧
      r.status.passwordSecretName = redis.spec.passwordSecretName ∧
      r.spec = redis.spec) := by
  obtain ⟨d1, hd1, hp1, ht1, hc1⟩ : ∃ d, serviceForRedis redis = .ok d ∧
      d.spec.ports = [desiredPort sp p] ∧ d.spec.type = redis.spec.service.type ∧
      d.spec.clusterIP = "" := by
    rw [serviceForRedis_eq, hsp, hport]; exact ⟨_, rfl, rfl, rfl, rfl⟩
  obtain ⟨d2, hd2, hr2, hcs2⟩ : ∃ d, deploymentForRedis redis = .ok d ∧
      d.spec.replicas = redis.spec.replicas ∧
      d.spec.template.spec.containers = some [desiredContainer redis p] := by
    rw [deploymentForRedis_eq, hport]; exact ⟨_, rfl, rfl, rfl⟩
  rw [Reconcile_active redis w hF hs hdel]
  obtain ⟨pw, hlen, hrun⟩ := reconcileChildren_fresh (entering redis w.now)
    { w with
        calls := w.calls ++ preCalls redis w.now
        store :=
          { w.store with
              redis := Function.update w.store.redis redis.meta.key
                (some (entering redis w.now)) } }
    n d1 d2 hF hrand (by rw [entering_key]; simp) (by simpa using hrep) (by simpa using hd1)
    (by simpa using hd2) (by simpa using hsec) (by simpa using hsvc) (by simpa using hdep)
  rw [hrun]
  refine ⟨rfl, ⟨(credentialFor (entering redis w.now) pw).stored, pw, ?_, ?_, ?_, ?_, hlen⟩,
    ⟨d1, d1.stored (w.clusterIPs (serviceKey redis)), hd1, ?_, ?_, rfl, rfl, ht1, rfl, ?_, ?_⟩,
    ⟨d2, d2.stored, (desiredContainer redis p).stored, hd2, ?_, ?_, rfl, rfl, ?_, rfl, ?_,
      rfl, rfl, rfl, rfl, ?_, ?_⟩,
    ⟨statusCopyFor (entering redis w.now) (some d2.stored) n w.now, ?_, ?_, ?_, ?_⟩⟩
  · show Function.update _ _ _ _ = _
    rw [secretKey_entering, Function.update_same]
  · simp [credentialFor, Secret.stored]
  · simp [credentialFor, Secret.stored]
  · simp [credentialFor, Secret.stored, alookup]
  · simp [newCalls]
  · show Function.update _ _ _ _ = _
    rw [serviceKey_entering, Function.update_same]
  · simp [Service.stored, ServicePort.stored, hp1, desiredPort]
  · simp [Service.stored, hc1]
  · simp [newCalls]
  · show Function.update _ _ _ _ = _
    rw [deploymentKey_entering, Function.update_same]
  · simp [Deployment.stored, hr2, hrep]
  · simp [Deployment.stored, hcs2]
  · simp [Container.stored, desiredContainer]
  · simp [Container.stored, desiredContainer]
  · show Function.update _ _ _ _ = _
    rw [entering_key, Function.update_same]
  · exact ContainsFinalizer_entering redis w.now
  · simp [statusCopyFor]
  · simp [statusCopyFor]

/-- Witness for C3 (amended): the test instance in a store without children. -/
theorem Reconcile_creates_children_witness :
    (Reconcile testRedis.meta.key (calmWorld (storeWith testRedis))).1 = .ok reconciled ∧
    (∃ s pw,
      (Reconcile testRedis.meta.key (calmWorld (storeWith testRedis))).2.store.secrets
        (secretKey testRedis) = some s ∧
      s.meta.name = testRedis.spec.passwordSecretName ∧ s.meta.ns = testRedis.meta.ns ∧
      alookup "password" s.data = some pw ∧ pw.length = 16) ∧
    (Reconcile testRedis.meta.key (calmWorld (storeWith testRedis))).2.store.services
      (serviceKey testRedis) = some (testService.stored "10.96.0.10") ∧
    (Reconcile testRedis.meta.key (calmWorld (storeWith testRedis))).2.store.deployments
      (deploymentKey testRedis) = some testDeployment.stored ∧
    (∃ r,
      (Reconcile testRedis.meta.key (calmWorld (storeWith testRedis))).2.store.redis
        testRedis.meta.key = some r ∧
      ContainsFinalizer r FinalizerName = true ∧
      r.status.passwordSecretName = testRedis.spec.passwordSecretName ∧
      r.spec = testRedis.spec) := by
  have h := Reconcile_creates_children testRedis (calmWorld (storeWith testRedis)) 1 6379 6379
    (fun _ => rfl) (fun _ _ => rfl) (by decide!) (by decide) rfl rfl rfl
    (by decide!) (by decide!) (by decide!)
  exact ⟨h.1, h.2.1, by decide!, by decide!, h.2.2.2.2⟩

/-! ## C4: a changed replica count is restored by one patch -/

/-- C4. When the stored Workload's replica count does not match the declared
one while its pod template matches, `reconcileDeployment` (no call made to
fail) reads the Workload and issues exactly one patch; afterwards the stored
Workload has the declared replica count and the pod template it had, and no
credential or Endpoint was written. -/
theorem reconcileDeployment_restores_replicas (redis : Redis) (w : World)
    (found desired : Deployment)
    (hF : ∀ i, w.faults i = none)
    (hs : w.store.deployments (deploymentKey redis) = some found)
    (hk : found.meta.key = deploymentKey redis)
    (hd : deploymentForRedis redis = .ok desired)
    (hrep : replicasMatch found.spec.replicas desired.spec.replicas = false)
    (htm : templatesMatch found.spec.template desired.spec.template = .ok true) :
    ∃ obj patched,
      (reconcileDeployment redis w).1 = .ok (.ok patched) ∧
      newCalls w (reconcileDeployment redis w).2 =
        [Call.getDeployment (deploymentKey redis), Call.patchDeployment obj found] ∧
      (reconcileDeployment redis w).2.store.deployments (deploymentKey redis) = some patched ∧
      patched.spec.replicas = redis.spec.replicas ∧
      patched.spec.template = found.spec.template ∧
      (reconcileDeployment redis w).2.store.secrets = w.store.secrets ∧
      (reconcileDeployment redis w).2.store.services = w.store.services := by
  obtain ⟨hdk, hdr, -, -⟩ := deploymentForRedis_shape redis desired hd
  have hname : (redis.meta.ns, desired.meta.name) = deploymentKey redis := by
    have := congrArg Prod.snd hdk
    simp only [ObjectMeta.key, deploymentKey] at this
    simp [deploymentKey, this]
  have hk2 : ObjectMeta.key found.meta = deploymentKey redis := hk
  refine ⟨syncedDeployment found desired true,
    { found with spec := { found.spec with replicas := redis.spec.replicas } }, ?_⟩
  simp only [reconcileDeployment, hd, liftExcept_ok, bind_run, hname, GetDeployment, storeCall,
    callOutcome, hF, hs, returned, storeAfter, htm, hrep, PatchDeployment, pure_run,
    syncedDeployment_meta, hk2, recordEvent, Bool.not_false, Bool.true_or, if_true]
  rw [mergePatchDeployment_self found (syncedDeployment found desired true) rfl rfl
    (by simp [syncedDeployment])]
  have hrep1 : replicasMatch found.spec.replicas redis.spec.replicas = false := hdr ▸ hrep
  simp [newCalls, syncedDeployment, hrep1, hdr]


/-- Witness for C4: the test instance against its Workload scaled to 3. -/
theorem reconcileDeployment_restores_replicas_witness :
    (∀ i, (calmWorld (storeWithDeployment scaledDeployment)).faults i = none) ∧
    (calmWorld (storeWithDeployment scaledDeployment)).store.deployments
      (deploymentKey testRedis) = some scaledDeployment ∧
    scaledDeployment.meta.key = deploymentKey testRedis ∧
    deploymentForRedis testRedis = .ok testDeployment ∧
    replicasMatch scaledDeployment.spec.replicas testDeployment.spec.replicas = false ∧
    templatesMatch scaledDeployment.spec.template testDeployment.spec.template = .ok true ∧
    ∃ obj patched,
      (reconcileDeployment testRedis (calmWorld (storeWithDeployment scaledDeployment))).1 =
        .ok (.ok patched) ∧
      newCalls (calmWorld (storeWithDeployment scaledDeployment))
        (reconcileDeployment testRedis (calmWorld (storeWithDeployment scaledDeployment))).2 =
        [Call.getDeployment (deploymentKey testRedis),
          Call.patchDeployment obj scaledDeployment] ∧
      (reconcileDeployment testRedis
        (calmWorld (storeWithDeployment scaledDeployment))).2.store.deployments
          (deploymentKey testRedis) = some patched ∧
      patched.spec.replicas = testRedis.spec.replicas ∧
      patched.spec.template = scaledDeployment.spec.template ∧
      (reconcileDeployment testRedis
        (calmWorld (storeWithDeployment scaledDeployment))).2.store.secrets =
          (calmWorld (storeWithDeployment scaledDeployment)).store.secrets ∧
      (reconcileDeployment testRedis
        (calmWorld (storeWithDeployment scaledDeployment))).2.store.services =
          (calmWorld (storeWithDeployment scaledDeployment)).store.services :=
  ⟨fun _ => rfl, by decide!, by decide!, by decide!, by decide!, by decide!,
    reconcileDeployment_restores_replicas testRedis
      (calmWorld (storeWithDeployment scaledDeployment)) scaledDeployment testDeployment
      (fun _ => rfl) (by decide!) (by decide!) (by decide!) (by decide!) (by decide!)⟩

/-! ## C5: an existing credential is returned and never rewritten -/

/-- C5. When a credential with the configured name exists in the namespace of
the Instance, `reconcileSecret` returns that stored credential after a single
read and no create, update or patch (provided the read is not made to fail),
and the store is the same after any number of passes, whatever calls are made
to fail. -/
theorem reconcileSecret_keeps_existing (redis : Redis) (w : World) (s : Secret)
    (hs : w.store.secrets (secretKey redis) = some s) :
    (w.faults w.calls.length = none →
      reconcileSecret redis w =
        (.ok (.ok s), { w with calls := w.calls ++ [Call.getSecret (secretKey redis)] })) ∧
    ∀ n : Nat, ((fun v => (reconcileSecret redis v).2)^[n] w).store = w.store := by
  refine ⟨reconcileSecret_found redis w s hs, ?_⟩
  intro n
  induction n with
  | zero => rfl
  | succ n ih =>
    rw [Function.iterate_succ_apply', reconcileSecret_store_stable redis _ s (by rw [ih]; exact hs),
      ih]

/-- Witness for C5: the test instance with its credential already stored. -/
theorem reconcileSecret_keeps_existing_witness :
    (calmWorld storeWithCredential).store.secrets (secretKey testRedis) = some storedCredential ∧
    ((calmWorld storeWithCredential).faults (calmWorld storeWithCredential).calls.length = none →
      reconcileSecret testRedis (calmWorld storeWithCredential) =
        (.ok (.ok storedCredential),
          { calmWorld storeWithCredential with
              calls := (calmWorld storeWithCredential).calls ++
                [Call.getSecret (secretKey testRedis)] })) ∧
    ∀ n : Nat,
      ((fun v => (reconcileSecret testRedis v).2)^[n] (calmWorld storeWithCredential)).store =
        (calmWorld storeWithCredential).store :=
  ⟨by decide!,
    reconcileSecret_keeps_existing testRedis (calmWorld storeWithCredential) storedCredential
      (by decide!)⟩

/-! ## C6: a create that fails with already-exists -/

/-- C6, counterexample. The credential exists, the read of the pass reports
not-found and the create therefore fails with already-exists:
`reconcileSecret` returns that error instead of the existing credential. -/
theorem reconcileSecret_race_returns_error :
    (GetSecret (secretKey testRedis) raceWorld).1 = .ok (.error .notFound) ∧
    (reconcileSecret testRedis raceWorld).1 = .ok (.error .alreadyExists) := by
  decide!

theorem reconcileSecret_create_conflict (redis : Redis) (w : World) (err : Err)
    (pw : String)
    (hget : (GetSecret (secretKey redis) w).1 = .ok (.error err))
    (hnf : err.IsNotFound = true)
    (hgen : (generateRandomPassword 16 (GetSecret (secretKey redis) w).2).1 = .ok (.ok pw))
    (hcreate :
      (CreateSecret (credentialFor redis pw)
        (generateRandomPassword 16 (GetSecret (secretKey redis) w).2).2).1 =
        .ok (.error .alreadyExists)) :
    (reconcileSecret redis w).1 = .ok (.error .alreadyExists) ∧
    (reconcileSecret redis w).2.calls =
      w.calls ++
        [Call.getSecret (secretKey redis), Call.createSecret (credentialFor redis pw)] ∧
    (reconcileSecret redis w).2.store = w.store := by
  obtain ⟨k, hk⟩ := generateRandomPassword_world 16 (GetSecret (secretKey redis) w).2
  cases hg : generateRandomPassword 16 (GetSecret (secretKey redis) w).2 with
  | mk r2 w2 =>
    rw [hg] at hgen hcreate hk
    simp only at hgen hcreate hk
    subst hgen
    subst hk
    simp only [GetSecret, storeCall, secretKey] at hget hg hcreate
    simp only [Except.ok.injEq] at hget
    have hst := returned_error _ _ w.store hget
    simp only [CreateSecret, storeCall, Except.ok.injEq] at hcreate
    simp only [reconcileSecret, GetSecret, storeCall, bind_run, hget, hnf, if_true, hg,
      SetControllerReference_fresh, CreateSecret, pure_run, secretKey]
    simp only [credentialFor] at hcreate
    rw [hcreate]
    simp only [pure_run]
    refine ⟨trivial, ?_, ?_⟩
    · simp [credentialFor]
    · show storeAfter _ _ = w.store
      rw [returned_error _ _ _ hcreate, hst]

theorem reconcileChildren_secret_error (r : Redis) (w : World) (e : Err)
    (h : (reconcileSecret r w).1 = .ok (.error e)) :
    reconcileChildren r w =
      (.ok (requeueInstanceWithError r.meta.name r.meta.ns e), (reconcileSecret r w).2) := by
  simp only [reconcileChildren, bind_run]
  cases hrs : reconcileSecret r w with
  | mk res w1 =>
    rw [hrs] at h
    simp only at h
    subst h
    rfl

theorem Reconcile_guarded_active (redis : Redis) (w : World)
    (hf : w.faults w.calls.length = none)
    (hs : w.store.redis redis.meta.key = some redis)
    (hc : redis.status.conditions.length ≠ 0)
    (hfin : ContainsFinalizer redis FinalizerName = true)
    (hdel : redis.meta.deletionTimestamp = none) :
    Reconcile redis.meta.key w =
      reconcileChildren redis { w with calls := w.calls ++ [Call.getRedis redis.meta.key] } := by
  rw [Reconcile_found_conditions _ redis w hf hs hc, reconcileGuard_present _ _ _ hfin,
    reconcileFinalize_active _ _ _ hdel]

/-- C6, amended. When the fetch of `reconcileSecret` reports not-found, the
password is generated, and the create fails with already-exists, then
`reconcileSecret` fails with that already-exists error: it returns no
credential, issues the fetch and the create and no further read, and leaves
the store as it was. The reconciliation of the children then stops with the
10-second retry outcome carrying that error, and so does a whole `Reconcile`
pass over an active Instance that carries the guard and a condition, the store
staying as it was. A later `reconcileSecret` whose fetch finds the credential
returns it. -/
theorem reconcileSecret_already_exists_fails (redis : Redis) (w : World) (err : Err)
    (pw : String)
    (hget : (GetSecret (secretKey redis) w).1 = .ok (.error err))
    (hnf : err.IsNotFound = true)
    (hgen : (generateRandomPassword 16 (GetSecret (secretKey redis) w).2).1 = .ok (.ok pw))
    (hcreate :
      (CreateSecret (credentialFor redis pw)
        (generateRandomPassword 16 (GetSecret (secretKey redis) w).2).2).1 =
        .ok (.error .alreadyExists)) :
    (reconcileSecret redis w).1 = .ok (.error .alreadyExists) ∧
    newCalls w (reconcileSecret redis w).2 =
      [Call.getSecret (secretKey redis), Call.createSecret (credentialFor redis pw)] ∧
    (reconcileSecret redis w).2.store = w.store ∧
    (reconcileChildren redis w).1 =
      .ok ({ Requeue := true, RequeueAfter := RequeueDelay }, some .alreadyExists) ∧
    newCalls w (reconcileChildren redis w).2 =
      [Call.getSecret (secretKey redis), Call.createSecret (credentialFor redis pw)] ∧
    (∀ w0 : World,
      w = { w0 with calls := w0.calls ++ [Call.getRedis redis.meta.key] } →
      w0.faults w0.calls.length = none →
      w0.store.redis redis.meta.key = some redis →
      redis.status.conditions.length ≠ 0 →
      ContainsFinalizer redis FinalizerName = true →
      redis.meta.deletionTimestamp = none →
      (Reconcile redis.meta.key w0).1 =
        .ok ({ Requeue := true, RequeueAfter := RequeueDelay }, some .alreadyExists) ∧
      newCalls w0 (Reconcile redis.meta.key w0).2 =
        [Call.getRedis redis.meta.key, Call.getSecret (secretKey redis),
          Call.createSecret (credentialFor redis pw)] ∧
      (Reconcile redis.meta.key w0).2.store = w0.store) ∧
    (∀ (w2 : World) (s : Secret),
      w2.store.secrets (secretKey redis) = some s → w2.faults w2.calls.length = none →
      (reconcileSecret redis w2).1 = .ok (.ok s)) := by
  obtain ⟨h1, h2, h3⟩ := reconcileSecret_create_conflict redis w err pw hget hnf hgen hcreate
  have hch := reconcileChildren_secret_error redis w .alreadyExists h1
  refine ⟨h1, newCalls_append _ _ _ h2, h3, ?_, ?_, ?_, ?_⟩
  · rw [hch]; rfl
  · rw [hch]; exact newCalls_append _ _ _ h2
  · intro w0 hw hf hs hc hfin hdel
    rw [Reconcile_guarded_active redis w0 hf hs hc hfin hdel, ← hw, hch]
    refine ⟨rfl, ?_, ?_⟩
    · apply newCalls_append
      rw [h2, hw]
      simp
    · rw [h3, hw]
  · intro w2 s hs hf
    rw [reconcileSecret_found redis w2 s hs hf]

/-- Witness for C6 (amended): the race on the guarded test instance, in a pass
whose read of the credential reports not-found although the credential is
stored. -/
theorem reconcileSecret_already_exists_fails_witness :
    (reconcileSecret guardedRedis
      { passRaceWorld with
          calls := passRaceWorld.calls ++ [Call.getRedis guardedRedis.meta.key] }).1 =
      .ok (.error .alreadyExists) ∧
    (Reconcile guardedRedis.meta.key passRaceWorld).1 =
      .ok ({ Requeue := true, RequeueAfter := RequeueDelay }, some .alreadyExists) ∧
    newCalls passRaceWorld (Reconcile guardedRedis.meta.key passRaceWorld).2 =
      [Call.getRedis guardedRedis.meta.key, Call.getSecret (secretKey guardedRedis),
        Call.createSecret (credentialFor guardedRedis "abcdefghijklmnop")] ∧
    (Reconcile guardedRedis.meta.key passRaceWorld).2.store = passRaceWorld.store :=
  have h := reconcileSecret_already_exists_fails guardedRedis
    { passRaceWorld with
        calls := passRaceWorld.calls ++ [Call.getRedis guardedRedis.meta.key] }
    .notFound "abcdefghijklmnop" (by decide!) (by decide!) (by decide!) (by decide!)
  ⟨h.1, h.2.2.2.2.2.1 passRaceWorld rfl (by decide!) (by decide!) (by decide!) (by decide!)
    (by decide!)⟩

/-! ## C7: a failing store call ends the pass, except the re-fetch on deletion -/

/-- C7, the code at the failing input. The instance is under deletion and
carries the guard; the re-fetch (second call of the pass) fails with an error,
yet the pass goes on to issue the update and returns done with no error. -/
theorem Reconcile_ignores_refetch_error :
    (GetRedis testKey
      { refetchFailWorld with calls := [Call.getRedis testKey] }).1 = .ok (.error (.other 1)) ∧
    (Reconcile testKey refetchFailWorld).1 = .ok reconciled ∧
    (Reconcile testKey refetchFailWorld).2.calls =
      [Call.getRedis testKey, Call.getRedis testKey,
        Call.update (RemoveFinalizer deletingRedis FinalizerName)] := by
  decide!

/-! ## C8: teardown removes the guard and touches no child -/

/-- C8. For an Instance under deletion that carries the cleanup guard, in any
store (children missing, present or drifted), a pass whose store calls are not
made to fail returns done; its last call is an update of the Instance without
the guard; no call of the pass is a create or a child patch; credentials,
Endpoints and Workloads in the store are untouched. -/
theorem Reconcile_deleting_removes_guard (redis : Redis) (w : World)
    (hF : ∀ i, w.faults i = none)
    (hs : w.store.redis redis.meta.key = some redis)
    (hdel : redis.meta.deletionTimestamp ≠ none)
    (hfin : ContainsFinalizer redis FinalizerName = true) :
    ∃ pre obj,
      (Reconcile redis.meta.key w).1 = .ok reconciled ∧
      newCalls w (Reconcile redis.meta.key w).2 = pre ++ [Call.update obj] ∧
      ContainsFinalizer obj FinalizerName = false ∧ obj.meta.key = redis.meta.key ∧
      (∀ c ∈ pre, c.isCreate = false ∧ c.isChildPatch = false) ∧
      (Reconcile redis.meta.key w).2.store.secrets = w.store.secrets ∧
      (Reconcile redis.meta.key w).2.store.services = w.store.services ∧
      (Reconcile redis.meta.key w).2.store.deployments = w.store.deployments := by
  by_cases hc : redis.status.conditions.length = 0
  · refine ⟨[Call.getRedis redis.meta.key, Call.statusUpdate (withInitialCondition redis w.now),
        Call.getRedis redis.meta.key],
      RemoveFinalizer (withInitialCondition redis w.now) FinalizerName, ?_⟩
    rw [Reconcile_found_fresh redis w hF hs hc,
      reconcileGuard_present _ _ _ (by exact hfin)]
    have hrun := reconcileFinalize_deleting (withInitialCondition redis w.now)
      (withInitialCondition redis w.now)
      { w with
            calls := w.calls ++ [Call.getRedis redis.meta.key,
              Call.statusUpdate (withInitialCondition redis w.now)]
            store :=
              { w.store with
                  redis := Function.update w.store.redis redis.meta.key
                    (some (withInitialCondition redis w.now)) } }
      hF (by simp [withInitialCondition]) rfl hdel hfin
    simp only [withInitialCondition] at hrun ⊢
    rw [hrun]
    simp [newCalls, ContainsFinalizer_RemoveFinalizer, Call.isCreate, Call.isChildPatch]
    rfl
  · refine ⟨[Call.getRedis redis.meta.key, Call.getRedis redis.meta.key],
      RemoveFinalizer redis FinalizerName, ?_⟩
    rw [Reconcile_found_conditions _ redis w (hF _) hs hc,
      reconcileGuard_present _ _ _ hfin,
      reconcileFinalize_deleting redis redis
        { w with calls := w.calls ++ [Call.getRedis redis.meta.key] } hF hs rfl hdel hfin]
    simp [newCalls, ContainsFinalizer_RemoveFinalizer, Call.isCreate, Call.isChildPatch]
    rfl

/-- Witness for C8: the deleting test instance in a store without children. -/
theorem Reconcile_deleting_removes_guard_witness :
    (∀ i, (calmWorld (storeWith deletingRedis)).faults i = none) ∧
    (calmWorld (storeWith deletingRedis)).store.redis deletingRedis.meta.key =
      some deletingRedis ∧
    deletingRedis.meta.deletionTimestamp ≠ none ∧
    ContainsFinalizer deletingRedis FinalizerName = true ∧
    ∃ pre obj,
      (Reconcile deletingRedis.meta.key (calmWorld (storeWith deletingRedis))).1 =
        .ok reconciled ∧
      newCalls (calmWorld (storeWith deletingRedis))
        (Reconcile deletingRedis.meta.key (calmWorld (storeWith deletingRedis))).2 =
          pre ++ [Call.update obj] ∧
      ContainsFinalizer obj FinalizerName = false ∧ obj.meta.key = deletingRedis.meta.key ∧
      (∀ c ∈ pre, c.isCreate = false ∧ c.isChildPatch = false) ∧
      (Reconcile deletingRedis.meta.key (calmWorld (storeWith deletingRedis))).2.store.secrets =
        (calmWorld (storeWith deletingRedis)).store.secrets ∧
      (Reconcile deletingRedis.meta.key (calmWorld (storeWith deletingRedis))).2.store.services =
        (calmWorld (storeWith deletingRedis)).store.services ∧
      (Reconcile deletingRedis.meta.key
        (calmWorld (storeWith deletingRedis))).2.store.deployments =
        (calmWorld (storeWith deletingRedis)).store.deployments :=
  ⟨fun _ => rfl, by decide!, by decide, by decide!,
    Reconcile_deleting_removes_guard deletingRedis (calmWorld (storeWith deletingRedis))
      (fun _ => rfl) (by decide!) (by decide) (by decide!)⟩

/-! ## C9: drift of the Endpoint is detected but not repaired -/

/-- C9, the code at failing inputs. (1) The stored Endpoint has type NodePort
where ClusterIP is desired: `reconcileService` detects the drift and issues a
patch, but the patch is computed against the desired Endpoint, so it carries
no change of the type and the stored Endpoint keeps NodePort. (2) The stored
Endpoint has two ports: the port loop indexes the single desired port out of
range and faults. (3) The stored Endpoint has no port: no drift is seen, no
write is issued, the stored ports stay empty. -/
theorem reconcileService_does_not_repair :
    (serviceForRedis testRedis = .ok testService ∧ testService.spec.type = "ClusterIP" ∧
      testService.spec.ports.length = 1) ∧
    ((reconcileService testRedis (calmWorld (storeWithService driftedService))).1 =
        .ok (.ok driftedService) ∧
      (reconcileService testRedis (calmWorld (storeWithService driftedService))).2.calls =
        [Call.getService (serviceKey testRedis),
          Call.patchService (syncedService driftedService testService testService.spec.ports)
            testService] ∧
      (reconcileService testRedis (calmWorld (storeWithService driftedService))).2.store.services
        (serviceKey testRedis) = some driftedService ∧
      driftedService.spec.type = "NodePort") ∧
    (reconcileService testRedis (calmWorld (storeWithService twoPortService))).1 =
      .error .indexOutOfRange ∧
    ((reconcileService testRedis (calmWorld (storeWithService noPortService))).1 =
        .ok (.ok noPortService) ∧
      (reconcileService testRedis (calmWorld (storeWithService noPortService))).2.calls =
        [Call.getService (serviceKey testRedis)] ∧
      (reconcileService testRedis (calmWorld (storeWithService noPortService))).2.store.services
        (serviceKey testRedis) = some noPortService ∧
      noPortService.spec.ports = []) := by
  decide!

/-! ## C10: labels of the Endpoint are preserved -/

/-- C10. A label carried by the stored Endpoint is still carried, with the
same value, by the Endpoint stored after `reconcileService`, whichever path
is taken (drift seen or not, a call made to fail or not, a fault in the port
loop or not). -/
theorem reconcileService_keeps_labels (redis : Redis) (w : World) (svc : Service)
    (k v : String)
    (hs : w.store.services (serviceKey redis) = some svc)
    (hk : svc.meta.key = serviceKey redis)
    (hl : svc.meta.labels.lookup k = some v) :
    ∃ svc1, (reconcileService redis w).2.store.services (serviceKey redis) = some svc1 ∧
      svc1.meta.labels.lookup k = some v := by
  refine ⟨svc, ?_, hl⟩
  rw [reconcileService_store_stable redis w svc hs hk]
  exact hs

/-- Witness for C10: the label `team` on the drifted Endpoint of the test
instance. -/
theorem reconcileService_keeps_labels_witness :
    (calmWorld (storeWithService driftedService)).store.services (serviceKey testRedis) =
      some driftedService ∧
    driftedService.meta.key = serviceKey testRedis ∧
    driftedService.meta.labels.lookup "team" = some "cache" ∧
    (labelsForRedis testRedis.meta.name).lookup "team" = none ∧
    ∃ svc1,
      (reconcileService testRedis (calmWorld (storeWithService driftedService))).2.store.services
        (serviceKey testRedis) = some svc1 ∧
      svc1.meta.labels.lookup "team" = some "cache" :=
  ⟨by decide!, by decide!, by decide!, by decide!,
    reconcileService_keeps_labels testRedis (calmWorld (storeWithService driftedService))
      driftedService "team" "cache" (by decide!) (by decide!) (by decide!)⟩

/-! ## C11: the generated password -/

theorem sliceIndex_charset_mem (v : Nat) :
    ∃ c, sliceIndex (some charset.toList) (v % charset.length) = .ok c ∧ c ∈ charset.toList := by
  have hlt : v % charset.length < charset.toList.length := by
    have h : charset.toList.length = 62 := by decide
    rw [h, charset_length]
    exact Nat.mod_lt _ (by decide)
  refine ⟨charset.toList[v % charset.length], ?_, List.getElem_mem _⟩
  unfold sliceIndex
  simp only [Option.getD_some]
  rw [List.getElem?_eq_getElem hlt]

theorem generateLoop_chars (n : Nat) : ∀ (b : List Char) (w : World),
    (∀ i, i < n → (w.rand (w.randPos + i)).isSome = true) →
    ∃ cs : List Char, cs.length = n ∧ (∀ c ∈ cs, c ∈ charset.toList) ∧
      generateLoop n b w = (.ok (.ok (b ++ cs)), { w with randPos := w.randPos + n }) := by
  induction n with
  | zero =>
    intro b w _
    exact ⟨[], rfl, by simp, by simp [generateLoop]⟩
  | succ n ih =>
    intro b w h
    have h0 := h 0 (Nat.succ_pos n)
    obtain ⟨v, hv⟩ := Option.isSome_iff_exists.mp h0
    simp only [Nat.add_zero] at hv
    obtain ⟨c, hc, hmem⟩ := sliceIndex_charset_mem v
    obtain ⟨cs, hlen, hall, hrun⟩ := ih (b ++ [c]) { w with randPos := w.randPos + 1 } (by
      intro i hi
      have := h (i + 1) (Nat.succ_lt_succ hi)
      simpa [Nat.add_assoc, Nat.add_comm 1 i] using this)
    refine ⟨c :: cs, by simp [hlen], ?_, ?_⟩
    · intro x hx
      rcases List.mem_cons.mp hx with rfl | hx
      · exact hmem
      · exact hall x hx
    · simp only [generateLoop, bind_run, randInt, hv, hc, liftExcept_ok, hrun]
      simp [Nat.add_assoc, Nat.add_comm 1 n]

theorem generateLoop_fails (n : Nat) : ∀ (b : List Char) (w : World),
    (∃ i, i < n ∧ w.rand (w.randPos + i) = none) →
    ∃ e, (generateLoop n b w).1 = .ok (.error e) := by
  induction n with
  | zero => intro b w ⟨i, hi, _⟩; exact absurd hi (Nat.not_lt_zero i)
  | succ n ih =>
    intro b w ⟨i, hi, hnone⟩
    cases hr : w.rand w.randPos with
    | none =>
      refine ⟨.randFailure w.randPos, ?_⟩
      simp [generateLoop, randInt, hr]
    | some v =>
      obtain ⟨c, hc, -⟩ := sliceIndex_charset_mem v
      have hi0 : i ≠ 0 := by
        rintro rfl
        simp [hr] at hnone
      obtain ⟨j, rfl⟩ := Nat.exists_eq_succ_of_ne_zero hi0
      obtain ⟨e, he⟩ := ih (b ++ [c]) { w with randPos := w.randPos + 1 }
        ⟨j, Nat.lt_of_succ_lt_succ hi, by
          simpa [Nat.add_assoc, Nat.add_comm 1 j] using hnone⟩
      refine ⟨e, ?_⟩
      simp only [generateLoop, bind_run, randInt, hr, hc, liftExcept_ok]
      exact he

theorem charset_alphanumeric : ∀ c ∈ charset.toList, c.isAlphanum = true := by decide

theorem reconcileSecret_generates (redis : Redis) (w : World) (err : Err) (pw : String)
    (hget : (GetSecret (secretKey redis) w).1 = .ok (.error err))
    (hnf : err.IsNotFound = true)
    (hgen : (generateRandomPassword 16 (GetSecret (secretKey redis) w).2).1 = .ok (.ok pw)) :
    newCalls w (reconcileSecret redis w).2 =
      [Call.getSecret (secretKey redis), Call.createSecret (credentialFor redis pw)] := by
  obtain ⟨k, hk⟩ := generateRandomPassword_world 16 (GetSecret (secretKey redis) w).2
  cases hg : generateRandomPassword 16 (GetSecret (secretKey redis) w).2 with
  | mk r2 w2 =>
    rw [hg] at hgen hk
    simp only at hgen hk
    subst hgen
    subst hk
    simp only [GetSecret, storeCall, secretKey] at hget hg
    simp only [Except.ok.injEq] at hget
    simp only [reconcileSecret, GetSecret, storeCall, bind_run, hget, hnf, if_true, hg,
      SetControllerReference_fresh, CreateSecret, pure_run, secretKey]
    generalize returned (@callOutcome Secret _ _) = r
    cases r <;>
      (simp only [pure_run, bind_run, recordEvent]; apply newCalls_append; simp [credentialFor])

theorem charset_nodup : charset.toList.Nodup := by decide

/-- C11. The character set of `generateRandomPassword` is 62 distinct
alphanumeric characters (a-z, A-Z, 0-9). For every length `n ≥ 0` and every
random source: when the `n` draws succeed, the call returns a string of exactly
`n` characters, each one of the character set (the index drawn is always inside
the set, so the call never faults); when one of the `n` draws fails, the call
returns an error; these are the only two cases. `reconcileSecret` generates the
credential with `n = 16`: when its fetch reports not-found it submits for
creation exactly the credential holding the password of
`generateRandomPassword 16`. -/
theorem generateRandomPassword_charset (n : Nat) (w : World) :
    charset.length = 62 ∧ charset.toList.Nodup ∧
    (∀ c ∈ charset.toList, c.isAlphanum = true) ∧
    ((∀ i, i < n → (w.rand (w.randPos + i)).isSome = true) →
      ∃ pw : String, (generateRandomPassword n w).1 = .ok (.ok pw) ∧ pw.length = n ∧
        ∀ c ∈ pw.toList, c ∈ charset.toList) ∧
    ((∃ i, i < n ∧ w.rand (w.randPos + i) = none) →
      ∃ e, (generateRandomPassword n w).1 = .ok (.error e)) ∧
    (∀ (redis : Redis) (w0 : World) (err : Err) (pw : String),
      (GetSecret (secretKey redis) w0).1 = .ok (.error err) → err.IsNotFound = true →
      (generateRandomPassword 16 (GetSecret (secretKey redis) w0).2).1 = .ok (.ok pw) →
      newCalls w0 (reconcileSecret redis w0).2 =
        [Call.getSecret (secretKey redis), Call.createSecret (credentialFor redis pw)]) := by
  refine ⟨charset_length, charset_nodup, charset_alphanumeric, ?_, ?_, ?_⟩
  · intro h
    obtain ⟨cs, hlen, hall, hrun⟩ := generateLoop_chars n [] w h
    refine ⟨String.mk cs, ?_, by simpa using hlen, by simpa using hall⟩
    have hnn : ¬ ((n : Int) < 0) := by omega
    simp [generateRandomPassword, hnn, hrun]
  · intro h
    obtain ⟨e, he⟩ := generateLoop_fails n [] w h
    refine ⟨e, ?_⟩
    have hnn : ¬ ((n : Int) < 0) := by omega
    cases hg : generateLoop n [] w with
    | mk r w1 =>
      rw [hg] at he
      simp only at he
      subst he
      simp [generateRandomPassword, hnn, hg]
  · intro redis w0 err pw hget hnf hgen
    exact reconcileSecret_generates redis w0 err pw hget hnf hgen

/-- Witness for C11: 16 draws on the test world succeed with 16 characters of
the character set, and fail on the world whose random source fails. -/
theorem generateRandomPassword_charset_witness :
    (∃ pw : String, (generateRandomPassword 16 (calmWorld emptyStore)).1 = .ok (.ok pw) ∧
      pw.length = 16 ∧ ∀ c ∈ pw.toList, c ∈ charset.toList) ∧
    (∃ e, (generateRandomPassword 16 noRandWorld).1 = .ok (.error e)) :=
  ⟨(generateRandomPassword_charset 16 (calmWorld emptyStore)).2.2.2.1 (fun _ _ => rfl),
   (generateRandomPassword_charset 16 noRandWorld).2.2.2.2.1 ⟨0, by decide, rfl⟩⟩

/-! ## C12 and C13: environment and probes of the desired container -/

/-- C12. For every Instance, the Workload built by `deploymentForRedis` has a
single container whose environment list is the entry `REDIS_PASSWORD` (a secret
key reference with name `spec.passwordSecretName` and key `password`) followed
by the user-supplied entries as given, in order, none changed or removed; its
length is 1 plus the number of user-supplied entries. The Workload is built
whenever the listen port is set. -/
theorem deploymentForRedis_env_order (redis : Redis) :
    (∀ d, deploymentForRedis redis = .ok d →
      ∃ c, d.spec.template.spec.containers = some [c] ∧
        c.env = some
          ({ name := "REDIS_PASSWORD"
             valueFrom := some
               { secretKeyRef :=
                   some { name := redis.spec.passwordSecretName, key := "password" } } } ::
            redis.spec.env.getD []) ∧
        sliceLen c.env = 1 + sliceLen redis.spec.env) ∧
    (∀ p, redis.spec.port = some p → ∃ d, deploymentForRedis redis = .ok d) := by
  constructor
  · intro d hd
    rw [deploymentForRedis_eq] at hd
    cases hp : redis.spec.port with
    | none => rw [hp] at hd; cases hd
    | some p =>
      rw [hp] at hd
      simp only [Except.ok.injEq] at hd
      subst hd
      exact ⟨desiredContainer redis p, rfl, rfl, by
        simp [sliceLen, desiredContainer, desiredEnv, Nat.add_comm]⟩
  · intro p hp
    rw [deploymentForRedis_eq, hp]
    exact ⟨_, rfl⟩

/-- Witness for C12: two user-supplied entries of the same name both follow
`REDIS_PASSWORD`, in the given order. -/
theorem deploymentForRedis_env_order_witness :
    ∃ d c, deploymentForRedis envRedis = .ok d ∧
      d.spec.template.spec.containers = some [c] ∧
      c.env = some
        [{ name := "REDIS_PASSWORD"
           valueFrom := some
             { secretKeyRef := some { name := "redis-password", key := "password" } } },
          { name := "TZ", value := "UTC" }, { name := "TZ", value := "CET" }] ∧
      sliceLen c.env = 3 := by
  obtain ⟨d, hd⟩ := (deploymentForRedis_env_order envRedis).2 6379 rfl
  obtain ⟨c, hc, henv, hlen⟩ := (deploymentForRedis_env_order envRedis).1 d hd
  exact ⟨d, c, hd, hc, henv, hlen⟩

/-- C13. For every Instance, the container built by `deploymentForRedis` has
as liveness probe the user-supplied probe when there is one and otherwise a TCP
check on the listen port with 15s initial delay, 1s timeout, 20s period and
failure threshold 3; and as readiness probe the user-supplied probe when there
is one and otherwise the command `redis-cli ping` with 5s initial delay, 1s
timeout, 10s period and failure threshold 3. A user-supplied probe is taken
whole. The Workload is built whenever the listen port is set. -/
theorem deploymentForRedis_probes (redis : Redis) :
    (∀ d, deploymentForRedis redis = .ok d →
      ∃ c p, redis.spec.port = some p ∧ d.spec.template.spec.containers = some [c] ∧
        (∀ l, redis.spec.livenessProbe = some l → c.livenessProbe = some l) ∧
        (redis.spec.livenessProbe = none →
          c.livenessProbe = some
            { handler := { exec := none, httpGet := none, tcpSocket := some (FromInt32 p) }
              initialDelaySeconds := 15
              timeoutSeconds := 1
              periodSeconds := 20
              successThreshold := 0
              failureThreshold := 3 }) ∧
        (∀ r, redis.spec.readinessProbe = some r → c.readinessProbe = some r) ∧
        (redis.spec.readinessProbe = none →
          c.readinessProbe = some
            { handler := { exec := some ["redis-cli", "ping"], httpGet := none, tcpSocket := none }
              initialDelaySeconds := 5
              timeoutSeconds := 1
              periodSeconds := 10
              successThreshold := 0
              failureThreshold := 3 })) ∧
    (∀ p, redis.spec.port = some p → ∃ d, deploymentForRedis redis = .ok d) := by
  constructor
  · intro d hd
    rw [deploymentForRedis_eq] at hd
    cases hp : redis.spec.port with
    | none => rw [hp] at hd; cases hd
    | some p =>
      rw [hp] at hd
      simp only [Except.ok.injEq] at hd
      subst hd
      refine ⟨desiredContainer redis p, p, rfl, rfl, ?_, ?_, ?_, ?_⟩
      · intro l hl; simp [desiredContainer, hl]
      · intro hl; simp [desiredContainer, hl, defaultLivenessProbe]
      · intro r hr; simp [desiredContainer, hr]
      · intro hr; simp [desiredContainer, hr, defaultReadinessProbe]
  · intro p hp
    rw [deploymentForRedis_eq, hp]
    exact ⟨_, rfl⟩

/-- Witness for C13: the user-supplied liveness probe is taken whole and the
readiness probe is the default. -/
theorem deploymentForRedis_probes_witness :
    ∃ d c, deploymentForRedis probedRedis = .ok d ∧
      d.spec.template.spec.containers = some [c] ∧
      c.livenessProbe = some userProbe ∧
      c.readinessProbe = some
        { handler := { exec := some ["redis-cli", "ping"] }
          initialDelaySeconds := 5
          timeoutSeconds := 1
          periodSeconds := 10
          failureThreshold := 3 } := by
  obtain ⟨d, hd⟩ := (deploymentForRedis_probes probedRedis).2 6379 rfl
  obtain ⟨c, p, -, hc, hl, -, -, hr⟩ := (deploymentForRedis_probes probedRedis).1 d hd
  exact ⟨d, c, hd, hc, hl userProbe rfl, hr rfl⟩

/-! ## C14 and C16: what `templatesMatch` compares -/

theorem templatesMatch_first (found desired : PodTemplateSpec) (fc dc : Container)
    (frest drest : List Container)
    (hf : found.spec.containers = some (fc :: frest))
    (hd : desired.spec.containers = some (dc :: drest)) :
    templatesMatch found desired =
      .ok (decide (fc.image = dc.image) && fc.resources.DeepEqual dc.resources &&
        decide (fc.env = dc.env) && fc.livenessProbe.isSome && fc.readinessProbe.isSome) := by
  simp only [templatesMatch, hf, hd, sliceIndex, sliceLen, Option.getD_some,
    List.getElem?_cons_zero, bind, Except.bind, pure, Except.pure]
  by_cases h1 : fc.image = dc.image <;>
    cases h2 : fc.resources.DeepEqual dc.resources <;>
    cases h3 : fc.livenessProbe <;> cases h4 : fc.readinessProbe <;>
    by_cases h5 : fc.env = dc.env <;> simp [h1, h2, h3, h4, h5]

theorem templatesMatch_nil (found desired : PodTemplateSpec)
    (h : found.spec.containers = none) : templatesMatch found desired = .ok false := by
  simp [templatesMatch, h, sliceLen, pure, Except.pure]

theorem templatesMatch_empty (found desired : PodTemplateSpec)
    (h : found.spec.containers = some []) :
    templatesMatch found desired = .error .indexOutOfRange := by
  simp [templatesMatch, h, sliceLen, sliceIndex, bind, Except.bind]


theorem reconcileDeployment_same_template (r : Redis) (w : World) (d dep : Deployment)
    (hF : ∀ i, w.faults i = none)
    (hd : deploymentForRedis r = .ok d)
    (hs : w.store.deployments (deploymentKey r) = some dep)
    (hk : dep.meta.key = deploymentKey r)
    (htm : templatesMatch dep.spec.template d.spec.template = .ok true) :
    (∃ dep1, (reconcileDeployment r w).1 = .ok (.ok dep1) ∧
      dep1.spec.template = dep.spec.template ∧
      (reconcileDeployment r w).2.store.deployments (deploymentKey r) = some
        { dep with spec := { dep.spec with replicas := dep1.spec.replicas } }) ∧
    (replicasMatch dep.spec.replicas d.spec.replicas = true →
      newCalls w (reconcileDeployment r w).2 = [Call.getDeployment (deploymentKey r)] ∧
      (reconcileDeployment r w).2.store = w.store) := by
  rw [reconcileDeployment_found_eq r w d dep hF hd hs hk, htm]
  simp only [deploymentNeedsUpdate, Bool.not_true, Bool.or_false]
  cases hrm : replicasMatch dep.spec.replicas d.spec.replicas with
  | true =>
    simp only [Bool.not_true, Bool.false_eq_true, if_false]
    refine ⟨⟨_, rfl, ?_, ?_⟩, fun _ => ⟨newCalls_append _ _ _ rfl, trivial⟩⟩
    · simp [syncedDeployment]
    · simp [syncedDeployment, hrm, hs]
  | false =>
    simp only [Bool.not_false, if_true]
    refine ⟨⟨_, rfl, ?_, ?_⟩, fun h => by cases h⟩
    · simp [mergePatchDeployment, syncedDeployment]
    · simp [mergePatchDeployment, syncedDeployment, hrm]

/-- C14, the code at the failing input. When the found template has an empty,
non-nil container list, `templatesMatch` faults with index out of range,
whatever the desired template, and `reconcileDeployment` faults with it; only
for a nil container list does `templatesMatch` return false, and
`reconcileDeployment` then restores the desired template. -/
theorem templatesMatch_empty_list_faults :
    (∀ found desired : PodTemplateSpec, found.spec.containers = some [] →
      templatesMatch found desired = .error .indexOutOfRange) ∧
    (∀ found desired : PodTemplateSpec, found.spec.containers = none →
      templatesMatch found desired = .ok false) ∧
    templatesMatch emptyContainersDeployment.spec.template testDeployment.spec.template =
      .error .indexOutOfRange ∧
    (reconcileDeployment testRedis (calmWorld (storeWithDeployment emptyContainersDeployment))).1 =
      .error .indexOutOfRange ∧
    (reconcileDeployment testRedis (calmWorld (storeWithDeployment nilContainersDeployment))).1 =
      .ok (.ok testDeployment) :=
  ⟨templatesMatch_empty, templatesMatch_nil, by decide!, by decide!, by decide!⟩

theorem mem_of_alookup_ne_none (k : String) (m : List (String × String))
    (h : alookup k m ≠ none) : ∃ e ∈ m, e.1 = k := by
  induction m with
  | nil => simp [alookup] at h
  | cons x rest ih =>
    obtain ⟨k1, v⟩ := x
    by_cases hk : k1 = k
    · exact ⟨(k1, v), List.mem_cons_self _ _, hk⟩
    · simp only [alookup, hk, if_false] at h
      obtain ⟨e, he, hek⟩ := ih h
      exact ⟨e, List.mem_cons_of_mem _ he, hek⟩

theorem sameBindings_iff (a b : List (String × String)) :
    sameBindings a b = true ↔ ∀ k, alookup k a = alookup k b := by
  constructor
  · intro h k
    simp only [sameBindings, Bool.and_eq_true, List.all_eq_true, beq_iff_eq] at h
    obtain ⟨ha, hb⟩ := h
    by_cases hka : alookup k a = none
    · by_cases hkb : alookup k b = none
      · rw [hka, hkb]
      · obtain ⟨e, he, hek⟩ := mem_of_alookup_ne_none k b hkb
        have := hb e he
        rw [hek] at this
        exact this.symm
    · obtain ⟨e, he, hek⟩ := mem_of_alookup_ne_none k a hka
      have := ha e he
      rw [hek] at this
      exact this
  · intro h
    simp only [sameBindings, Bool.and_eq_true, List.all_eq_true, beq_iff_eq]
    exact ⟨fun e _ => h e.1, fun e _ => (h e.1).symm⟩

theorem goMap_deepEqual_iff (a b : GoMap) : a.DeepEqual b = true ↔ a.sameAs b := by
  cases a with
  | none =>
    cases b with
    | none => simp [GoMap.DeepEqual, GoMap.sameAs]
    | some y => simp [GoMap.DeepEqual, GoMap.sameAs]
  | some x =>
    cases b with
    | none => simp [GoMap.DeepEqual, GoMap.sameAs]
    | some y =>
      simp only [GoMap.DeepEqual, GoMap.sameAs, sameBindings_iff, GoMap.lookup, GoMap.entries,
        Option.getD_some]
      simp

theorem resources_deepEqual_iff (a b : ResourceRequirements) :
    a.DeepEqual b = true ↔ a.sameAs b := by
  simp [ResourceRequirements.DeepEqual, ResourceRequirements.sameAs, goMap_deepEqual_iff]

/-- C16. For every found and desired template with at least one container
each, `templatesMatch` returns without fault, and returns true exactly when the
first containers have equal image, equal resource requirements (limits and
requests are the same maps: both nil or both non-nil, with the same value, or
none, for every key) and equal environment list and the found container has
both its liveness and its readiness probe set. Consequently, when the stored Workload has as first
container the desired one with other container ports and with probes of other
contents, `templatesMatch` returns true and `reconcileDeployment` returns a
Workload with the stored template, leaves the stored template as it was and,
when the replica counts match too, issues the read only and leaves the store
unchanged. -/
theorem templatesMatch_managed_fields :
    (∀ (found desired : PodTemplateSpec) (fc dc : Container) (frest drest : List Container),
      found.spec.containers = some (fc :: frest) →
      desired.spec.containers = some (dc :: drest) →
      ∃ b, templatesMatch found desired = .ok b ∧
        (b = true ↔
          fc.image = dc.image ∧ fc.resources.sameAs dc.resources ∧ fc.env = dc.env ∧
            fc.livenessProbe ≠ none ∧ fc.readinessProbe ≠ none)) ∧
    (∀ (r : Redis) (w : World) (d dep : Deployment) (dc : Container) (drest frest : List Container)
        (ports : List ContainerPort) (l rp : Probe),
      (∀ i, w.faults i = none) →
      deploymentForRedis r = .ok d →
      w.store.deployments (deploymentKey r) = some dep →
      dep.meta.key = deploymentKey r →
      d.spec.template.spec.containers = some (dc :: drest) →
      dep.spec.template.spec.containers =
        some ({ dc with ports := ports, livenessProbe := some l, readinessProbe := some rp } ::
          frest) →
      templatesMatch dep.spec.template d.spec.template = .ok true ∧
      (∃ dep1, (reconcileDeployment r w).1 = .ok (.ok dep1) ∧
        dep1.spec.template = dep.spec.template ∧
        (reconcileDeployment r w).2.store.deployments (deploymentKey r) = some
          { dep with spec := { dep.spec with replicas := dep1.spec.replicas } }) ∧
      (replicasMatch dep.spec.replicas d.spec.replicas = true →
        newCalls w (reconcileDeployment r w).2 = [Call.getDeployment (deploymentKey r)] ∧
        (reconcileDeployment r w).2.store = w.store)) := by
  constructor
  · intro found desired fc dc frest drest hf hd
    refine ⟨_, templatesMatch_first found desired fc dc frest drest hf hd, ?_⟩
    rw [← resources_deepEqual_iff]
    cases h3 : fc.livenessProbe <;> cases h4 : fc.readinessProbe <;> simp [and_assoc]
  · intro r w d dep dc drest frest ports l rp hF hd hs hk hdc hfc
    have htm : templatesMatch dep.spec.template d.spec.template = .ok true := by
      rw [templatesMatch_first _ _ _ dc frest drest hfc hdc]
      simp [resources_deepEqual_refl]
    exact ⟨htm, reconcileDeployment_same_template r w d dep hF hd hs hk htm⟩

/-- Witness for C16: the stored Workload of the test instance with another
container port and other probes is judged matching, and the pass issues the
read only; with a CPU limit the instance does not declare it is judged not
matching. -/
theorem templatesMatch_managed_fields_witness :
    templatesMatch reprobedDeployment.spec.template testDeployment.spec.template = .ok true ∧
    newCalls (calmWorld (storeWithDeployment reprobedDeployment))
      (reconcileDeployment testRedis (calmWorld (storeWithDeployment reprobedDeployment))).2 =
        [Call.getDeployment (deploymentKey testRedis)] ∧
    templatesMatch resizedDeployment.spec.template testDeployment.spec.template = .ok false :=
  have h := templatesMatch_managed_fields.2 testRedis
    (calmWorld (storeWithDeployment reprobedDeployment)) testDeployment reprobedDeployment
    (desiredContainer testRedis 6379) [] [] [{ containerPort := 7000, name := "other" }]
    defaultReadinessProbe (defaultLivenessProbe 1)
    (fun _ => rfl) (by decide!) (by decide!) (by decide!) (by decide!) (by decide!)
  ⟨h.1, (h.2.2 (by decide!)).1, by decide!⟩

/-! ## C15: unset replica count and ports -/

/-- C15, counterexample. The builders apply no default: `serviceForRedis`
faults with a nil dereference when the endpoint port or the listen port is
unset, `deploymentForRedis` faults when the listen port is unset, and
`updateStatus` faults, before any store call, when the replica count is
unset. -/
theorem builders_fault_on_unset_values :
    (∀ redis : Redis, redis.spec.service.port = none ∨ redis.spec.port = none →
      serviceForRedis redis = .error .nilDereference) ∧
    (∀ redis : Redis, redis.spec.port = none →
      deploymentForRedis redis = .error .nilDereference) ∧
    (∀ (redis : Redis) (deployment : Option Deployment) (w : World),
      redis.spec.replicas = none →
      updateStatus redis deployment w = (.error .nilDereference, w)) ∧
    serviceForRedis noServicePortRedis = .error .nilDereference ∧
    serviceForRedis noPortRedis = .error .nilDereference ∧
    deploymentForRedis noPortRedis = .error .nilDereference ∧
    (updateStatus noReplicasRedis (some testDeployment) (calmWorld (storeWith noReplicasRedis))).1 =
      .error .nilDereference := by
  refine ⟨?_, ?_, ?_, by decide!, by decide!, by decide!, by decide!⟩
  · intro redis h
    rw [serviceForRedis_eq]
    rcases h with h | h
    · rw [h]
    · rw [h]; cases redis.spec.service.port <;> rfl
  · intro redis h
    rw [deploymentForRedis_eq, h]
  · intro redis deployment w h
    simp [updateStatus, h, deref, liftExcept_error]

/-- C15, amended. For every Instance whose replica count, listen port and
endpoint port are set, `serviceForRedis`, `deploymentForRedis` and
`updateStatus` do not fault and operate on exactly those values: the Endpoint
port is the endpoint port targeting the listen port, the Workload has the
replica count and the container port (and default liveness check) on the listen
port, and `updateStatus` issues the status patch computed from the replica
count. -/
theorem builders_use_set_values (redis : Redis) (n p sp : Int)
    (hrep : redis.spec.replicas = some n) (hport : redis.spec.port = some p)
    (hsp : redis.spec.service.port = some sp) (deployment : Option Deployment) (w : World) :
    (∃ svc, serviceForRedis redis = .ok svc ∧
      svc.spec.ports = [{ port := sp, targetPort := FromInt32 p, name := "redis" }]) ∧
    (∃ dep c, deploymentForRedis redis = .ok dep ∧ dep.spec.replicas = some n ∧
      dep.spec.template.spec.containers = some [c] ∧
      c.ports = [{ containerPort := p, name := "redis" }] ∧
      (redis.spec.livenessProbe = none →
        ∃ l, c.livenessProbe = some l ∧ l.handler.tcpSocket = some (FromInt32 p))) ∧
    (∃ r, (updateStatus redis deployment w).1 = .ok r) ∧
    newCalls w (updateStatus redis deployment w).2 =
      [Call.statusPatch (statusCopyFor redis deployment n w.now) redis] := by
  refine ⟨?_, ?_, ?_, ?_⟩
  · rw [serviceForRedis_eq, hsp, hport]
    exact ⟨_, rfl, rfl⟩
  · rw [deploymentForRedis_eq, hport]
    refine ⟨_, desiredContainer redis p, rfl, hrep, rfl, rfl, ?_⟩
    intro hl
    exact ⟨_, rfl, by simp [hl, defaultLivenessProbe]⟩
  · simp only [updateStatus, hrep, deref, bind_run, liftExcept_ok, readClock_run, StatusPatch,
      storeCall]
    generalize returned (@callOutcome Redis _ _) = r
    cases r <;> exact ⟨_, rfl⟩
  · simp only [updateStatus, hrep, deref, bind_run, liftExcept_ok, readClock_run, StatusPatch,
      storeCall]
    generalize returned (@callOutcome Redis _ _) = r
    cases r <;> (simp only [pure_run]; apply newCalls_append; simp [statusCopyFor])

/-- Witness for C15 (amended): the test instance, with replicas 1 and both
ports 6379. -/
theorem builders_use_set_values_witness :
    (∃ svc, serviceForRedis testRedis = .ok svc ∧
      svc.spec.ports = [{ port := 6379, targetPort := FromInt32 6379, name := "redis" }]) ∧
    (∃ r, (updateStatus testRedis none (calmWorld (storeWith testRedis))).1 = .ok r) :=
  have h := builders_use_set_values testRedis 1 6379 6379 rfl rfl rfl none
    (calmWorld (storeWith testRedis))
  ⟨h.1, h.2.2.1⟩

/-! ## C17: the cleanup guard and an instance under deletion -/

theorem Reconcile_unguarded (redis : Redis) (w : World)
    (hF : ∀ i, w.faults i = none)
    (hs : w.store.redis redis.meta.key = some redis)
    (hfin : ContainsFinalizer redis FinalizerName = false) :
    Reconcile redis.meta.key w =
      reconcileFinalize redis.meta.key (entering redis w.now)
        { w with
            calls := w.calls ++ preCalls redis w.now
            store :=
              { w.store with
                  redis := Function.update w.store.redis redis.meta.key
                    (some (entering redis w.now)) } } := by
  by_cases hc : redis.status.conditions.length = 0
  · rw [Reconcile_found_fresh redis w hF hs hc]
    have hfin1 : ContainsFinalizer (withInitialCondition redis w.now) FinalizerName = false :=
      hfin
    have hrun := reconcileGuard_absent (withInitialCondition redis w.now)
      { w with
          calls := w.calls ++ [Call.getRedis redis.meta.key,
            Call.statusUpdate (withInitialCondition redis w.now)]
          store :=
            { w.store with
                redis := Function.update w.store.redis redis.meta.key
                  (some (withInitialCondition redis w.now)) } }
      hF (by simp [withInitialCondition]) hfin1
    have hkk : (withInitialCondition redis w.now).meta.key = redis.meta.key := rfl
    rw [hkk] at hrun
    rw [hrun]
    simp [preCalls, hc, hfin, entering]
  · rw [Reconcile_found_conditions _ redis w (hF _) hs hc]
    rw [reconcileGuard_absent redis
      { w with calls := w.calls ++ [Call.getRedis redis.meta.key] } hF hs hfin]
    simp [preCalls, hc, hfin, entering]

/-- C17, the code at the failing input. For every stored Instance whose
deletion timestamp is set and that does not carry the cleanup guard, a pass
whose store calls succeed issues an update of the Instance with the guard
appended to its finalizers (deletion timestamp still set), then re-fetches,
issues an update that removes the guard again, and returns done. -/
theorem Reconcile_adds_guard_while_deleting (redis : Redis) (w : World)
    (hF : ∀ i, w.faults i = none)
    (hs : w.store.redis redis.meta.key = some redis)
    (hdel : redis.meta.deletionTimestamp ≠ none)
    (hfin : ContainsFinalizer redis FinalizerName = false) :
    (Reconcile redis.meta.key w).1 = .ok reconciled ∧
    newCalls w (Reconcile redis.meta.key w).2 =
      preCalls redis w.now ++
        [Call.getRedis redis.meta.key,
          Call.update (RemoveFinalizer (entering redis w.now) FinalizerName)] ∧
    Call.update (entering redis w.now) ∈ newCalls w (Reconcile redis.meta.key w).2 ∧
    (entering redis w.now).meta.finalizers = redis.meta.finalizers ++ [FinalizerName] ∧
    (entering redis w.now).meta.deletionTimestamp = redis.meta.deletionTimestamp := by
  have hkey : (entering redis w.now).meta.key = redis.meta.key := by
    unfold entering; rw [AddFinalizer_key]; split <;> rfl
  have hdt : (entering redis w.now).meta.deletionTimestamp = redis.meta.deletionTimestamp := by
    unfold entering; rw [AddFinalizer_deletionTimestamp]; split <;> rfl
  have hcf : ContainsFinalizer (entering redis w.now) FinalizerName = true := by
    unfold entering; exact ContainsFinalizer_AddFinalizer _ _
  have hrun := reconcileFinalize_deleting (entering redis w.now) (entering redis w.now)
    { w with
        calls := w.calls ++ preCalls redis w.now
        store :=
          { w.store with
              redis := Function.update w.store.redis redis.meta.key
                (some (entering redis w.now)) } }
    hF (by rw [hkey]; simp) rfl (by rw [hdt]; exact hdel) hcf
  rw [hkey] at hrun
  have hcalls : newCalls w (Reconcile redis.meta.key w).2 =
      preCalls redis w.now ++
        [Call.getRedis redis.meta.key,
          Call.update (RemoveFinalizer (entering redis w.now) FinalizerName)] := by
    rw [Reconcile_unguarded redis w hF hs hfin, hrun]
    apply newCalls_append
    simp
  refine ⟨?_, hcalls, ?_, ?_, hdt⟩
  · rw [Reconcile_unguarded redis w hF hs hfin, hrun]
  · rw [hcalls]
    simp [preCalls, hfin]
  · simp only [ContainsFinalizer] at hfin
    unfold entering AddFinalizer
    split <;> simp [hfin, withInitialCondition]

/-- Witness for C17: the test instance under deletion, held by another
finalizer; the third call of the pass adds the guard. -/
theorem Reconcile_adds_guard_while_deleting_witness :
    newCalls (calmWorld (storeWith unguardedDeletingRedis))
      (Reconcile testKey (calmWorld (storeWith unguardedDeletingRedis))).2 =
      [Call.getRedis testKey, Call.getRedis testKey,
        Call.update (AddFinalizer unguardedDeletingRedis FinalizerName),
        Call.getRedis testKey, Call.update unguardedDeletingRedis] ∧
    (AddFinalizer unguardedDeletingRedis FinalizerName).meta.finalizers =
      ["example.com/other", "redis.yazio.com/finalizer"] :=
  have h := Reconcile_adds_guard_while_deleting unguardedDeletingRedis
    (calmWorld (storeWith unguardedDeletingRedis)) (fun _ => rfl) (by decide!) (by decide!)
    (by decide!)
  ⟨h.2.1, h.2.2.2.1⟩

end RedisOperator
